import Mathlib

/-!
Verification development for the frontier-alpha repository.

The repository has two Python source files:

* `src/ml/main.py` — a FastAPI server exposing `/optimize` (portfolio
  optimization through the external pypfopt library), `/sentiment` (a stub),
  and `/health`.
* `src/scripts/migrate-colors.py` — a one-off text-substitution utility that
  rewrites hardcoded Tailwind color classes to CSS variables.

Python floats are modelled as rationals (`ℚ`); Python lists as `List`.  The
numerical work of `/optimize` (pandas/pypfopt calls) is external library code
that is not part of the repository; those calls are abstracted as an explicit
record of pure functions (`MLKernel`), while everything the repository's own
code decides — validation (there is none), objective dispatch, response
construction — is embedded faithfully.  The weight-cleaning step named by the
specification is likewise external (`ef.clean_weights()`), and is modelled
from the specification's §4.3 description.
-/

namespace FrontierAlpha

/-- Typed error taxonomy named by the specification (§7).  `src/ml/main.py`
defines none of these exceptions and never raises one; the constructors exist
so that claims about error behaviour can be stated against the embedding. -/
inductive MLError
  | inputValidation
  | insufficientData
  | infeasible
  | solverFailure
  | degenerateResult
deriving DecidableEq

/-- `OptimizeRequest` (src/ml/main.py lines 12–16).  The pydantic field
defaults become structure-field defaults; the float default `0.05` is the
rational `1/20`. -/
structure OptimizeRequest where
  symbols : List String
  returns : List (List ℚ)
  objective : String := "max_sharpe"
  risk_free_rate : ℚ := 1/20
deriving DecidableEq

/-- The solver invocation chosen by the `if`/`elif`/`else` on lines 38–43:
`max_sharpe` with the request's risk-free rate, `min_volatility`, or — in the
`else` branch, taken for every unrecognized objective string — `max_sharpe()`
with the library-default risk-free rate. -/
inductive SolverCall
  | maxSharpe (risk_free_rate : ℚ)
  | maxSharpeDefault
  | minVolatility
deriving DecidableEq

/-- Objective dispatch of lines 38–43, verbatim: unrecognized selectors fall
through to the `else` branch. -/
def selectSolverCall (objective : String) (risk_free_rate : ℚ) : SolverCall :=
  if objective = "max_sharpe" then .maxSharpe risk_free_rate
  else if objective = "min_volatility" then .minVolatility
  else .maxSharpeDefault

/-- One step of the `optimize` request handler.  The `raise` constructor is
never produced by the embedding, because the handler's body (lines 22–53)
contains no validation and raises no typed error; it exists so that claims
about raising can be stated. -/
inductive OptStep
  | raise (e : MLError)
  | estimateMu
  | estimateCov
  | solve (call : SolverCall)
  | cleanWeights
  | evaluate (risk_free_rate : ℚ)
  | respond
deriving DecidableEq

/-- Control flow of `optimize` (lines 22–53): the body unconditionally
estimates expected returns and the shrunk covariance, runs the dispatched
solver call, cleans the weights, evaluates performance with the request's
risk-free rate, and responds.  No step is conditional on the input shape. -/
def optimizeTrace (req : OptimizeRequest) : List OptStep :=
  [.estimateMu, .estimateCov,
   .solve (selectSolverCall req.objective req.risk_free_rate),
   .cleanWeights, .evaluate req.risk_free_rate, .respond]

/-- The three performance numbers unpacked from
`ef.portfolio_performance(...)` on lines 46 and 50–52. -/
structure PerformanceSummary where
  expected_return : ℚ
  volatility : ℚ
  sharpe : ℚ
deriving DecidableEq

/-- The JSON object returned on lines 48–53. -/
structure OptimizeResponse where
  weights : List (String × ℚ)
  expected_return : ℚ
  volatility : ℚ
  sharpe : ℚ
deriving DecidableEq

/-- Lines 48–53: the response is built directly from the cleaned weights and
the performance tuple.  There is no guard of any kind between the performance
computation and the response — in particular no degenerate-volatility check —
so the embedding always returns `.ok`. -/
def buildResponse (cleaned : List (String × ℚ)) (perf : PerformanceSummary) :
    Except MLError OptimizeResponse :=
  .ok { weights := cleaned, expected_return := perf.expected_return,
        volatility := perf.volatility, sharpe := perf.sharpe }

/-- The external numeric kernel: the pandas/pypfopt functions invoked by
`optimize` (lines 25–46).  Their implementations are library code outside this
repository; they enter the embedding as an explicit record of pure functions,
so every theorem about the handler quantifies over them. -/
structure MLKernel where
  meanHistoricalReturn : List (List ℚ) → List ℚ
  ledoitWolf : List (List ℚ) → List (List ℚ)
  runSolver : SolverCall → List ℚ → List (List ℚ) → List ℚ
  cleanWeights : List ℚ → List ℚ
  performanceOf : ℚ → List ℚ → List ℚ → List (List ℚ) → PerformanceSummary

/-- The `optimize` handler (lines 22–53) over an abstract kernel `K`:
estimate, dispatch and solve, clean, evaluate, respond.  Exactly mirroring the
source, no input validation happens anywhere and no typed error is raised. -/
def optimize (K : MLKernel) (req : OptimizeRequest) :
    Except MLError OptimizeResponse :=
  let mu := K.meanHistoricalReturn req.returns
  let S := K.ledoitWolf req.returns
  let raw := K.runSolver (selectSolverCall req.objective req.risk_free_rate) mu S
  let cleaned := K.cleanWeights raw
  let perf := K.performanceOf req.risk_free_rate raw mu S
  buildResponse (req.symbols.zip cleaned) perf

/-- A degenerate instantiation of the abstract kernel, used only to evaluate
theorems about the handler's control flow at concrete inputs. -/
def trivialKernel : MLKernel where
  meanHistoricalReturn := fun _ => []
  ledoitWolf := fun _ => []
  runSolver := fun _ _ _ => []
  cleanWeights := fun w => w
  performanceOf := fun _ _ _ _ => { expected_return := 0, volatility := 0, sharpe := 0 }

/-- One entry of the `/sentiment` response. -/
structure SentimentResult where
  label : String
  confidence : ℚ
deriving DecidableEq

/-- `analyze_sentiment` (lines 55–59): one fixed neutral placeholder per input
text, ignoring the text. -/
def analyze_sentiment (texts : List String) : List SentimentResult :=
  texts.map fun _ => { label := "neutral", confidence := 1/2 }

/-! ## Weight cleaner, modelled from the spec (§4.3)

The cleaning step invoked on line 45 (`ef.clean_weights()`) is external
library code; the repository does not contain it.  The definitions below are
modelled from the specification's §4.3: weights below the zero-threshold are
set to exactly zero, the remaining weights are renormalized to sum to 1,
values are rounded to the configured precision, and the residual rounding
error is added to the single largest-weight asset (first such index on ties)
so the sum remains exactly 1. -/

/-- Round a rational to `prec` decimal places (half away from zero for the
nonnegative values that arise here). -/
def roundTo (prec : ℕ) (x : ℚ) : ℚ := (⌊x * 10 ^ prec + 1/2⌋ : ℚ) / 10 ^ prec

/-- Modelled from the spec: "Any weight below the zero-threshold is set to
exactly zero". -/
def thresholdWeights (cutoff : ℚ) (w : List ℚ) : List ℚ :=
  w.map fun x => if x < cutoff then 0 else x

/-- Modelled from the spec: "remaining nonzero weights are renormalized to
sum to 1".  (In `ℚ`, division by zero yields zero, which only occurs in the
degenerate all-thresholded case.) -/
def renormalize (w : List ℚ) : List ℚ :=
  w.map fun x => x / w.sum

/-- Index of the first occurrence of the maximum entry. -/
def argmaxIdx : List ℚ → ℕ
  | [] => 0
  | x :: xs =>
    let j := argmaxIdx xs
    if x < xs.getD j x then j + 1 else 0

/-- Add `r` to the entry at index `i` (no change when `i` is out of range). -/
def addAt : ℕ → ℚ → List ℚ → List ℚ
  | _, _, [] => []
  | 0, r, x :: xs => (x + r) :: xs
  | n + 1, r, x :: xs => x :: addAt n r xs

/-- Modelled from the spec: the full Weight Cleaner of §4.3 — threshold,
renormalize, round, and add the rounding residual to the single
largest-weight asset so the sum is exactly 1. -/
def clean_weights (cutoff : ℚ) (prec : ℕ) (w : List ℚ) : List ℚ :=
  let rounded := (renormalize (thresholdWeights cutoff w)).map (roundTo prec)
  addAt (argmaxIdx rounded) (1 - rounded.sum) rounded

/-- The index that absorbs the rounding residual during cleaning. -/
def absorberIdx (cutoff : ℚ) (prec : ℕ) (w : List ℚ) : ℕ :=
  argmaxIdx ((renormalize (thresholdWeights cutoff w)).map (roundTo prec))

/-- A 160-asset raw weight vector: 159 weights of `0.006251` and one of
`0.006091`.  All entries are above the `1e-4` zero-threshold and sum to
exactly 1, yet rounding each to 4 decimals rounds every entry up, so the
rounding residual is `-0.0078` and adding it to the largest weight
(`0.0063` after rounding) drives that weight to `-0.0015`. -/
def manyAssetWeights : List ℚ :=
  List.replicate 159 (6251/1000000) ++ [6091/1000000]

/-! ## The color-migration script (src/scripts/migrate-colors.py)

`migrate_content` applies seven `re.sub` rewrites followed by six literal
`str.replace` substitutions.  Strings are embedded as `List Char`.  Each regex
is hand-compiled to a deterministic match-at-head function with exactly the
Python regex semantics for these patterns: alternatives are tried in order
(the color alternation is prefix-free, so at most one alternative fits),
`\d+` is greedy, and the trailing `(?!/)` lookahead backtracks at most one
digit, which is the only backtracking those patterns can perform.  `re.sub`
and `str.replace` both scan left to right, replace non-overlapping matches,
and never rescan replacement text; `rewriteSteps`/`replaceSteps` mirror that
with an explicit fuel (one unit per character) so that every definition is
structurally recursive and computable. -/

namespace Migrate

/-- Characters of a string literal. -/
def cl (s : String) : List Char := s.data

/-- `COLOR_SEMANTIC` (lines 10–17), in Python dict insertion order. -/
def COLOR_SEMANTIC : List (List Char × List Char) :=
  [(cl "green", cl "positive"), (cl "emerald", cl "positive"), (cl "teal", cl "positive"),
   (cl "red", cl "negative"), (cl "rose", cl "negative"),
   (cl "blue", cl "info"), (cl "sky", cl "info"), (cl "cyan", cl "info"),
   (cl "amber", cl "warning"), (cl "yellow", cl "warning"), (cl "orange", cl "warning"),
   (cl "purple", cl "accent"), (cl "indigo", cl "accent"), (cl "violet", cl "accent"),
   (cl "fuchsia", cl "accent"), (cl "pink", cl "accent")]

/-- `COLOR_RGBA` (lines 20–28), in Python dict insertion order. -/
def COLOR_RGBA : List (List Char × List Char) :=
  [(cl "green", cl "16, 185, 129"), (cl "emerald", cl "16, 185, 129"), (cl "teal", cl "20, 184, 166"),
   (cl "red", cl "239, 68, 68"), (cl "rose", cl "244, 63, 94"),
   (cl "blue", cl "59, 130, 246"), (cl "sky", cl "14, 165, 233"), (cl "cyan", cl "6, 182, 212"),
   (cl "amber", cl "245, 158, 11"), (cl "yellow", cl "234, 179, 8"), (cl "orange", cl "249, 115, 22"),
   (cl "purple", cl "123, 44, 255"), (cl "indigo", cl "99, 102, 241"), (cl "violet", cl "139, 92, 246"),
   (cl "fuchsia", cl "217, 70, 239"), (cl "pink", cl "236, 72, 153"),
   (cl "gray", cl "107, 114, 128"), (cl "slate", cl "100, 116, 139")]

/-- First-match association-list lookup (Python dict `.get`). -/
def lookupAssoc (m : List (List Char × List Char)) (k : List Char) : Option (List Char) :=
  match m with
  | [] => none
  | (k2, v) :: rest => if k = k2 then some v else lookupAssoc rest k

/-- Stable insertion for a length-descending sort: a new element goes in
front of the first element whose length does not exceed its own, which keeps
earlier list elements in front of equal-length later ones. -/
def insertLenDesc (s : List Char) : List (List Char) → List (List Char)
  | [] => [s]
  | t :: ts => if t.length ≤ s.length then s :: t :: ts else t :: insertLenDesc s ts

/-- Python `sorted(keys, key=len, reverse=True)`: stable, descending by
length. -/
def sortLenDesc : List (List Char) → List (List Char)
  | [] => []
  | s :: ss => insertLenDesc s (sortLenDesc ss)

/-- `ALL_COLORS` (line 31): regex alternation order of the semantic colors.
(Built by the script but used by none of its patterns.) -/
def ALL_COLORS : List (List Char) := sortLenDesc (COLOR_SEMANTIC.map Prod.fst)

/-- `ALL_COLORS_PLUS_GRAY` (line 32): alternation order over the semantic
colors plus gray and slate. -/
def ALL_COLORS_PLUS_GRAY : List (List Char) :=
  sortLenDesc ((COLOR_SEMANTIC.map Prod.fst) ++ [cl "gray", cl "slate"])

/-- `get_semantic` (lines 35–37). -/
def get_semantic (color : List Char) : List Char :=
  (lookupAssoc COLOR_SEMANTIC color).getD (cl "info")

/-- Match a literal at the head; `some rest` on success. -/
def dropLit : List Char → List Char → Option (List Char)
  | [], l => some l
  | _ :: _, [] => none
  | c :: cs, d :: ds => if c = d then dropLit cs ds else none

/-- First alternative that matches at the head (regex alternation order). -/
def matchAlt (alts : List (List Char)) (l : List Char) : Option (List Char × List Char) :=
  match alts with
  | [] => none
  | a :: rest =>
    match dropLit a l with
    | some r => some (a, r)
    | none => matchAlt rest l

/-- Greedy `\d+` capture: the maximal digit run and the remainder. -/
def takeDigits (l : List Char) : List Char × List Char :=
  (l.takeWhile Char.isDigit, l.dropWhile Char.isDigit)

/-- Decimal digit character. -/
def digitChar (d : ℕ) : Char := Char.ofNat (48 + d)

/-- Decimal digits of `n`, least significant first (`fuel ≥ 1` suffices once
`fuel` exceeds the digit count; callers pass `n + 1`). -/
def natDigitsRev : ℕ → ℕ → List ℕ
  | 0, _ => []
  | fuel + 1, n => if n < 10 then [n] else n % 10 :: natDigitsRev fuel (n / 10)

/-- Decimal rendering of a natural number. -/
def natToDigits (n : ℕ) : List Char := ((natDigitsRev (n + 1) n).reverse).map digitChar

/-- Numeric value of a digit group (`int(...)`, leading zeros allowed). -/
def natOfDigits (ds : List Char) : ℕ :=
  ds.foldl (fun acc c => 10 * acc + (c.toNat - 48)) 0

/-- Rendering of the opacity value `int(ds)/100` interpolated by the
f-strings: exact decimal rendering of `n/100` with at least one fractional
digit.  (Python renders the shortest repr of the nearest double, which
coincides with this for every realistic opacity; any divergence stays within
the characters `0-9`, `.`, `e`, `+`, and none of the script's patterns can
match inside such a numeric run, which is all the development relies on.) -/
def opacityRepr (ds : List Char) : List Char :=
  let n := natOfDigits ds
  let ip := natToDigits (n / 100)
  let fr := n % 100
  ip ++ [ '.' ] ++
    (if fr = 0 then [ '0' ]
     else if fr % 10 = 0 then [digitChar (fr / 10)]
     else [digitChar (fr / 10), digitChar (fr % 10)])

/-- `replace_bg_opacity` (lines 47–53): the matched color, shade digits and
opacity digits; falls back to the whole match when the color has no rgba
entry. -/
def replace_bg_opacity (color g2 g3 : List Char) : List Char :=
  match lookupAssoc COLOR_RGBA color with
  | some rgba => cl "bg-[rgba(" ++ rgba ++ [ ',' ] ++ opacityRepr g3 ++ cl ")]"
  | none => cl "bg-" ++ color ++ [ '-' ] ++ g2 ++ [ '/' ] ++ g3

/-- `replace_border_opacity` (lines 61–67). -/
def replace_border_opacity (color g2 g3 : List Char) : List Char :=
  match lookupAssoc COLOR_RGBA color with
  | some rgba => cl "border-[rgba(" ++ rgba ++ [ ',' ] ++ opacityRepr g3 ++ cl ")]"
  | none => cl "border-" ++ color ++ [ '-' ] ++ g2 ++ [ '/' ] ++ g3

/-- `replace_hover_bg_opacity` (lines 75–81). -/
def replace_hover_bg_opacity (color g2 g3 : List Char) : List Char :=
  match lookupAssoc COLOR_RGBA color with
  | some rgba => cl "hover:bg-[rgba(" ++ rgba ++ [ ',' ] ++ opacityRepr g3 ++ cl ")]"
  | none => cl "hover:bg-" ++ color ++ [ '-' ] ++ g2 ++ [ '/' ] ++ g3

/-- Body of `replace_text` (lines 91–103) without the prefix group (the
prefix is prepended by the caller, as in the f-strings). -/
def replace_text (color g3 : List Char) : List Char :=
  if color = cl "gray" ∨ color = cl "slate" then
    let shade := natOfDigits g3
    if 800 ≤ shade then cl "text-[var(--color-text)]"
    else if 600 ≤ shade then cl "text-[var(--color-text-secondary)]"
    else cl "text-[var(--color-text-muted)]"
  else cl "text-[var(--color-" ++ get_semantic color ++ cl ")]"

/-- Body of `replace_bg_solid` (lines 113–125) without the prefix group. -/
def replace_bg_solid (color g3 : List Char) : List Char :=
  if color = cl "gray" ∨ color = cl "slate" then
    let shade := natOfDigits g3
    if shade ≤ 100 then cl "bg-[var(--color-bg)]"
    else if shade ≤ 300 then cl "bg-[var(--color-bg-secondary)]"
    else cl "bg-[var(--color-bg-tertiary)]"
  else cl "bg-[var(--color-" ++ get_semantic color ++ cl ")]"

/-- `replace_border` (lines 135–140). -/
def replace_border (color : List Char) : List Char :=
  if color = cl "gray" ∨ color = cl "slate" then cl "border-[var(--color-border)]"
  else cl "border-[var(--color-" ++ get_semantic color ++ cl ")]"

/-- Body of `replace_ring` (lines 150–154) without the prefix group. -/
def replace_ring (color : List Char) : List Char :=
  let sem := if (lookupAssoc COLOR_SEMANTIC color).isSome then get_semantic color
    else cl "accent"
  cl "ring-[var(--color-" ++ sem ++ cl ")]"

/-- The front `LEAD ++ COLOR ++ -` shared by all seven regex patterns, as a
matcher: the consumed color and the remainder after the dash. -/
def frontEval (lead : List Char) (l : List Char) : Option (List Char × List Char) :=
  match dropLit lead l with
  | none => none
  | some l1 =>
    match matchAlt ALL_COLORS_PLUS_GRAY l1 with
    | none => none
    | some (color, l2) =>
      match l2 with
      | [] => none
      | e :: l3 => if e = '-' then some (color, l3) else none

/-- Head matcher for the three opacity patterns
`LEAD({ALL_COLORS_PLUS_GRAY})-(\d+)/(\d+)`: the greedy first digit run must
be followed by `/` (a shorter run would leave a digit there), then a second
nonempty digit run.  Returns the replacement and the unconsumed remainder. -/
def tryOpacity (lead : List Char) (rep : List Char → List Char → List Char → List Char)
    (l : List Char) : Option (List Char × List Char) :=
  match frontEval lead l with
  | none => none
  | some (color, l3) =>
    let p := takeDigits l3
    match p.1 with
    | [] => none
    | _ :: _ =>
      match p.2 with
      | [] => none
      | e :: l5 =>
        if e = '/' then
          let q := takeDigits l5
          match q.1 with
          | [] => none
          | _ :: _ => some (rep color p.1 q.1, q.2)
        else none

/-- Pattern 1, `bg-COLOR-NUM/OPACITY` (lines 55–58). -/
def tryBgOpacity : List Char → Option (List Char × List Char) :=
  tryOpacity (cl "bg-") replace_bg_opacity

/-- Pattern 2, `border-COLOR-NUM/OPACITY` (lines 69–72). -/
def tryBorderOpacity : List Char → Option (List Char × List Char) :=
  tryOpacity (cl "border-") replace_border_opacity

/-- Pattern 3, `hover:bg-COLOR-NUM/OPACITY` (lines 83–86). -/
def tryHoverBgOpacity : List Char → Option (List Char × List Char) :=
  tryOpacity (cl "hover:bg-") replace_hover_bg_opacity

/-- Optional prefix group `((?:A|B|…)?)?` before a core pattern: regex
alternatives in order, each committed only if the body then matches, and
finally the empty prefix.  Replacements are `prefix ++ body replacement`,
matching the f-strings. -/
def tryPfxList (alts : List (List Char))
    (body : List Char → Option (List Char × List Char)) (l : List Char) :
    Option (List Char × List Char) :=
  match alts with
  | [] => body l
  | a :: rest =>
    match dropLit a l with
    | some l1 =>
      match body l1 with
      | some (r, rst) => some (a ++ r, rst)
      | none => tryPfxList rest body l
    | none => tryPfxList rest body l

/-- Shared core of the two plain patterns with no trailing lookahead,
`LEAD(COLORS)-(\d+)`: lead literal, color alternative, dash, then a nonempty
greedy digit run. -/
def plainCore (lead : List Char) (rep : List Char → List Char → List Char)
    (l : List Char) : Option (List Char × List Char) :=
  match frontEval lead l with
  | none => none
  | some (color, l3) =>
    let p := takeDigits l3
    match p.1 with
    | [] => none
    | _ :: _ => some (rep color p.1, p.2)

/-- Core of pattern 4, `text-({ALL_COLORS_PLUS_GRAY})-(\d+)`. -/
def textBody : List Char → Option (List Char × List Char) :=
  plainCore (cl "text-") replace_text

/-- Pattern 4 (lines 105–108) with its optional prefix group. -/
def tryText : List Char → Option (List Char × List Char) :=
  tryPfxList [cl "hover:", cl "dark:", cl "focus:"] textBody

/-- Shared core of the two solid patterns `LEAD(COLORS)-(\d+)(?!/)`: the
greedy digit run succeeds as is when not followed by `/`; otherwise the
regex backtracks exactly one digit (the lookahead then sees that digit), which
needs at least two digits; otherwise there is no match. -/
def solidCore (lead : List Char) (rep : List Char → List Char → List Char)
    (l : List Char) : Option (List Char × List Char) :=
  match frontEval lead l with
  | none => none
  | some (color, l3) =>
    let p := takeDigits l3
    match p.1 with
    | [] => none
    | _ :: _ =>
      match p.2 with
      | [] => some (rep color p.1, p.2)
      | e :: _ =>
        if e = '/' then
          match p.1.dropLast with
          | [] => none
          | _ :: _ =>
            some (rep color p.1.dropLast, p.1.drop (p.1.length - 1) ++ p.2)
        else some (rep color p.1, p.2)

/-- Core of pattern 5, `bg-({ALL_COLORS_PLUS_GRAY})-(\d+)(?!/)`. -/
def bgSolidBody : List Char → Option (List Char × List Char) :=
  solidCore (cl "bg-") replace_bg_solid

/-- Pattern 5 (lines 127–130) with its optional prefix group. -/
def tryBgSolid : List Char → Option (List Char × List Char) :=
  tryPfxList [cl "hover:", cl "dark:", cl "active:", cl "focus:"] bgSolidBody

/-- Pattern 6, `border-({ALL_COLORS_PLUS_GRAY})-(\d+)(?!/)` (lines 142–145);
no prefix group, and the replacement ignores the digits. -/
def tryBorderSolid : List Char → Option (List Char × List Char) :=
  solidCore (cl "border-") (fun color _ => replace_border color)

/-- Core of pattern 7, `ring-({ALL_COLORS_PLUS_GRAY})-(\d+)`; the
replacement ignores the digits. -/
def ringBody : List Char → Option (List Char × List Char) :=
  plainCore (cl "ring-") (fun color _ => replace_ring color)

/-- Pattern 7 (lines 156–159) with its optional `focus:` prefix group. -/
def tryRing : List Char → Option (List Char × List Char) :=
  tryPfxList [cl "focus:"] ringBody

/-- `re.sub` scan: find the leftmost match, emit its replacement, continue
after the match (never rescanning the replacement); unmatched characters are
copied.  One unit of fuel per character suffices because every match consumes
at least one character. -/
def rewriteSteps : ℕ → (List Char → Option (List Char × List Char)) → List Char → List Char
  | 0, _, l => l
  | _ + 1, _, [] => []
  | fuel + 1, f, c :: cs =>
    match f (c :: cs) with
    | some (rep, rest) => rep ++ rewriteSteps fuel f rest
    | none => c :: rewriteSteps fuel f cs

/-- `re.sub` over a whole string. -/
def rewriteAll (f : List Char → Option (List Char × List Char)) (l : List Char) :
    List Char :=
  rewriteSteps l.length f l

/-- A `str.replace` pattern as a head matcher: the fixed literal with its
fixed replacement. -/
def litMatch (pat rep l : List Char) : Option (List Char × List Char) :=
  match dropLit pat l with
  | some rest => some (rep, rest)
  | none => none

/-- `str.replace` over a whole string: the same leftmost, non-overlapping,
no-rescan scan as `re.sub`, with a literal pattern. -/
def replaceAll (pat rep l : List Char) : List Char :=
  rewriteAll (litMatch pat rep) l

/-- `hex_map` (lines 165–172), in Python dict insertion order. -/
def hexMap : List (List Char × List Char) :=
  [(cl "#e5e7eb", cl "var(--color-border)"),
   (cl "#d1d5db", cl "var(--color-border)"),
   (cl "#9ca3af", cl "var(--color-text-muted)"),
   (cl "#6b7280", cl "var(--color-text-muted)"),
   (cl "#4b5563", cl "var(--color-text-secondary)"),
   (cl "#374151", cl "var(--color-text)")]

/-- `migrate_content` (lines 40–176): the seven regex substitutions in source
order, then the six hex replacements in dict order. -/
def migrate_content (content : List Char) : List Char :=
  let s1 := rewriteAll tryBgOpacity content
  let s2 := rewriteAll tryBorderOpacity s1
  let s3 := rewriteAll tryHoverBgOpacity s2
  let s4 := rewriteAll tryText s3
  let s5 := rewriteAll tryBgSolid s4
  let s6 := rewriteAll tryBorderSolid s5
  let s7 := rewriteAll tryRing s6
  hexMap.foldl (fun acc p => replaceAll p.1 p.2 acc) s7

/-! ### Analysis definitions for the idempotence proof

The idempotence of `migrate_content` is proved by showing that its output
contains no occurrence of any of the thirteen patterns (seven regexes, six
hex literals).  The definitions below support that argument: three-valued
literal matching (`dropLit2`), "alive" probes that decide whether a pattern
could still match some extension of a finite string, and decidable kill
tables refuting matches that would straddle from original text into
replacement text. -/

/-- Three-valued literal matching: `none` = mismatch inside the input,
`some none` = input exhausted inside the literal (an extension could still
match), `some (some r)` = literal fully consumed leaving `r`. -/
def dropLit2 : List Char → List Char → Option (Option (List Char))
  | [], l => some (some l)
  | _ :: _, [] => some none
  | c :: cs, d :: ds => if c = d then dropLit2 cs ds else none

/-- Result of probing an alternation against a finite input. -/
inductive AltRes
  | dead
  | more
  | found (color : List Char) (rest : List Char)
deriving DecidableEq

/-- Probe an alternation: `dead` when every alternative mismatches within the
input, `more` when some alternative runs out of input first (so an extension
might change the outcome), otherwise the first full match. -/
def matchAlt2 (alts : List (List Char)) (l : List Char) : AltRes :=
  match alts with
  | [] => .dead
  | a :: rest =>
    match dropLit2 a l with
    | none => matchAlt2 rest l
    | some none => .more
    | some (some r) => .found a r

/-- Probe the front `LEAD ++ COLOR ++ -` shared by all seven regex patterns:
`none` = dead on every extension, `some none` = alive by exhaustion,
`some (some l3)` = front consumed, digits expected next in `l3`. -/
def frontProbe (lead : List Char) (l : List Char) : Option (Option (List Char)) :=
  match dropLit2 lead l with
  | none => none
  | some none => some none
  | some (some l1) =>
    match matchAlt2 ALL_COLORS_PLUS_GRAY l1 with
    | .dead => none
    | .more => some none
    | .found _ l2 =>
      match l2 with
      | [] => some none
      | e :: l3 => if e = '-' then some (some l3) else none

/-- Could `(\d+)` (with nothing after it) still match some extension? -/
def plainTailAlive (l3 : List Char) : Bool :=
  let p := takeDigits l3
  match p.1, p.2 with
  | [], [] => true
  | [], _ :: _ => false
  | _ :: _, _ => true

/-- Could `(\d+)(?!/)` still match some extension? -/
def solidTailAlive (l3 : List Char) : Bool :=
  let p := takeDigits l3
  match p.1, p.2 with
  | [], [] => true
  | [], _ :: _ => false
  | _ :: _, [] => true
  | _ :: _, c :: _ => if c = '/' then decide (2 ≤ p.1.length) else true

/-- Could `(\d+)/(\d+)` still match some extension? -/
def opacityTailAlive (l3 : List Char) : Bool :=
  let p := takeDigits l3
  match p.1, p.2 with
  | [], [] => true
  | [], _ :: _ => false
  | _ :: _, [] => true
  | _ :: _, c :: r2 =>
    if c = '/' then
      let q := takeDigits r2
      match q.1, q.2 with
      | [], [] => true
      | [], _ :: _ => false
      | _ :: _, _ => true
    else false

/-- Alive probe for an opacity pattern. -/
def opacityAlive (lead : List Char) (l : List Char) : Bool :=
  match frontProbe lead l with
  | none => false
  | some none => true
  | some (some l3) => opacityTailAlive l3

/-- Alive probe for a solid (lookahead) pattern core. -/
def solidAlive (lead : List Char) (l : List Char) : Bool :=
  match frontProbe lead l with
  | none => false
  | some none => true
  | some (some l3) => solidTailAlive l3

/-- Alive probe for a plain pattern core. -/
def plainAlive (lead : List Char) (l : List Char) : Bool :=
  match frontProbe lead l with
  | none => false
  | some none => true
  | some (some l3) => plainTailAlive l3

/-- Alive probe for an optional prefix group over a core probe. -/
def pfxAlive (alts : List (List Char)) (bodyAlive : List Char → Bool)
    (l : List Char) : Bool :=
  (alts.any fun a =>
    match dropLit2 a l with
    | none => false
    | some none => true
    | some (some r) => bodyAlive r) ||
  bodyAlive l

/-- Alive probe for a literal pattern. -/
def litAlive (pat : List Char) (l : List Char) : Bool :=
  match dropLit2 pat l with
  | none => false
  | _ => true

/-- Alive probe for all thirteen patterns at once. -/
def aliveAll (l : List Char) : Bool :=
  opacityAlive (cl "bg-") l || opacityAlive (cl "border-") l ||
  opacityAlive (cl "hover:bg-") l ||
  pfxAlive [cl "hover:", cl "dark:", cl "focus:"] (plainAlive (cl "text-")) l ||
  pfxAlive [cl "hover:", cl "dark:", cl "active:", cl "focus:"] (solidAlive (cl "bg-")) l ||
  solidAlive (cl "border-") l ||
  pfxAlive [cl "focus:"] (plainAlive (cl "ring-")) l ||
  litAlive (cl "#e5e7eb") l || litAlive (cl "#d1d5db") l || litAlive (cl "#9ca3af") l ||
  litAlive (cl "#6b7280") l || litAlive (cl "#4b5563") l || litAlive (cl "#374151") l

/-- No pattern matches `l` at its head. -/
def DeadAllP (l : List Char) : Prop :=
  tryBgOpacity l = none ∧ tryBorderOpacity l = none ∧ tryHoverBgOpacity l = none ∧
  tryText l = none ∧ tryBgSolid l = none ∧ tryBorderSolid l = none ∧ tryRing l = none ∧
  ∀ pr ∈ hexMap, litMatch pr.1 pr.2 l = none

/-- No pattern matches at any position of `l`. -/
def NoMatchF (f : List Char → Option (List Char × List Char)) (l : List Char) : Prop :=
  ∀ n, f (l.drop n) = none

/-- The literal openings of every replacement string the script can emit:
the rgba-form openings of the three opacity rewrites, the `var(--color-`
openings of the text/bg/border/ring rewrites with each possible captured
prefix, and the hex-substitution opening. -/
def RepStarts : List (List Char) :=
  [cl "bg-[rgba(", cl "border-[rgba(", cl "hover:bg-[rgba(",
   cl "text-[var(--color-", cl "hover:text-[var(--color-",
   cl "dark:text-[var(--color-", cl "focus:text-[var(--color-",
   cl "bg-[var(--color-", cl "hover:bg-[var(--color-", cl "dark:bg-[var(--color-",
   cl "active:bg-[var(--color-", cl "focus:bg-[var(--color-",
   cl "border-[var(--color-",
   cl "ring-[var(--color-", cl "focus:ring-[var(--color-",
   cl "var(--color-"]

/-- The semantic tails that can close a `var(--color-` replacement. -/
def SemTails : List (List Char) :=
  [cl "positive)]", cl "negative)]", cl "info)]", cl "warning)]", cl "accent)]",
   cl "text)]", cl "text-secondary)]", cl "text-muted)]",
   cl "bg)]", cl "bg-secondary)]", cl "bg-tertiary)]", cl "border)]"]

/-- The skeletons (prefix option, lead, color, dash) of a pattern family:
everything a match consumes before its digit groups. -/
def skelsOf (pfxs : List (List Char)) (lead : List Char) : List (List Char) :=
  (pfxs ++ [[]]).flatMap fun p =>
    ALL_COLORS_PLUS_GRAY.map fun c => p ++ lead ++ c ++ [ '-' ]

/-- Does matching the literal `t`, then at least one digit, against the
opening of `rep` fail no matter how `rep` is extended?  (`false` is the
conservative answer when `rep` is exhausted first.) -/
def killsAfter : List Char → List Char → Bool
  | [], [] => false
  | [], r :: _ => !r.isDigit
  | _ :: _, [] => false
  | a :: ts, r :: rs => if a = r then killsAfter ts rs else true

/-- Does matching the literal `t` against the opening of `rep` fail within
`rep` no matter how either is extended? -/
def litKills : List Char → List Char → Bool
  | [], _ => false
  | _ :: _, [] => false
  | a :: ts, r :: rs => if a = r then litKills ts rs else true

/-- Characters that no pattern can start with. -/
def deadHead (c : Char) : Bool :=
  !(c = 'b' || c = 't' || c = 'r' || c = 'h' || c = 'd' ||
    c = 'f' || c = 'a' || c = '#')

/-- Heads compared up to what the patterns can observe of the character
after a match: whether it is a digit and whether it is a slash. -/
def headClass (a : Option Char) : Bool × Bool :=
  match a with
  | none => (false, false)
  | some c => (c.isDigit, c = '/')

/-- Is every tail of `l` dead for every pattern?  (Then nothing can match at
any position inside `l`, regardless of what follows `l`.) -/
def sealedStr (l : List Char) : Bool :=
  (List.range l.length).all fun n => !aliveAll (l.drop n)

/-- A nonempty list whose head no pattern region can begin with: not a digit
and not a slash. -/
def headSafeL : List Char → Bool
  | [] => false
  | c :: _ => !c.isDigit && !(c = '/')

/-- Every skeleton of every regex pattern family. -/
def skelsUnion : List (List Char) :=
  skelsOf [] (cl "bg-") ++ skelsOf [] (cl "border-") ++ skelsOf [] (cl "hover:bg-") ++
  skelsOf [cl "hover:", cl "dark:", cl "focus:"] (cl "text-") ++
  skelsOf [cl "hover:", cl "dark:", cl "active:", cl "focus:"] (cl "bg-") ++
  skelsOf [cl "focus:"] (cl "ring-")

/-- All prefix/body concatenations. -/
def pfxCat (ps bodies : List (List Char)) : List (List Char) :=
  ps.flatMap fun p => bodies.map fun b => p ++ b

/-- Every string `replace_text` can produce as a body. -/
def textBodies : List (List Char) :=
  [cl "text-[var(--color-positive)]", cl "text-[var(--color-negative)]",
   cl "text-[var(--color-info)]", cl "text-[var(--color-warning)]",
   cl "text-[var(--color-accent)]", cl "text-[var(--color-text)]",
   cl "text-[var(--color-text-secondary)]", cl "text-[var(--color-text-muted)]"]

/-- Every string `replace_bg_solid` can produce as a body. -/
def bgBodies : List (List Char) :=
  [cl "bg-[var(--color-positive)]", cl "bg-[var(--color-negative)]",
   cl "bg-[var(--color-info)]", cl "bg-[var(--color-warning)]",
   cl "bg-[var(--color-accent)]", cl "bg-[var(--color-bg)]",
   cl "bg-[var(--color-bg-secondary)]", cl "bg-[var(--color-bg-tertiary)]"]

/-- Every string `replace_border` can produce. -/
def borderBodies : List (List Char) :=
  [cl "border-[var(--color-border)]", cl "border-[var(--color-positive)]",
   cl "border-[var(--color-negative)]", cl "border-[var(--color-info)]",
   cl "border-[var(--color-warning)]", cl "border-[var(--color-accent)]"]

/-- Every string `replace_ring` can produce. -/
def ringBodies : List (List Char) :=
  [cl "ring-[var(--color-positive)]", cl "ring-[var(--color-negative)]",
   cl "ring-[var(--color-info)]", cl "ring-[var(--color-warning)]",
   cl "ring-[var(--color-accent)]"]

/-- The full replacement strings of pattern 4 (`text`). -/
def repListText : List (List Char) :=
  pfxCat [[], cl "hover:", cl "dark:", cl "focus:"] textBodies

/-- The full replacement strings of pattern 5 (`bg` solid). -/
def repListBgSolid : List (List Char) :=
  pfxCat [[], cl "hover:", cl "dark:", cl "active:", cl "focus:"] bgBodies

/-- The full replacement strings of pattern 7 (`ring`). -/
def repListRing : List (List Char) :=
  pfxCat [[], cl "focus:"] ringBodies

/-- Every replacement string of enumerable shape, plus the fixed openings of
the rgba replacements (whose numeric tails are handled by the dead-head
character argument). -/
def sealedAllList : List (List Char) :=
  repListText ++ repListBgSolid ++ borderBodies ++ repListRing ++
  hexMap.map Prod.snd ++ [cl "bg-[rgba(", cl "border-[rgba(", cl "hover:bg-[rgba("]

/-- The consumed text of a regex match: a skeleton from `skels`, then a
nonempty digit-headed run of digits and slashes. -/
def ShapeOf (skels : List (List Char)) (l rest : List Char) : Prop :=
  ∃ sk mt, sk ∈ skels ∧ l = sk ++ (mt ++ rest) ∧ mt ≠ [] ∧
    (∀ ch, mt.head? = some ch → ch.isDigit = true) ∧
    (∀ ch ∈ mt, ch.isDigit = true ∨ ch = '/')

/-- The facts about a scanned matcher `f` and an observed matcher `g` that
make one `re.sub`/`str.replace` pass with `f` preserve (and, for `g = f`,
establish) the absence of `g`-matches. -/
structure MatcherFacts (f g : List Char → Option (List Char × List Char)) : Prop where
  fCons : ∀ l a rest, f l = some (a, rest) →
    ∃ m, m ≠ [] ∧ l = m ++ rest ∧ ∀ ch, m.head? = some ch → ch.isDigit = false ∧ ch ≠ '/'
  gCons : ∀ l b rest, g l = some (b, rest) → ∃ m, m ≠ [] ∧ l = m ++ rest
  aSealed : ∀ l a rest, f l = some (a, rest) → ∀ n, n < a.length → ∀ y, g (a.drop n ++ y) = none
  aHead : ∀ l a rest, f l = some (a, rest) → ∃ ch, a.head? = some ch ∧ ch.isDigit = false ∧ ch ≠ '/'
  gExt : ∀ m r1 b, g (m ++ r1) = some (b, r1) → ∀ r2, headClass r1.head? = headClass r2.head? →
    g (m ++ r2) ≠ none
  gStr : ∀ l a rest, f l = some (a, rest) → ∀ x z b rg, x ≠ [] →
    g (x ++ (a ++ z)) = some (b, rg) → a.length + z.length ≤ rg.length

/-- The per-matcher facts from which every `MatcherFacts` pair instance is
assembled.  `my` lists the openings of the replacements this matcher emits;
`ok` lists the replacement openings this matcher provably cannot straddle
into.  (A hex literal *can* straddle into a regex replacement, so its `ok`
list holds only the hex replacement opening; hex `NoMatch` is established
only after every regex stage has run, so only hex-vs-hex pairs are needed.) -/
structure MGood (f : List Char → Option (List Char × List Char))
    (my ok : List (List Char)) : Prop where
  cons : ∀ l a rest, f l = some (a, rest) →
    ∃ m, m ≠ [] ∧ l = m ++ rest ∧ ∀ ch, m.head? = some ch → ch.isDigit = false ∧ ch ≠ '/'
  ext : ∀ m r1 b, f (m ++ r1) = some (b, r1) → ∀ r2, headClass r1.head? = headClass r2.head? →
    f (m ++ r2) ≠ none
  str : ∀ x A z b rg, x ≠ [] → (∃ rs t, rs ∈ ok ∧ A = rs ++ t) →
    f (x ++ (A ++ z)) = some (b, rg) → A.length + z.length ≤ rg.length
  sealedRep : ∀ l a rest, f l = some (a, rest) → ∀ n, n < a.length → ∀ y, DeadAllP (a.drop n ++ y)
  shape : ∀ l a rest, f l = some (a, rest) → ∃ rs t, rs ∈ my ∧ rs ∈ RepStarts ∧ a = rs ++ t

end Migrate

/-! ## Sanity checks of the migration model

Each example below reproduces the observed behaviour of the Python
`migrate_content` on the same input, including the backtracking corner case
`bg-green-500/x`, the overlap of a hex literal with a following class name,
and the float rendering of opacities. -/

/-! ## Theorems: helper lemmas for the weight cleaner -/

theorem thresholdWeights_of_le (cutoff : ℚ) (w : List ℚ)
    (h : ∀ x ∈ w, cutoff ≤ x) : thresholdWeights cutoff w = w := by
  unfold thresholdWeights
  rw [List.map_congr_left (g := id)]
  · exact List.map_id w
  · intro x hx
    simp [not_lt.mpr (h x hx)]

theorem renormalize_of_sum_one (w : List ℚ) (h : w.sum = 1) :
    renormalize w = w := by
  unfold renormalize
  rw [h]
  simp

theorem addAt_zero_residual (i : ℕ) (w : List ℚ) : addAt i 0 w = w := by
  induction w generalizing i with
  | nil => cases i <;> rfl
  | cons x xs ih =>
    cases i with
    | zero => simp [addAt]
    | succ n => simp [addAt, ih]

theorem addAt_length (i : ℕ) (r : ℚ) (w : List ℚ) :
    (addAt i r w).length = w.length := by
  induction w generalizing i with
  | nil => cases i <;> rfl
  | cons x xs ih =>
    cases i with
    | zero => simp [addAt]
    | succ n => simp [addAt, ih]

theorem addAt_sum (i : ℕ) (r : ℚ) (w : List ℚ) (h : i < w.length) :
    (addAt i r w).sum = w.sum + r := by
  induction w generalizing i with
  | nil => simp at h
  | cons x xs ih =>
    cases i with
    | zero => simp [addAt]; ring
    | succ n =>
      have hn : n < xs.length := Nat.lt_of_succ_lt_succ h
      simp [addAt, ih n hn]
      ring

theorem argmaxIdx_lt_length (w : List ℚ) (h : w ≠ []) :
    argmaxIdx w < w.length := by
  induction w with
  | nil => exact absurd rfl h
  | cons x xs ih =>
    show (if x < xs.getD (argmaxIdx xs) x then argmaxIdx xs + 1 else 0) < xs.length + 1
    by_cases hx : x < xs.getD (argmaxIdx xs) x
    · rw [if_pos hx]
      cases xs with
      | nil =>
        rw [List.getD_nil] at hx
        exact absurd hx (lt_irrefl x)
      | cons y ys => exact Nat.succ_lt_succ (ih (by simp))
    · rw [if_neg hx]
      exact Nat.succ_pos _

theorem addAt_mem (i : ℕ) (r : ℚ) (w : List ℚ) (x : ℚ)
    (hx : x ∈ addAt i r w) :
    x ∈ w ∨ ∃ h : i < w.length, x = w.get ⟨i, h⟩ + r := by
  induction w generalizing i with
  | nil => simp [addAt] at hx
  | cons a as ih =>
    cases i with
    | zero =>
      simp only [addAt, List.mem_cons] at hx
      rcases hx with h | h
      · exact Or.inr ⟨by simp, by simpa using h⟩
      · exact Or.inl (List.mem_cons_of_mem a h)
    | succ n =>
      simp only [addAt, List.mem_cons] at hx
      rcases hx with h | h
      · exact Or.inl (by simp [h])
      · rcases ih n h with h2 | ⟨hlt, hval⟩
        · exact Or.inl (List.mem_cons_of_mem a h2)
        · exact Or.inr ⟨Nat.succ_lt_succ hlt, by simpa using hval⟩

theorem addAt_getD_ne (i j : ℕ) (r : ℚ) (w : List ℚ) (hne : j ≠ i) :
    (addAt i r w).getD j 0 = w.getD j 0 := by
  induction w generalizing i j with
  | nil => cases i <;> rfl
  | cons a as ih =>
    cases i with
    | zero =>
      cases j with
      | zero => exact absurd rfl hne
      | succ m => rfl
    | succ n =>
      cases j with
      | zero => rfl
      | succ m => exact ih n m (fun hc => hne (by rw [hc]))

theorem getD_nonneg (l : List ℚ) (j : ℕ) (h : ∀ x ∈ l, 0 ≤ x) :
    0 ≤ l.getD j 0 := by
  induction l generalizing j with
  | nil => cases j <;> rfl
  | cons a as ih =>
    cases j with
    | zero => exact h a (List.mem_cons_self a as)
    | succ m => exact ih m (fun x hx => h x (List.mem_cons_of_mem a hx))

theorem roundTo_nonneg (prec : ℕ) (x : ℚ) (hx : 0 ≤ x) :
    0 ≤ roundTo prec x := by
  unfold roundTo
  apply div_nonneg _ (by positivity)
  have h0 : (0 : ℚ) ≤ x * 10 ^ prec + 1/2 := by positivity
  exact_mod_cast Int.floor_nonneg.mpr h0

theorem roundTo_le_one (prec : ℕ) (x : ℚ) (hx : x ≤ 1) :
    roundTo prec x ≤ 1 := by
  unfold roundTo
  rw [div_le_one (by positivity)]
  have harg : x * 10 ^ prec + 1/2 ≤ 10 ^ prec + 1/2 := by
    have : x * 10 ^ prec ≤ 1 * 10 ^ prec :=
      mul_le_mul_of_nonneg_right hx (by positivity)
    linarith
  have hfl : ⌊x * 10 ^ prec + 1/2⌋ ≤ ⌊(10 ^ prec : ℚ) + 1/2⌋ :=
    Int.floor_le_floor harg
  have hcomp : ⌊(10 ^ prec : ℚ) + 1/2⌋ = 10 ^ prec := by
    rw [Int.floor_eq_iff]
    constructor
    · push_cast
      linarith
    · push_cast
      linarith
  calc (⌊x * 10 ^ prec + 1/2⌋ : ℚ) ≤ (((10:ℤ) ^ prec : ℤ) : ℚ) := by
        exact_mod_cast hfl.trans_eq hcomp
    _ = 10 ^ prec := by push_cast; ring

theorem roundTo_eq (prec : ℕ) (x : ℚ) (z : ℤ)
    (h1 : (z : ℚ) ≤ x * 10 ^ prec + 1/2)
    (h2 : x * 10 ^ prec + 1/2 < (z : ℚ) + 1) :
    roundTo prec x = (z : ℚ) / 10 ^ prec := by
  unfold roundTo
  have hfl : ⌊x * 10 ^ prec + 1/2⌋ = z := by
    rw [Int.floor_eq_iff]
    exact ⟨h1, h2⟩
  rw [hfl]

theorem argmaxIdx_cons (x : ℚ) (xs : List ℚ) :
    argmaxIdx (x :: xs) =
      if x < xs.getD (argmaxIdx xs) x then argmaxIdx xs + 1 else 0 := rfl

theorem argmaxIdx_singleton (x : ℚ) : argmaxIdx [x] = 0 := by
  rw [argmaxIdx_cons, List.getD_nil, if_neg (lt_irrefl x)]

theorem argmaxIdx_replicate_append_lt (n : ℕ) (a b : ℚ) (h : b < a) :
    argmaxIdx (List.replicate (n + 1) a ++ [b]) = 0 := by
  induction n with
  | zero =>
    show argmaxIdx (a :: [b]) = 0
    rw [argmaxIdx_cons, argmaxIdx_singleton]
    have hget : [b].getD 0 a = b := rfl
    rw [hget, if_neg (not_lt.mpr (le_of_lt h))]
  | succ m ih =>
    rw [List.replicate_succ, List.cons_append, argmaxIdx_cons, ih]
    have hget : (List.replicate (m + 1) a ++ [b]).getD 0 a = a := by
      rw [List.replicate_succ]
      rfl
    rw [hget, if_neg (lt_irrefl a)]

theorem clean_weights_eq (cutoff : ℚ) (prec : ℕ) (w : List ℚ) :
    clean_weights cutoff prec w =
      addAt (argmaxIdx ((renormalize (thresholdWeights cutoff w)).map (roundTo prec)))
        (1 - ((renormalize (thresholdWeights cutoff w)).map (roundTo prec)).sum)
        ((renormalize (thresholdWeights cutoff w)).map (roundTo prec)) := rfl

/-- C8: cleaning an already-clean weight vector — every weight at least the
zero-threshold, every weight already at the rounding precision, and (the
weight-vector invariant of §3) summing to 1 — returns the identical vector:
thresholding, renormalization and rounding are all no-ops and the rounding
residual is zero. -/
theorem clean_weights_idempotent (cutoff : ℚ) (prec : ℕ) (w : List ℚ)
    (hsum : w.sum = 1)
    (habove : ∀ x ∈ w, cutoff ≤ x)
    (hprec : ∀ x ∈ w, roundTo prec x = x) :
    clean_weights cutoff prec w = w := by
  have hmap : w.map (roundTo prec) = w := by
    have h1 : w.map (roundTo prec) = w.map id := List.map_congr_left hprec
    rw [h1, List.map_id]
  unfold clean_weights
  rw [thresholdWeights_of_le cutoff w habove, renormalize_of_sum_one w hsum, hmap]
  show addAt (argmaxIdx w) (1 - w.sum) w = w
  rw [hsum, sub_self, addAt_zero_residual]

/-- C8 witness: cleaning the already-clean vector `[0.6, 0.4]` with the default
threshold `1e-4` and precision 4 returns it unchanged. -/
theorem clean_weights_idempotent_witness :
    clean_weights (1/10000) 4 [3/5, 2/5] = [3/5, 2/5] :=
  clean_weights_idempotent (1/10000) 4 [3/5, 2/5]
    (by norm_num [List.sum_cons, List.sum_nil])
    (by
      intro x hx
      fin_cases hx <;> norm_num)
    (by
      intro x hx
      fin_cases hx
      · rw [roundTo_eq 4 (3/5) 6000 (by norm_num) (by norm_num)]
        norm_num
      · rw [roundTo_eq 4 (2/5) 4000 (by norm_num) (by norm_num)]
        norm_num)

/-- C4 (amended): for every nonempty raw weight vector with nonnegative
entries, the cleaned weights sum to exactly 1 (hence certainly within 1e-6),
every cleaned weight is at most 1, and every cleaned weight other than the
residual-absorbing largest one is nonnegative.  The absorber itself can be
driven below 0 by the accumulated rounding residual (see the
counterexample), so the claimed per-entry lower bound does not hold there. -/
theorem clean_weights_sum_and_bounds (cutoff : ℚ) (prec : ℕ) (w : List ℚ)
    (hne : w ≠ []) (hnonneg : ∀ x ∈ w, 0 ≤ x) :
    (clean_weights cutoff prec w).sum = 1 ∧
    (∀ x ∈ clean_weights cutoff prec w, x ≤ 1) ∧
    ∀ j : ℕ, j ≠ absorberIdx cutoff prec w →
      0 ≤ (clean_weights cutoff prec w).getD j 0 := by
  classical
  set t := thresholdWeights cutoff w with ht
  set rd := (renormalize t).map (roundTo prec) with hrd
  have htnonneg : ∀ x ∈ t, 0 ≤ x := by
    intro x hx
    rw [ht] at hx
    unfold thresholdWeights at hx
    rcases List.mem_map.mp hx with ⟨a, ha, rfl⟩
    by_cases hc : a < cutoff
    · simp [hc]
    · simpa [hc] using hnonneg a ha
  have htsum : 0 ≤ t.sum := List.sum_nonneg htnonneg
  have hr01 : ∀ x ∈ renormalize t, 0 ≤ x ∧ x ≤ 1 := by
    intro x hx
    unfold renormalize at hx
    rcases List.mem_map.mp hx with ⟨a, ha, rfl⟩
    rcases eq_or_lt_of_le htsum with hz | hpos
    · rw [← hz]
      simp
    · constructor
      · exact div_nonneg (htnonneg a ha) (le_of_lt hpos)
      · rw [div_le_one hpos]
        exact List.single_le_sum htnonneg a ha
  have hrd01 : ∀ x ∈ rd, 0 ≤ x ∧ x ≤ 1 := by
    intro x hx
    rw [hrd] at hx
    rcases List.mem_map.mp hx with ⟨a, ha, rfl⟩
    exact ⟨roundTo_nonneg prec a (hr01 a ha).1, roundTo_le_one prec a (hr01 a ha).2⟩
  have hrdne : rd ≠ [] := by
    rw [hrd]
    unfold renormalize
    rw [ht]
    unfold thresholdWeights
    simpa using hne
  have hlt : argmaxIdx rd < rd.length := argmaxIdx_lt_length rd hrdne
  have hcw : clean_weights cutoff prec w = addAt (argmaxIdx rd) (1 - rd.sum) rd := rfl
  have habs : absorberIdx cutoff prec w = argmaxIdx rd := rfl
  refine ⟨?_, ?_, ?_⟩
  · rw [hcw, addAt_sum _ _ _ hlt]
    ring
  · intro x hx
    rw [hcw] at hx
    rcases addAt_mem _ _ _ _ hx with hmem | ⟨hi, hval⟩
    · exact (hrd01 x hmem).2
    · have hmem : rd.get ⟨argmaxIdx rd, hi⟩ ∈ rd := List.get_mem rd (argmaxIdx rd) hi
      have hge : rd.get ⟨argmaxIdx rd, hi⟩ ≤ rd.sum :=
        List.single_le_sum (fun y hy => (hrd01 y hy).1) _ hmem
      rw [hval]
      linarith
  · intro j hne'
    rw [habs] at hne'
    rw [hcw, addAt_getD_ne (argmaxIdx rd) j (1 - rd.sum) rd hne']
    exact getD_nonneg rd j (fun x hx => (hrd01 x hx).1)

/-- C4 witness: the amended statement evaluated on the concrete raw vector
`[0.5, 0.5]`. -/
theorem clean_weights_sum_and_bounds_witness :
    (clean_weights (1/10000) 4 [1/2, 1/2]).sum = 1 ∧
    (∀ x ∈ clean_weights (1/10000) 4 [1/2, 1/2], x ≤ 1) ∧
    ∀ j : ℕ, j ≠ absorberIdx (1/10000) 4 [1/2, 1/2] →
      0 ≤ (clean_weights (1/10000) 4 [1/2, 1/2]).getD j 0 :=
  clean_weights_sum_and_bounds (1/10000) 4 [1/2, 1/2] (by simp)
    (by
      intro x hx
      fin_cases hx <;> norm_num)

/-- C4 counterexample: `manyAssetWeights` is a valid raw weight vector — 160
entries, all in `[0, 1]`, all above the `1e-4` zero-threshold, summing to
exactly 1 — yet the cleaned vector violates the claimed `[0, 1]` bounds: every
entry rounds up at 4 decimals, the residual is `-0.0078`, and the largest
weight after absorbing it is `-0.0015 < 0`. -/
theorem clean_weights_bounds_counterexample :
    (manyAssetWeights.sum = 1 ∧ ∀ x ∈ manyAssetWeights, 0 ≤ x ∧ x ≤ 1) ∧
    ¬ (∀ x ∈ clean_weights (1/10000) 4 manyAssetWeights, 0 ≤ x ∧ x ≤ 1) := by
  have hsum : manyAssetWeights.sum = 1 := by
    unfold manyAssetWeights
    rw [List.sum_append, List.sum_replicate]
    norm_num [nsmul_eq_mul, List.sum_cons, List.sum_nil]
  have hthr : thresholdWeights (1/10000) manyAssetWeights = manyAssetWeights :=
    thresholdWeights_of_le _ _ (by
      intro x hx
      unfold manyAssetWeights at hx
      rcases List.mem_append.mp hx with hx | hx
      · rw [List.eq_of_mem_replicate hx]
        norm_num
      · rw [List.mem_singleton.mp hx]
        norm_num)
  have hren : renormalize manyAssetWeights = manyAssetWeights :=
    renormalize_of_sum_one _ hsum
  have hra : roundTo 4 (6251/1000000) = 63/10000 := by
    rw [roundTo_eq 4 (6251/1000000) 63 (by norm_num) (by norm_num)]
    norm_num
  have hrb : roundTo 4 (6091/1000000) = 61/10000 := by
    rw [roundTo_eq 4 (6091/1000000) 61 (by norm_num) (by norm_num)]
    norm_num
  have hmap : manyAssetWeights.map (roundTo 4) =
      List.replicate 159 ((63:ℚ)/10000) ++ [61/10000] := by
    unfold manyAssetWeights
    rw [List.map_append, List.map_replicate, hra]
    simp [hrb]
  have hrdsum : (List.replicate 159 ((63:ℚ)/10000) ++ [61/10000]).sum = 10078/10000 := by
    rw [List.sum_append, List.sum_replicate]
    norm_num [nsmul_eq_mul, List.sum_cons, List.sum_nil]
  have hargmax : argmaxIdx (List.replicate 159 ((63:ℚ)/10000) ++ [61/10000]) = 0 := by
    rw [show (159:ℕ) = 158 + 1 from rfl]
    exact argmaxIdx_replicate_append_lt 158 _ _ (by norm_num)
  have hclean : clean_weights (1/10000) 4 manyAssetWeights =
      ((63:ℚ)/10000 + (1 - 10078/10000)) ::
        (List.replicate 158 ((63:ℚ)/10000) ++ [61/10000]) := by
    rw [clean_weights_eq, hthr, hren, hmap, hargmax, hrdsum,
      show (159:ℕ) = 158 + 1 from rfl, List.replicate_succ, List.cons_append]
    rfl
  refine ⟨⟨hsum, ?_⟩, ?_⟩
  · intro x hx
    unfold manyAssetWeights at hx
    rcases List.mem_append.mp hx with hx | hx
    · rw [List.eq_of_mem_replicate hx]
      norm_num
    · rw [List.mem_singleton.mp hx]
      norm_num
  · intro hall
    have hneg := hall ((63:ℚ)/10000 + (1 - 10078/10000)) (by
      rw [hclean]
      exact List.mem_cons_self _ _)
    have := hneg.1
    norm_num at this

/-- C1 counterexample: the objective string "momentum" lies outside the
recognized set, yet the operation does not fail with InputValidationError: the
dispatch silently selects the default max-sharpe call and a portfolio response
is produced. -/
theorem unrecognized_objective_not_rejected :
    ("momentum" ≠ "max_sharpe" ∧ "momentum" ≠ "min_volatility") ∧
    selectSolverCall "momentum" (1/20) = SolverCall.maxSharpeDefault ∧
    optimize trivialKernel
        { symbols := ["A"], returns := [[1/100, 2/100]], objective := "momentum" } ≠
      Except.error MLError.inputValidation ∧
    optimize trivialKernel
        { symbols := ["A"], returns := [[1/100, 2/100]], objective := "momentum" } =
      Except.ok { weights := [], expected_return := 0, volatility := 0, sharpe := 0 } := by
  refine ⟨⟨by decide, by decide⟩, rfl, ?_, rfl⟩
  simp [optimize, buildResponse, trivialKernel]

/-- C1 (amended): an objective selector outside the recognized set is silently
substituted with a default objective: the `else` branch of lines 38–43 calls
`max_sharpe()` with the library-default risk-free rate, and the operation
returns a portfolio response; no typed error is ever raised. -/
theorem unrecognized_objective_silently_defaults (objective : String) (rf : ℚ)
    (h1 : objective ≠ "max_sharpe") (h2 : objective ≠ "min_volatility") :
    selectSolverCall objective rf = SolverCall.maxSharpeDefault ∧
    ∀ (K : MLKernel) (req : OptimizeRequest),
      ∃ resp, optimize K req = Except.ok resp := by
  constructor
  · unfold selectSolverCall
    rw [if_neg h1, if_neg h2]
  · intro K req
    exact ⟨_, rfl⟩

/-- C1 witness: the amended statement evaluated at the concrete unrecognized
selector "momentum". -/
theorem unrecognized_objective_silently_defaults_witness :
    selectSolverCall "momentum" (1/20) = SolverCall.maxSharpeDefault ∧
    ∀ (K : MLKernel) (req : OptimizeRequest),
      ∃ resp, optimize K req = Except.ok resp :=
  unrecognized_objective_silently_defaults "momentum" (1/20) (by decide) (by decide)

/-- A request with one observation for one series, against two symbols: both
the fewer-than-2-observations condition and the series/symbol count mismatch
of C2 hold for it. -/
def shortRequest : OptimizeRequest := { symbols := ["A", "B"], returns := [[1/100]] }

/-- C2 counterexample: `shortRequest` has a single observation and a series
count that does not match its symbol count, yet nothing is rejected: the
handler's trace goes straight into estimation and contains no raise of
InsufficientDataError (nor of anything else). -/
theorem insufficient_data_not_rejected :
    ((∀ row ∈ shortRequest.returns, row.length < 2) ∧
     shortRequest.returns.length ≠ shortRequest.symbols.length) ∧
    OptStep.raise MLError.insufficientData ∉ optimizeTrace shortRequest ∧
    optimizeTrace shortRequest =
      [.estimateMu, .estimateCov, .solve (.maxSharpe (1/20)), .cleanWeights,
       .evaluate (1/20), .respond] := by
  refine ⟨⟨?_, ?_⟩, ?_, rfl⟩
  · intro row hrow
    simp only [shortRequest] at hrow
    rw [List.mem_singleton.mp hrow]
    simp
  · simp [shortRequest]
  · simp [optimizeTrace, shortRequest]

/-- C2 (amended): the operation performs no input validation at all: for every
request — whatever its observation counts or series/symbol mismatch — the
trace begins directly with estimation and contains no raise of any typed
error, in particular never InsufficientDataError. -/
theorem no_validation_before_estimation (req : OptimizeRequest) :
    (optimizeTrace req).head? = some OptStep.estimateMu ∧
    ∀ e : MLError, OptStep.raise e ∉ optimizeTrace req := by
  refine ⟨rfl, ?_⟩
  intro e
  simp [optimizeTrace]

/-- C3 counterexample: a performance tuple whose volatility is exactly 0 flows
through the response construction unchanged: the operation returns ok and does
not fail with DegenerateResultError. -/
theorem zero_volatility_not_rejected :
    buildResponse [("A", 1)]
        { expected_return := 1/20, volatility := 0, sharpe := 0 } =
      Except.ok { weights := [("A", 1)], expected_return := 1/20, volatility := 0,
                  sharpe := 0 } ∧
    buildResponse [("A", 1)]
        { expected_return := 1/20, volatility := 0, sharpe := 0 } ≠
      Except.error MLError.degenerateResult := by
  exact ⟨rfl, by simp [buildResponse]⟩

/-- C3 (amended): no degenerate-volatility check exists: the response builder
of lines 48–53 forwards the evaluator's numbers unchanged for every input, and
no optimize call ever returns DegenerateResultError.  (In the running server
the forwarded sharpe value is whatever float the library produced for a
zero-volatility portfolio; nothing in the repository intercepts it.) -/
theorem no_degenerate_volatility_check (cleaned : List (String × ℚ))
    (perf : PerformanceSummary) :
    buildResponse cleaned perf =
      Except.ok { weights := cleaned, expected_return := perf.expected_return,
                  volatility := perf.volatility, sharpe := perf.sharpe } ∧
    ∀ (K : MLKernel) (req : OptimizeRequest),
      optimize K req ≠ Except.error MLError.degenerateResult := by
  refine ⟨rfl, ?_⟩
  intro K req h
  simp [optimize, buildResponse] at h

/-- C5: determinism — the handler is a pure function of the request: for any
fixed external kernel (itself a record of pure functions, mirroring that no
randomness enters estimation or solving), two requests agreeing on symbols,
returns matrix, objective and risk-free rate produce identical responses,
hence identical weights, expected return, volatility and sharpe values. -/
theorem optimize_deterministic (K : MLKernel) (r1 r2 : OptimizeRequest)
    (hsym : r1.symbols = r2.symbols) (hret : r1.returns = r2.returns)
    (hobj : r1.objective = r2.objective)
    (hrf : r1.risk_free_rate = r2.risk_free_rate) :
    optimize K r1 = optimize K r2 := by
  have h : r1 = r2 := by
    cases r1
    cases r2
    simp_all
  rw [h]

/-- C5 witness: two syntactically different but equal requests (risk-free rate
written `1/20` and `2/40`) produce the same response under the trivial
kernel. -/
theorem optimize_deterministic_witness :
    optimize trivialKernel { symbols := ["A"], returns := [[1/100, 2/100]] } =
      optimize trivialKernel
        { symbols := ["A"], returns := [[1/100, 2/100]],
          objective := "max_sharpe", risk_free_rate := 2/40 } :=
  optimize_deterministic trivialKernel _ _ rfl rfl rfl (by norm_num)

/-- C6: a request constructed without a risk-free rate carries the default
`0.05 = 1/20`, and that value is what the dispatched `max_sharpe` solver call
and the performance-evaluation step both receive. -/
theorem default_risk_free_rate (s : List String) (R : List (List ℚ)) :
    ({ symbols := s, returns := R } : OptimizeRequest).risk_free_rate = 1/20 ∧
    optimizeTrace { symbols := s, returns := R } =
      [.estimateMu, .estimateCov, .solve (.maxSharpe (1/20)), .cleanWeights,
       .evaluate (1/20), .respond] := by
  exact ⟨rfl, rfl⟩

/-- C7: the sentiment stub returns exactly one result per input text, and
every result is the fixed neutral placeholder with confidence 0.5, independent
of the text contents. -/
theorem analyze_sentiment_neutral (texts : List String) :
    (analyze_sentiment texts).length = texts.length ∧
    ∀ r ∈ analyze_sentiment texts,
      r = { label := "neutral", confidence := 1/2 } := by
  refine ⟨by simp [analyze_sentiment], ?_⟩
  intro r hr
  rcases List.mem_map.mp hr with ⟨t, ht, rfl⟩
  rfl



namespace Migrate

example : ALL_COLORS_PLUS_GRAY =
  [cl "emerald", cl "fuchsia", cl "yellow", cl "orange", cl "purple", cl "indigo",
   cl "violet", cl "green", cl "amber", cl "slate", cl "teal", cl "rose", cl "blue",
   cl "cyan", cl "pink", cl "gray", cl "red", cl "sky"] := by decide

example : migrate_content (cl "bg-green-500/50") = cl "bg-[rgba(16, 185, 129,0.5)]" := by
  decide

example : migrate_content (cl "hover:bg-red-100/25") =
    cl "hover:bg-[rgba(239, 68, 68,0.25)]" := by decide

example : migrate_content (cl "text-gray-800 text-gray-600 text-gray-300") =
    cl "text-[var(--color-text)] text-[var(--color-text-secondary)] text-[var(--color-text-muted)]" := by
  decide

example : migrate_content (cl "dark:bg-slate-100 bg-slate-300 bg-slate-500") =
    cl "dark:bg-[var(--color-bg)] bg-[var(--color-bg-secondary)] bg-[var(--color-bg-tertiary)]" := by
  decide

example : migrate_content (cl "border-gray-200") = cl "border-[var(--color-border)]" := by
  decide

example : migrate_content (cl "focus:ring-pink-400") = cl "focus:ring-[var(--color-accent)]" := by
  decide

example : migrate_content (cl "bg-green-5/x") = cl "bg-green-5/x" := by decide

example : migrate_content (cl "bg-green-500/x") = cl "bg-[var(--color-positive)]0/x" := by
  decide

example : migrate_content (cl "#e5e7ebg-green-500") =
    cl "var(--color-border)g-[var(--color-positive)]" := by decide

example : migrate_content (cl "ring-gray-300") = cl "ring-[var(--color-accent)]" := by decide

example : migrate_content (cl "bg-green-1/7") = cl "bg-[rgba(16, 185, 129,0.07)]" := by decide

example : migrate_content (cl "xbg-green-500/100") = cl "xbg-[rgba(16, 185, 129,1.0)]" := by
  decide

example : migrate_content (cl "border-rose-500/80") = cl "border-[rgba(244, 63, 94,0.8)]" := by
  decide

example : migrate_content (cl "hover:text-sky-600") = cl "hover:text-[var(--color-info)]" := by
  decide

example : migrate_content (cl "text-teal-900") = cl "text-[var(--color-positive)]" := by decide

/-- C10: the fallback branches of the three opacity-rewrite helpers are
unreachable — every color name producible by the `ALL_COLORS_PLUS_GRAY`
alternation has an entry in `COLOR_RGBA`, so each helper rewrites every
matched `COLOR-NUM/OPACITY` token to its rgba form and never returns the
match unchanged. -/
theorem opacity_fallback_unreachable :
    ∀ c ∈ ALL_COLORS_PLUS_GRAY,
      ∃ rgba, lookupAssoc COLOR_RGBA c = some rgba ∧
        ∀ g2 g3 : List Char,
          replace_bg_opacity c g2 g3 =
            cl "bg-[rgba(" ++ rgba ++ [ ',' ] ++ opacityRepr g3 ++ cl ")]" ∧
          replace_border_opacity c g2 g3 =
            cl "border-[rgba(" ++ rgba ++ [ ',' ] ++ opacityRepr g3 ++ cl ")]" ∧
          replace_hover_bg_opacity c g2 g3 =
            cl "hover:bg-[rgba(" ++ rgba ++ [ ',' ] ++ opacityRepr g3 ++ cl ")]" := by
  intro c hc
  have hlist : ALL_COLORS_PLUS_GRAY =
      [cl "emerald", cl "fuchsia", cl "yellow", cl "orange", cl "purple", cl "indigo",
       cl "violet", cl "green", cl "amber", cl "slate", cl "teal", cl "rose", cl "blue",
       cl "cyan", cl "pink", cl "gray", cl "red", cl "sky"] := by decide
  rw [hlist] at hc
  fin_cases hc <;> exact ⟨_, rfl, fun g2 g3 => ⟨rfl, rfl, rfl⟩⟩

/-- C10 witness: the guarantee evaluated at the concrete color `green`. -/
theorem opacity_fallback_unreachable_witness :
    ∃ rgba, lookupAssoc COLOR_RGBA (cl "green") = some rgba ∧
      ∀ g2 g3 : List Char,
        replace_bg_opacity (cl "green") g2 g3 =
          cl "bg-[rgba(" ++ rgba ++ [ ',' ] ++ opacityRepr g3 ++ cl ")]" ∧
        replace_border_opacity (cl "green") g2 g3 =
          cl "border-[rgba(" ++ rgba ++ [ ',' ] ++ opacityRepr g3 ++ cl ")]" ∧
        replace_hover_bg_opacity (cl "green") g2 g3 =
          cl "hover:bg-[rgba(" ++ rgba ++ [ ',' ] ++ opacityRepr g3 ++ cl ")]" :=
  opacity_fallback_unreachable (cl "green") (by decide)

end Migrate

namespace Migrate

/-! ### Combinator lemmas -/

theorem dropLit_iff (a l r : List Char) : dropLit a l = some r ↔ l = a ++ r := by
  induction a generalizing l with
  | nil =>
    simp [dropLit]
  | cons c cs ih =>
    cases l with
    | nil => simp [dropLit]
    | cons d ds =>
      by_cases h : c = d
      · subst h
        simp [dropLit, ih]
      · show (if c = d then dropLit cs ds else none) = some r ↔ _
        rw [if_neg h]
        simp only [List.cons_append, List.cons.injEq]
        constructor
        · intro hc
          simp at hc
        · intro hpair
          exact absurd hpair.1.symm h

theorem dropLit2_none (a : List Char) (l : List Char) (h : dropLit2 a l = none) :
    ∀ y, dropLit a (l ++ y) = none := by
  induction a generalizing l with
  | nil => simp [dropLit2] at h
  | cons c cs ih =>
    intro y
    cases l with
    | nil => simp [dropLit2] at h
    | cons d ds =>
      by_cases hcd : c = d
      · subst hcd
        simp only [dropLit2, if_pos rfl] at h
        simpa [dropLit] using ih ds h y
      · simp [dropLit, hcd]

theorem dropLit2_some_some (a : List Char) (l r : List Char)
    (h : dropLit2 a l = some (some r)) :
    l = a ++ r ∧ ∀ y, dropLit a (l ++ y) = some (r ++ y) := by
  induction a generalizing l with
  | nil =>
    simp only [dropLit2, Option.some.injEq] at h
    subst h
    exact ⟨rfl, fun y => by simp [dropLit]⟩
  | cons c cs ih =>
    cases l with
    | nil => simp [dropLit2] at h
    | cons d ds =>
      by_cases hcd : c = d
      · subst hcd
        simp only [dropLit2, if_pos rfl] at h
        rcases ih ds h with ⟨h1, h2⟩
        exact ⟨by simp [h1], fun y => by simpa [dropLit] using h2 y⟩
      · simp [dropLit2, hcd] at h

theorem matchAlt_some (alts : List (List Char)) (l c r : List Char)
    (h : matchAlt alts l = some (c, r)) : c ∈ alts ∧ l = c ++ r := by
  induction alts with
  | nil => simp [matchAlt] at h
  | cons a as ih =>
    simp only [matchAlt] at h
    cases hda : dropLit a l with
    | some r2 =>
      rw [hda] at h
      simp only [Option.some.injEq, Prod.mk.injEq] at h
      obtain ⟨rfl, rfl⟩ := h
      exact ⟨List.mem_cons_self _ _, (dropLit_iff _ _ _).mp hda⟩
    | none =>
      rw [hda] at h
      rcases ih h with ⟨h1, h2⟩
      exact ⟨List.mem_cons_of_mem a h1, h2⟩

/-- Is the first list a leading segment of the second? -/
def isStart : List Char → List Char → Bool
  | [], _ => true
  | _ :: _, [] => false
  | c :: cs, d :: ds => c = d && isStart cs ds

theorem isStart_iff (a b : List Char) : isStart a b = true ↔ ∃ t, b = a ++ t := by
  induction a generalizing b with
  | nil => simp [isStart]
  | cons c cs ih =>
    cases b with
    | nil => simp [isStart]
    | cons d ds =>
      simp only [isStart, Bool.and_eq_true, decide_eq_true_eq, ih, List.cons_append,
        List.cons.injEq]
      constructor
      · rintro ⟨rfl, t, rfl⟩
        exact ⟨t, rfl, rfl⟩
      · rintro ⟨t, rfl, rfl⟩
        exact ⟨rfl, t, rfl⟩

/-- The alternation is usable deterministically: every alternative is
nonempty and none is a leading segment of another. -/
def altsOk (alts : List (List Char)) : Bool :=
  alts.all (fun a => !a.isEmpty) &&
  (alts.all fun a => alts.all fun b => a = b || (!(isStart a b) && !(isStart b a)))

theorem altsOk_spec (alts : List (List Char)) (h : altsOk alts = true) :
    (∀ a ∈ alts, a ≠ []) ∧
    ∀ a ∈ alts, ∀ b ∈ alts, a = b ∨ (isStart a b = false ∧ isStart b a = false) := by
  simp only [altsOk, Bool.and_eq_true, List.all_eq_true] at h
  constructor
  · intro a ha
    have h1 := h.1 a ha
    intro hnil
    rw [hnil] at h1
    simp at h1
  · intro a ha b hb
    have h2 := h.2 a ha b hb
    simp only [Bool.or_eq_true, decide_eq_true_eq, Bool.and_eq_true,
      Bool.not_eq_true'] at h2
    exact h2

theorem altsOk_tail (a : List Char) (as : List (List Char))
    (h : altsOk (a :: as) = true) : altsOk as = true := by
  simp only [altsOk, Bool.and_eq_true, List.all_eq_true] at h ⊢
  exact ⟨fun x hx => h.1 x (List.mem_cons_of_mem a hx),
         fun x hx y hy => h.2 x (List.mem_cons_of_mem a hx) y (List.mem_cons_of_mem a hy)⟩

theorem matchAlt_complete (alts : List (List Char)) (hok : altsOk alts = true)
    (c r : List Char) (hc : c ∈ alts) :
    matchAlt alts (c ++ r) = some (c, r) := by
  induction alts with
  | nil => simp at hc
  | cons a as ih =>
    obtain ⟨hne, hpair⟩ := altsOk_spec _ hok
    by_cases hac : a = c
    · subst hac
      simp only [matchAlt]
      rw [(dropLit_iff a (a ++ r) r).mpr rfl]
    · have hcas : c ∈ as := by
        rcases List.mem_cons.mp hc with rfl | hcas
        · exact absurd rfl hac
        · exact hcas
      simp only [matchAlt]
      cases hda : dropLit a (c ++ r) with
      | some r2 =>
        exfalso
        have heq := (dropLit_iff _ _ _).mp hda
        have hp := hpair a (List.mem_cons_self a as) c (List.mem_cons_of_mem a hcas)
        rcases hp with h | ⟨h1, h2⟩
        · exact hac h
        · rcases List.append_eq_append_iff.mp heq with ⟨t, ht1, ht2⟩ | ⟨t, ht1, ht2⟩
          · have : isStart c a = true := (isStart_iff c a).mpr ⟨t, ht1⟩
            rw [this] at h2
            simp at h2
          · have : isStart a c = true := (isStart_iff a c).mpr ⟨t, ht1⟩
            rw [this] at h1
            simp at h1
      | none => exact ih (altsOk_tail a as hok) hcas

theorem altsOk_colors : altsOk ALL_COLORS_PLUS_GRAY = true := by decide

end Migrate

namespace Migrate

/-! ### takeDigits lemmas -/

theorem takeDigits_append_eq (l : List Char) :
    (takeDigits l).1 ++ (takeDigits l).2 = l := by
  show l.takeWhile Char.isDigit ++ l.dropWhile Char.isDigit = l
  exact List.takeWhile_append_dropWhile Char.isDigit l

theorem takeDigits_fst_digits (l : List Char) :
    ∀ c ∈ (takeDigits l).1, c.isDigit = true := by
  intro c hc
  exact List.mem_takeWhile_imp hc

theorem takeDigits_snd_head (l : List Char) :
    ∀ c, (takeDigits l).2.head? = some c → c.isDigit = false := by
  induction l with
  | nil => simp [takeDigits]
  | cons a as ih =>
    intro c hc
    by_cases hd : a.isDigit
    · have h2 : (takeDigits (a :: as)).2 = (takeDigits as).2 := by
        simp [takeDigits, List.dropWhile_cons, hd]
      rw [h2] at hc
      exact ih c hc
    · have h2 : (takeDigits (a :: as)).2 = a :: as := by
        simp [takeDigits, List.dropWhile_cons, hd]
      rw [h2] at hc
      simp only [List.head?_cons, Option.some.injEq] at hc
      rw [← hc]
      exact Bool.eq_false_iff.mpr hd

theorem takeDigits_eval (d r : List Char) (hd : ∀ c ∈ d, c.isDigit = true)
    (hr : ∀ c, r.head? = some c → c.isDigit = false) :
    takeDigits (d ++ r) = (d, r) := by
  induction d with
  | nil =>
    cases r with
    | nil => rfl
    | cons c cs =>
      have hcd := hr c rfl
      simp [takeDigits, List.takeWhile_cons, List.dropWhile_cons, hcd]
  | cons a ds ih =>
    have ha := hd a (List.mem_cons_self _ _)
    have ih2 := ih (fun c hc => hd c (List.mem_cons_of_mem a hc))
    have h1 : (ds ++ r).takeWhile Char.isDigit = ds := congrArg Prod.fst ih2
    have h2 : (ds ++ r).dropWhile Char.isDigit = r := congrArg Prod.snd ih2
    simp [takeDigits, List.takeWhile_cons, List.dropWhile_cons, ha, h1, h2]

theorem takeDigits_closed (l y : List Char) (h : (takeDigits l).2 ≠ []) :
    takeDigits (l ++ y) = ((takeDigits l).1, (takeDigits l).2 ++ y) := by
  have hsplit := takeDigits_append_eq l
  have hstep : l ++ y = (takeDigits l).1 ++ ((takeDigits l).2 ++ y) := by
    rw [← List.append_assoc, hsplit]
  rw [hstep]
  apply takeDigits_eval
  · exact takeDigits_fst_digits l
  · intro c hc
    cases hsnd : (takeDigits l).2 with
    | nil => exact absurd hsnd h
    | cons e es =>
      rw [hsnd] at hc
      simp only [List.cons_append, List.head?_cons, Option.some.injEq] at hc
      apply takeDigits_snd_head l
      rw [hsnd, ← hc]
      rfl

theorem takeDigits_open (l : List Char) (h : (takeDigits l).2 = []) :
    l = (takeDigits l).1 ∧ ∀ c ∈ l, c.isDigit = true := by
  have hsplit := takeDigits_append_eq l
  rw [h, List.append_nil] at hsplit
  exact ⟨hsplit.symm, fun c hc => takeDigits_fst_digits l c (by rw [hsplit]; exact hc)⟩

/-! ### Probe soundness -/

theorem matchAlt2_dead (alts : List (List Char)) (l : List Char)
    (h : matchAlt2 alts l = .dead) :
    ∀ y, matchAlt alts (l ++ y) = none := by
  induction alts with
  | nil => intro y; rfl
  | cons a as ih =>
    intro y
    simp only [matchAlt2] at h
    cases hda : dropLit2 a l with
    | none =>
      rw [hda] at h
      simp only [matchAlt, dropLit2_none a l hda y]
      exact ih h y
    | some o =>
      cases o with
      | none => rw [hda] at h; exact absurd h (by simp)
      | some r => rw [hda] at h; exact absurd h (by simp)

theorem matchAlt2_found (alts : List (List Char)) (l c r : List Char)
    (h : matchAlt2 alts l = .found c r) :
    l = c ++ r ∧ ∀ y, matchAlt alts (l ++ y) = some (c, r ++ y) := by
  induction alts with
  | nil => simp [matchAlt2] at h
  | cons a as ih =>
    simp only [matchAlt2] at h
    cases hda : dropLit2 a l with
    | none =>
      rw [hda] at h
      rcases ih h with ⟨h1, h2⟩
      refine ⟨h1, fun y => ?_⟩
      simp only [matchAlt, dropLit2_none a l hda y]
      exact h2 y
    | some o =>
      cases o with
      | none => rw [hda] at h; exact absurd h (by simp)
      | some r2 =>
        rw [hda] at h
        simp only [AltRes.found.injEq] at h
        obtain ⟨rfl, rfl⟩ := h
        rcases dropLit2_some_some a l r2 hda with ⟨h1, h2⟩
        refine ⟨h1, fun y => ?_⟩
        simp only [matchAlt, h2 y]

theorem frontProbe_none_sound (lead l : List Char)
    (h : frontProbe lead l = none) :
    ∀ y, frontEval lead (l ++ y) = none := by
  intro y
  unfold frontProbe at h
  unfold frontEval
  cases hdl : dropLit2 lead l with
  | none => simp only [dropLit2_none lead l hdl y]
  | some o =>
    simp only [hdl] at h
    cases o with
    | none => simp at h
    | some l1 =>
      rcases dropLit2_some_some lead l l1 hdl with ⟨hl1, hl2⟩
      simp only [hl2 y]
      cases hma : matchAlt2 ALL_COLORS_PLUS_GRAY l1 with
      | dead => simp only [matchAlt2_dead _ _ hma y]
      | more =>
        simp only [hma] at h
        simp at h
      | found c l2 =>
        simp only [hma] at h
        rcases matchAlt2_found _ _ _ _ hma with ⟨hc1, hc2⟩
        simp only [hc2 y]
        cases l2 with
        | nil => simp at h
        | cons e l3 =>
          change (if e = '-' then some (some l3) else none) = none at h
          by_cases he : e = '-'
          · rw [if_pos he] at h
            simp at h
          · simp only [List.cons_append]
            rw [if_neg he]


theorem frontEval_some (lead l c l3 : List Char)
    (h : frontEval lead l = some (c, l3)) :
    c ∈ ALL_COLORS_PLUS_GRAY ∧ l = lead ++ c ++ '-' :: l3 := by
  unfold frontEval at h
  cases hdl : dropLit lead l with
  | none => simp [hdl] at h
  | some l1 =>
    simp only [hdl] at h
    cases hma : matchAlt ALL_COLORS_PLUS_GRAY l1 with
    | none => simp [hma] at h
    | some p =>
      obtain ⟨color, l2⟩ := p
      simp only [hma] at h
      cases l2 with
      | nil => simp at h
      | cons e l3' =>
        change (if e = '-' then some (color, l3') else none) = some (c, l3) at h
        by_cases he : e = '-'
        · subst he
          rw [if_pos rfl] at h
          simp only [Option.some.injEq, Prod.mk.injEq] at h
          obtain ⟨rfl, rfl⟩ := h
          rcases matchAlt_some _ _ _ _ hma with ⟨hmem, hl1⟩
          refine ⟨hmem, ?_⟩
          rw [(dropLit_iff _ _ _).mp hdl, hl1]
          simp
        · rw [if_neg he] at h
          exact absurd h (by simp)

theorem frontEval_complete (lead c l3 : List Char) (hc : c ∈ ALL_COLORS_PLUS_GRAY) :
    frontEval lead (lead ++ c ++ '-' :: l3) = some (c, l3) := by
  unfold frontEval
  have h1 : lead ++ c ++ '-' :: l3 = lead ++ (c ++ '-' :: l3) := by simp
  rw [h1]
  simp only [(dropLit_iff lead _ (c ++ '-' :: l3)).mpr rfl]
  simp only [matchAlt_complete _ altsOk_colors c ('-' :: l3) hc]
  simp

theorem frontProbe_some_sound (lead l l3 : List Char)
    (h : frontProbe lead l = some (some l3)) :
    ∃ c, c ∈ ALL_COLORS_PLUS_GRAY ∧
      ∀ y, frontEval lead (l ++ y) = some (c, l3 ++ y) := by
  unfold frontProbe at h
  cases hdl : dropLit2 lead l with
  | none => simp [hdl] at h
  | some o =>
    simp only [hdl] at h
    cases o with
    | none => simp at h
    | some l1 =>
      rcases dropLit2_some_some lead l l1 hdl with ⟨hl1, hl2⟩
      cases hma : matchAlt2 ALL_COLORS_PLUS_GRAY l1 with
      | dead => simp [hma] at h
      | more =>
        simp only [hma] at h
        simp at h
      | found c l2 =>
        simp only [hma] at h
        rcases matchAlt2_found _ _ _ _ hma with ⟨hc1, hc2⟩
        cases l2 with
        | nil => simp at h
        | cons e l3' =>
          change (if e = '-' then some (some l3') else none) = some (some l3) at h
          by_cases he : e = '-'
          · subst he
            rw [if_pos rfl] at h
            simp only [Option.some.injEq] at h
            subst h
            have hmem : c ∈ ALL_COLORS_PLUS_GRAY :=
              (matchAlt_some _ _ _ _ (by simpa using hc2 [])).1
            refine ⟨c, hmem, fun y => ?_⟩
            unfold frontEval
            rw [hl2 y]
            simp only [hc2 y]
            simp
          · rw [if_neg he] at h
            exact absurd h (by simp)

theorem litAlive_sound (pat l : List Char) (h : litAlive pat l = false) :
    ∀ rep y, litMatch pat rep (l ++ y) = none := by
  intro rep y
  unfold litAlive at h
  unfold litMatch
  cases hdl : dropLit2 pat l with
  | none => rw [dropLit2_none pat l hdl y]
  | some o =>
    simp only [hdl] at h
    simp at h

theorem plainAlive_sound (lead l : List Char) (h : plainAlive lead l = false) :
    ∀ rep y, plainCore lead rep (l ++ y) = none := by
  intro rep y
  unfold plainAlive at h
  unfold plainCore
  cases hfp : frontProbe lead l with
  | none => simp only [frontProbe_none_sound lead l hfp y]
  | some o =>
    simp only [hfp] at h
    cases o with
    | none => simp at h
    | some l3 =>
      rcases frontProbe_some_sound lead l l3 hfp with ⟨c, hcmem, hfe⟩
      simp only [hfe y]
      unfold plainTailAlive at h
      cases hp1 : (takeDigits l3).1 with
      | cons d ds =>
        simp only [hp1] at h
        simp at h
      | nil =>
        simp only [hp1] at h
        cases hp2 : (takeDigits l3).2 with
        | nil =>
          simp only [hp2] at h
          simp at h
        | cons e r =>
          have hcl := takeDigits_closed l3 y (by rw [hp2]; simp)
          rw [hp1, hp2] at hcl
          simp only [hcl]

theorem solidAlive_sound (lead l : List Char) (h : solidAlive lead l = false) :
    ∀ rep y, solidCore lead rep (l ++ y) = none := by
  intro rep y
  unfold solidAlive at h
  unfold solidCore
  cases hfp : frontProbe lead l with
  | none => simp only [frontProbe_none_sound lead l hfp y]
  | some o =>
    simp only [hfp] at h
    cases o with
    | none => simp at h
    | some l3 =>
      rcases frontProbe_some_sound lead l l3 hfp with ⟨c, hcmem, hfe⟩
      simp only [hfe y]
      unfold solidTailAlive at h
      cases hp1 : (takeDigits l3).1 with
      | nil =>
        simp only [hp1] at h
        cases hp2 : (takeDigits l3).2 with
        | nil => simp [hp2] at h
        | cons e r =>
          have hcl := takeDigits_closed l3 y (by rw [hp2]; simp)
          rw [hp1, hp2] at hcl
          simp only [hcl]
      | cons d ds =>
        simp only [hp1] at h
        cases hp2 : (takeDigits l3).2 with
        | nil =>
          simp only [hp2] at h
          simp at h
        | cons e r =>
          simp only [hp2] at h
          have hcl := takeDigits_closed l3 y (by rw [hp2]; simp)
          rw [hp1, hp2] at hcl
          simp only [hcl, List.cons_append]
          by_cases he : e = '/'
          · subst he
            rw [if_pos rfl] at h ⊢
            have hlen : ¬ (2 ≤ (d :: ds).length) := by
              intro hc2
              rw [decide_eq_true hc2] at h
              exact absurd h (by simp)
            have hds : ds = [] := by
              cases ds with
              | nil => rfl
              | cons x xs =>
                exfalso
                apply hlen
                simp only [List.length_cons]
                omega
            subst hds
            simp [List.dropLast]
          · rw [if_neg he] at h
            simp at h

theorem opacityAlive_sound (lead l : List Char) (h : opacityAlive lead l = false) :
    ∀ rep y, tryOpacity lead rep (l ++ y) = none := by
  intro rep y
  unfold opacityAlive at h
  unfold tryOpacity
  cases hfp : frontProbe lead l with
  | none => simp only [frontProbe_none_sound lead l hfp y]
  | some o =>
    simp only [hfp] at h
    cases o with
    | none => simp at h
    | some l3 =>
      rcases frontProbe_some_sound lead l l3 hfp with ⟨c, hcmem, hfe⟩
      simp only [hfe y]
      unfold opacityTailAlive at h
      cases hp1 : (takeDigits l3).1 with
      | nil =>
        simp only [hp1] at h
        cases hp2 : (takeDigits l3).2 with
        | nil => simp [hp2] at h
        | cons e r =>
          have hcl := takeDigits_closed l3 y (by rw [hp2]; simp)
          rw [hp1, hp2] at hcl
          simp only [hcl]
      | cons d ds =>
        simp only [hp1] at h
        cases hp2 : (takeDigits l3).2 with
        | nil =>
          simp only [hp2] at h
          simp at h
        | cons e r =>
          simp only [hp2] at h
          have hcl := takeDigits_closed l3 y (by rw [hp2]; simp)
          rw [hp1, hp2] at hcl
          simp only [hcl, List.cons_append]
          by_cases he : e = '/'
          · subst he
            rw [if_pos rfl] at h ⊢
            cases hq1 : (takeDigits r).1 with
            | cons f fs =>
              simp only [hq1] at h
              simp at h
            | nil =>
              simp only [hq1] at h
              cases hq2 : (takeDigits r).2 with
              | nil =>
                simp only [hq2] at h
                simp at h
              | cons f s =>
                have hcl2 := takeDigits_closed r y (by rw [hq2]; simp)
                rw [hq1, hq2] at hcl2
                simp only [hcl2]
          · rw [if_neg he]

theorem pfxAlive_sound (alts : List (List Char)) (bodyAlive : List Char → Bool)
    (body : List Char → Option (List Char × List Char))
    (hbody : ∀ l, bodyAlive l = false → ∀ y, body (l ++ y) = none)
    (l : List Char) (h : pfxAlive alts bodyAlive l = false) :
    ∀ y, tryPfxList alts body (l ++ y) = none := by
  induction alts with
  | nil =>
    intro y
    unfold pfxAlive at h
    simp only [List.any_nil, Bool.false_or] at h
    exact hbody l h y
  | cons a as ih =>
    intro y
    unfold pfxAlive at h
    simp only [List.any_cons, Bool.or_eq_false_iff] at h
    obtain ⟨⟨ha, has⟩, hb⟩ := h
    have hrest : pfxAlive as bodyAlive l = false := by
      unfold pfxAlive
      rw [has, hb]
      rfl
    unfold tryPfxList
    cases hda : dropLit2 a l with
    | none =>
      simp only [dropLit2_none a l hda y]
      exact ih hrest y
    | some o =>
      cases o with
      | none =>
        simp only [hda] at ha
        simp at ha
      | some r =>
        simp only [hda] at ha
        rcases dropLit2_some_some a l r hda with ⟨h1, h2⟩
        simp only [h2 y, hbody r ha y]
        exact ih hrest y

/-! ### From the combined alive probe to simultaneous deadness -/

theorem aliveAll_sound (l : List Char) (h : aliveAll l = false) :
    ∀ y, DeadAllP (l ++ y) := by
  intro y
  simp only [aliveAll, Bool.or_eq_false_iff] at h
  obtain ⟨⟨⟨⟨⟨⟨⟨⟨⟨⟨⟨⟨h1, h2⟩, h3⟩, h4⟩, h5⟩, h6⟩, h7⟩, h8⟩, h9⟩, h10⟩, h11⟩, h12⟩, h13⟩ := h
  refine ⟨opacityAlive_sound _ _ h1 _ y, opacityAlive_sound _ _ h2 _ y,
    opacityAlive_sound _ _ h3 _ y,
    pfxAlive_sound _ _ textBody (fun l0 h0 y0 => plainAlive_sound _ l0 h0 _ y0) l h4 y,
    pfxAlive_sound _ _ bgSolidBody (fun l0 h0 y0 => solidAlive_sound _ l0 h0 _ y0) l h5 y,
    solidAlive_sound _ _ h6 _ y,
    pfxAlive_sound _ _ ringBody (fun l0 h0 y0 => plainAlive_sound _ l0 h0 _ y0) l h7 y,
    ?_⟩
  intro pr hpr
  simp only [hexMap, List.mem_cons, List.not_mem_nil, or_false] at hpr
  rcases hpr with rfl | rfl | rfl | rfl | rfl | rfl
  · exact litAlive_sound _ _ h8 _ y
  · exact litAlive_sound _ _ h9 _ y
  · exact litAlive_sound _ _ h10 _ y
  · exact litAlive_sound _ _ h11 _ y
  · exact litAlive_sound _ _ h12 _ y
  · exact litAlive_sound _ _ h13 _ y

theorem sealedStr_sound (l : List Char) (h : sealedStr l = true) :
    ∀ n, n < l.length → ∀ y, DeadAllP (l.drop n ++ y) := by
  intro n hn y
  simp only [sealedStr, List.all_eq_true, List.mem_range] at h
  exact aliveAll_sound _ (by simpa using h n hn) y

theorem deadHead_of (c : Char)
    (h : c.isDigit = true ∨ c = '.' ∨ c = ',' ∨ c = ' ' ∨ c = ')' ∨ c = ']' ∨ c = '(') :
    deadHead c = true := by
  rcases h with h | rfl | rfl | rfl | rfl | rfl | rfl
  · have hb : c ≠ 'b' := fun e => absurd (e ▸ h) (by decide)
    have ht : c ≠ 't' := fun e => absurd (e ▸ h) (by decide)
    have hr : c ≠ 'r' := fun e => absurd (e ▸ h) (by decide)
    have hh : c ≠ 'h' := fun e => absurd (e ▸ h) (by decide)
    have hd : c ≠ 'd' := fun e => absurd (e ▸ h) (by decide)
    have hf : c ≠ 'f' := fun e => absurd (e ▸ h) (by decide)
    have ha : c ≠ 'a' := fun e => absurd (e ▸ h) (by decide)
    have hs : c ≠ '#' := fun e => absurd (e ▸ h) (by decide)
    simp [deadHead, hb, ht, hr, hh, hd, hf, ha, hs]
  all_goals decide

/-! ### Head-mismatch deadness -/

theorem dropLit2_head_ne (pat : List Char) (p : Char) (hp : pat.head? = some p)
    (c : Char) (hne : p ≠ c) (rest : List Char) : dropLit2 pat (c :: rest) = none := by
  cases pat with
  | nil => simp at hp
  | cons q qs =>
    simp only [List.head?_cons, Option.some.injEq] at hp
    subst hp
    simp [dropLit2, hne]

theorem frontProbe_head_ne (lead : List Char) (p : Char) (hp : lead.head? = some p)
    (c : Char) (hne : p ≠ c) (rest : List Char) : frontProbe lead (c :: rest) = none := by
  unfold frontProbe
  rw [dropLit2_head_ne lead p hp c hne rest]

theorem opacityAlive_head_ne (lead : List Char) (p : Char) (hp : lead.head? = some p)
    (c : Char) (hne : p ≠ c) (rest : List Char) : opacityAlive lead (c :: rest) = false := by
  unfold opacityAlive
  rw [frontProbe_head_ne lead p hp c hne rest]

theorem solidAlive_head_ne (lead : List Char) (p : Char) (hp : lead.head? = some p)
    (c : Char) (hne : p ≠ c) (rest : List Char) : solidAlive lead (c :: rest) = false := by
  unfold solidAlive
  rw [frontProbe_head_ne lead p hp c hne rest]

theorem plainAlive_head_ne (lead : List Char) (p : Char) (hp : lead.head? = some p)
    (c : Char) (hne : p ≠ c) (rest : List Char) : plainAlive lead (c :: rest) = false := by
  unfold plainAlive
  rw [frontProbe_head_ne lead p hp c hne rest]

theorem litAlive_head_ne (pat : List Char) (p : Char) (hp : pat.head? = some p)
    (c : Char) (hne : p ≠ c) (rest : List Char) : litAlive pat (c :: rest) = false := by
  unfold litAlive
  rw [dropLit2_head_ne pat p hp c hne rest]

theorem pfxAlive_head_ne (alts : List (List Char)) (bodyA : List Char → Bool)
    (c : Char) (rest : List Char)
    (halts : ∀ a ∈ alts, ∃ p, a.head? = some p ∧ p ≠ c)
    (hbody : bodyA (c :: rest) = false) :
    pfxAlive alts bodyA (c :: rest) = false := by
  unfold pfxAlive
  rw [hbody, Bool.or_false]
  rw [List.any_eq_false]
  intro a ha
  obtain ⟨p, hp, hne⟩ := halts a ha
  rw [dropLit2_head_ne a p hp c hne rest]
  simp

theorem aliveAll_deadHead (c : Char) (h : deadHead c = true) (rest : List Char) :
    aliveAll (c :: rest) = false := by
  simp only [deadHead, Bool.not_eq_true', Bool.or_eq_false_iff,
    decide_eq_false_iff_not] at h
  obtain ⟨⟨⟨⟨⟨⟨⟨hb, ht⟩, hr⟩, hh⟩, hd⟩, hf⟩, ha⟩, hs⟩ := h
  unfold aliveAll
  rw [opacityAlive_head_ne (cl "bg-") 'b' rfl c (Ne.symm hb) rest,
    opacityAlive_head_ne (cl "border-") 'b' rfl c (Ne.symm hb) rest,
    opacityAlive_head_ne (cl "hover:bg-") 'h' rfl c (Ne.symm hh) rest,
    solidAlive_head_ne (cl "border-") 'b' rfl c (Ne.symm hb) rest,
    litAlive_head_ne (cl "#e5e7eb") '#' rfl c (Ne.symm hs) rest,
    litAlive_head_ne (cl "#d1d5db") '#' rfl c (Ne.symm hs) rest,
    litAlive_head_ne (cl "#9ca3af") '#' rfl c (Ne.symm hs) rest,
    litAlive_head_ne (cl "#6b7280") '#' rfl c (Ne.symm hs) rest,
    litAlive_head_ne (cl "#4b5563") '#' rfl c (Ne.symm hs) rest,
    litAlive_head_ne (cl "#374151") '#' rfl c (Ne.symm hs) rest]
  rw [pfxAlive_head_ne _ _ c rest ?h4 (plainAlive_head_ne (cl "text-") 't' rfl c (Ne.symm ht) rest)]
  rw [pfxAlive_head_ne _ _ c rest ?h5 (solidAlive_head_ne (cl "bg-") 'b' rfl c (Ne.symm hb) rest)]
  rw [pfxAlive_head_ne _ _ c rest ?h7 (plainAlive_head_ne (cl "ring-") 'r' rfl c (Ne.symm hr) rest)]
  case h4 =>
    intro a hamem
    simp only [List.mem_cons, List.not_mem_nil, or_false] at hamem
    rcases hamem with rfl | rfl | rfl
    · exact ⟨'h', rfl, Ne.symm hh⟩
    · exact ⟨'d', rfl, Ne.symm hd⟩
    · exact ⟨'f', rfl, Ne.symm hf⟩
  case h5 =>
    intro a hamem
    simp only [List.mem_cons, List.not_mem_nil, or_false] at hamem
    rcases hamem with rfl | rfl | rfl | rfl
    · exact ⟨'h', rfl, Ne.symm hh⟩
    · exact ⟨'d', rfl, Ne.symm hd⟩
    · exact ⟨'a', rfl, Ne.symm ha⟩
    · exact ⟨'f', rfl, Ne.symm hf⟩
  case h7 =>
    intro a hamem
    simp only [List.mem_cons, List.not_mem_nil, or_false] at hamem
    rcases hamem with rfl
    exact ⟨'f', rfl, Ne.symm hf⟩
  rfl

theorem sealedCat (F t : List Char) (hF : sealedStr F = true) (ht : t.all deadHead = true)
    (n : ℕ) (hn : n < (F ++ t).length) (y : List Char) :
    DeadAllP ((F ++ t).drop n ++ y) := by
  rw [List.drop_append_eq_append_drop]
  by_cases hnF : n < F.length
  · rw [Nat.sub_eq_zero_of_le (Nat.le_of_lt hnF), List.drop_zero, List.append_assoc]
    exact sealedStr_sound F hF n hnF (t ++ y)
  · push_neg at hnF
    rw [List.drop_eq_nil_of_le hnF, List.nil_append]
    have hk : n - F.length < t.length := by
      simp only [List.length_append] at hn
      omega
    have hmem : t.get ⟨n - F.length, hk⟩ ∈ t := List.get_mem t _ hk
    have hdh : deadHead (t.get ⟨n - F.length, hk⟩) = true :=
      List.all_eq_true.mp ht _ hmem
    have hsplit : t.drop (n - F.length) ++ y =
        t.get ⟨n - F.length, hk⟩ :: (t.drop (n - F.length + 1) ++ y) := by
      rw [List.drop_eq_get_cons hk]
      rfl
    rw [hsplit]
    simpa using
      aliveAll_sound _ (aliveAll_deadHead _ hdh (t.drop (n - F.length + 1) ++ y)) []

/-! ### Metatheory of the leftmost, non-overlapping, no-rescan scan -/

theorem matcher_nil_none (f : List Char → Option (List Char × List Char))
    (hcons : ∀ l a rest, f l = some (a, rest) → ∃ m, m ≠ [] ∧ l = m ++ rest) :
    f [] = none := by
  cases hf : f [] with
  | none => rfl
  | some p =>
    obtain ⟨a, rest⟩ := p
    obtain ⟨m, hm, hlm⟩ := hcons _ _ _ hf
    cases m with
    | nil => exact absurd rfl hm
    | cons q qs => simp at hlm

theorem rewriteSteps_nil (f : List Char → Option (List Char × List Char)) (fuel : ℕ) :
    rewriteSteps fuel f [] = [] := by
  cases fuel <;> rfl

theorem matched_length_le (c : Char) (cs m rest : List Char) (hm : m ≠ [])
    (hlm : c :: cs = m ++ rest) : rest.length ≤ cs.length := by
  have hlen := congrArg List.length hlm
  simp only [List.length_cons, List.length_append] at hlen
  cases m with
  | nil => exact absurd rfl hm
  | cons q qs =>
    simp only [List.length_cons] at hlen
    omega

theorem rewriteSteps_congr (f : List Char → Option (List Char × List Char))
    (hcons : ∀ l a rest, f l = some (a, rest) → ∃ m, m ≠ [] ∧ l = m ++ rest) :
    ∀ n, ∀ l : List Char, l.length ≤ n → ∀ fuel1 fuel2, l.length ≤ fuel1 →
      l.length ≤ fuel2 → rewriteSteps fuel1 f l = rewriteSteps fuel2 f l := by
  intro n
  induction n with
  | zero =>
    intro l hl fuel1 fuel2 h1 h2
    have : l = [] := List.length_eq_zero.mp (Nat.le_zero.mp hl)
    subst this
    rw [rewriteSteps_nil, rewriteSteps_nil]
  | succ n ih =>
    intro l hl fuel1 fuel2 h1 h2
    cases l with
    | nil => rw [rewriteSteps_nil, rewriteSteps_nil]
    | cons c cs =>
      cases fuel1 with
      | zero => simp at h1
      | succ f1 =>
        cases fuel2 with
        | zero => simp at h2
        | succ f2 =>
          simp only [List.length_cons, Nat.succ_le_succ_iff] at hl h1 h2
          cases hf : f (c :: cs) with
          | some p =>
            obtain ⟨a, rest⟩ := p
            obtain ⟨m, hm, hlm⟩ := hcons _ _ _ hf
            have hrest := matched_length_le c cs m rest hm hlm
            simp only [rewriteSteps, hf]
            rw [ih rest (le_trans hrest hl) f1 f2 (le_trans hrest h1) (le_trans hrest h2)]
          | none =>
            simp only [rewriteSteps, hf]
            rw [ih cs hl f1 f2 h1 h2]

theorem rewriteAll_cons_some (f : List Char → Option (List Char × List Char))
    (hcons : ∀ l a rest, f l = some (a, rest) → ∃ m, m ≠ [] ∧ l = m ++ rest)
    (c : Char) (cs a rest : List Char) (hf : f (c :: cs) = some (a, rest)) :
    rewriteAll f (c :: cs) = a ++ rewriteAll f rest := by
  obtain ⟨m, hm, hlm⟩ := hcons _ _ _ hf
  have hrest := matched_length_le c cs m rest hm hlm
  show rewriteSteps (c :: cs).length f (c :: cs) = _
  simp only [List.length_cons, rewriteSteps, hf]
  rw [rewriteSteps_congr f hcons cs.length rest hrest cs.length rest.length hrest le_rfl]
  rfl

theorem rewriteAll_cons_none (f : List Char → Option (List Char × List Char))
    (c : Char) (cs : List Char) (hf : f (c :: cs) = none) :
    rewriteAll f (c :: cs) = c :: rewriteAll f cs := by
  show rewriteSteps (c :: cs).length f (c :: cs) = _
  simp only [List.length_cons, rewriteSteps, hf]
  rfl

theorem rewriteAll_fix (f : List Char → Option (List Char × List Char)) :
    ∀ l : List Char, (∀ n, f (l.drop n) = none) → rewriteAll f l = l := by
  intro l
  induction l with
  | nil => intro _; rfl
  | cons c cs ih =>
    intro h
    rw [rewriteAll_cons_none f c cs (by simpa using h 0)]
    rw [ih (fun n => h (n + 1))]

theorem rewriteAll_decomp (f : List Char → Option (List Char × List Char))
    (hcons : ∀ l a rest, f l = some (a, rest) → ∃ m, m ≠ [] ∧ l = m ++ rest) :
    ∀ n, ∀ l : List Char, l.length ≤ n →
      (rewriteAll f l = l ∧ ∀ k, f (l.drop k) = none) ∨
      (∃ u lm a rest, l = u ++ (lm ++ rest) ∧ lm ≠ [] ∧ f (lm ++ rest) = some (a, rest) ∧
        rewriteAll f l = u ++ (a ++ rewriteAll f rest)) := by
  intro n
  induction n with
  | zero =>
    intro l hl
    have : l = [] := List.length_eq_zero.mp (Nat.le_zero.mp hl)
    subst this
    exact Or.inl ⟨rfl, fun k => by simpa using matcher_nil_none f hcons⟩
  | succ n ih =>
    intro l hl
    cases l with
    | nil => exact Or.inl ⟨rfl, fun k => by simpa using matcher_nil_none f hcons⟩
    | cons c cs =>
      simp only [List.length_cons, Nat.succ_le_succ_iff] at hl
      cases hf : f (c :: cs) with
      | some p =>
        obtain ⟨a, rest⟩ := p
        obtain ⟨m, hm, hlm⟩ := hcons _ _ _ hf
        refine Or.inr ⟨[], m, a, rest, by simpa using hlm, hm, ?_, ?_⟩
        · rw [← hlm]
          exact hf
        · simpa using rewriteAll_cons_some f hcons c cs a rest hf
      | none =>
        rcases ih cs hl with ⟨hfix, hnone⟩ | ⟨u, lm, a, rest, hcseq, hlm, hfm, hrwcs⟩
        · refine Or.inl ⟨?_, ?_⟩
          · rw [rewriteAll_cons_none f c cs hf, hfix]
          · intro k
            cases k with
            | zero => exact hf
            | succ k2 => exact hnone k2
        · refine Or.inr ⟨c :: u, lm, a, rest, by rw [hcseq]; rfl, hlm, hfm, ?_⟩
          rw [rewriteAll_cons_none f c cs hf, hrwcs]
          rfl

theorem rewriteAll_safe (f g : List Char → Option (List Char × List Char))
    (MF : MatcherFacts f g) :
    ∀ n, ∀ l : List Char, l.length ≤ n →
      (∀ k, f (l.drop k) = none → g (l.drop k) = none) →
      ∀ k, g ((rewriteAll f l).drop k) = none := by
  have hconsf : ∀ l a rest, f l = some (a, rest) → ∃ m, m ≠ [] ∧ l = m ++ rest :=
    fun l a rest h => (MF.fCons l a rest h).imp fun m hm => ⟨hm.1, hm.2.1⟩
  have hconsg : ∀ l b rest, g l = some (b, rest) → ∃ m, m ≠ [] ∧ l = m ++ rest := MF.gCons
  have hgnil : g [] = none := matcher_nil_none g hconsg
  intro n
  induction n with
  | zero =>
    intro l hl H k
    have : l = [] := List.length_eq_zero.mp (Nat.le_zero.mp hl)
    subst this
    rw [show rewriteAll f [] = [] from rfl, List.drop_nil]
    exact hgnil
  | succ n ih =>
    intro l hl H k
    cases l with
    | nil =>
      rw [show rewriteAll f [] = [] from rfl, List.drop_nil]
      exact hgnil
    | cons c cs =>
      simp only [List.length_cons, Nat.succ_le_succ_iff] at hl
      cases hf : f (c :: cs) with
      | some p =>
        obtain ⟨a, rest⟩ := p
        obtain ⟨m, hm, hlm, hmhead⟩ := MF.fCons _ _ _ hf
        have hrest := matched_length_le c cs m rest hm hlm
        have hHrest : ∀ k2, f (rest.drop k2) = none → g (rest.drop k2) = none := by
          intro k2
          have hdrop : rest.drop k2 = (c :: cs).drop (m.length + k2) := by
            rw [hlm, List.drop_append]
          rw [hdrop]
          exact H _
        have hout := ih rest (le_trans hrest hl) hHrest
        rw [rewriteAll_cons_some f hconsf c cs a rest hf,
          List.drop_append_eq_append_drop]
        by_cases hk : k < a.length
        · rw [Nat.sub_eq_zero_of_le (le_of_lt hk), List.drop_zero]
          exact MF.aSealed _ _ _ hf k hk _
        · push_neg at hk
          rw [List.drop_eq_nil_of_le hk, List.nil_append]
          exact hout _
      | none =>
        have hout := ih cs hl (fun k2 => H (k2 + 1))
        rw [rewriteAll_cons_none f c cs hf]
        cases k with
        | succ k2 => exact hout k2
        | zero =>
          rw [List.drop_zero]
          cases hgc : g (c :: rewriteAll f cs) with
          | none => rfl
          | some p =>
            exfalso
            obtain ⟨b, rg⟩ := p
            obtain ⟨mg, hmg, hmgeq⟩ := hconsg _ _ _ hgc
            have hg0 : g (c :: cs) = none := H 0 hf
            rcases rewriteAll_decomp f hconsf cs.length cs le_rfl with
              ⟨hfix, _⟩ | ⟨u, lm, a, rest, hcseq, hlm, hfm, hrwcs⟩
            · rw [hfix] at hgc
              simp [hg0] at hgc
            · rw [hrwcs] at hgc hmgeq
              have heq2 : (c :: u) ++ (a ++ rewriteAll f rest) = mg ++ rg := by
                simpa using hmgeq
              have hgmg : g (mg ++ rg) = some (b, rg) := by
                rw [← heq2]
                simpa using hgc
              obtain ⟨cha, hcha, hchad, hchas⟩ := MF.aHead _ _ _ hfm
              obtain ⟨mf, hmf, hmfeq, hmfhead⟩ := MF.fCons _ _ _ hfm
              have hmflm : mf = lm := List.append_cancel_right hmfeq.symm
              have hanil : a ≠ [] := by
                intro hx
                rw [hx] at hcha
                simp at hcha
              have hcase0 : mg = c :: u → rg = a ++ rewriteAll f rest → False := by
                intro he1 he2
                have hclass : headClass rg.head? = headClass (lm ++ rest).head? := by
                  rw [he2, List.head?_append_of_ne_nil a hanil,
                    List.head?_append_of_ne_nil lm hlm]
                  cases lm with
                  | nil => exact absurd rfl hlm
                  | cons l0 lt =>
                    have hl0 := hmfhead l0 (by rw [hmflm]; rfl)
                    rw [hcha]
                    simp [headClass, hchad, hchas, hl0.1, hl0.2]
                have hext := MF.gExt mg rg b hgmg (lm ++ rest) hclass
                apply hext
                have hback : mg ++ (lm ++ rest) = c :: cs := by
                  rw [he1, hcseq]
                  rfl
                rw [hback]
                exact hg0
              rcases List.append_eq_append_iff.mp heq2 with ⟨v, hv1, hv2⟩ | ⟨v, hv1, hv2⟩
              · cases v with
                | nil => exact hcase0 (by simpa using hv1) (by simpa using hv2.symm)
                | cons v0 vt =>
                  have hgx : g ((c :: u) ++ (a ++ rewriteAll f rest)) = some (b, rg) := by
                    simpa using hgc
                  have hstr := MF.gStr _ _ _ hfm (c :: u) (rewriteAll f rest) b rg
                    (by simp) hgx
                  have hlenv := congrArg List.length hv2
                  simp only [List.length_append, List.length_cons] at hlenv hstr
                  omega
              · cases v with
                | nil => exact hcase0 (by simpa using hv1.symm) (by simpa using hv2)
                | cons v0 vt =>
                  have hclass : headClass rg.head? =
                      headClass ((v0 :: vt) ++ (lm ++ rest)).head? := by
                    rw [hv2]
                    rfl
                  have hext := MF.gExt mg rg b hgmg ((v0 :: vt) ++ (lm ++ rest)) hclass
                  apply hext
                  have hback : mg ++ ((v0 :: vt) ++ (lm ++ rest)) = c :: cs := by
                    rw [← List.append_assoc, ← hv1, hcseq]
                    rfl
                  rw [hback]
                  exact hg0

/-! ### Structure of each core matcher's matches -/

theorem takeDigits_fst_append (A B : List Char) (hA : ∀ ch ∈ A, ch.isDigit = true) :
    takeDigits (A ++ B) = (A ++ (takeDigits B).1, (takeDigits B).2) := by
  have hsplit := takeDigits_append_eq B
  have hres := takeDigits_eval (A ++ (takeDigits B).1) (takeDigits B).2
    (by
      intro ch hch
      rcases List.mem_append.mp hch with hA2 | hB2
      · exact hA ch hA2
      · exact takeDigits_fst_digits B ch hB2)
    (takeDigits_snd_head B)
  rw [← hres, List.append_assoc, hsplit]

theorem takeDigits_fst_ne_nil (l : List Char) (c : Char) (hh : l.head? = some c)
    (hd : c.isDigit = true) : (takeDigits l).1 ≠ [] := by
  cases l with
  | nil => simp at hh
  | cons a as =>
    simp only [List.head?_cons, Option.some.injEq] at hh
    subst hh
    simp [takeDigits, List.takeWhile_cons, hd]

theorem drop_pred (D : List Char) (hD : D ≠ []) :
    D.drop (D.length - 1) = [D.getLast hD] := by
  induction D with
  | nil => exact absurd rfl hD
  | cons x D2 ih =>
    cases D2 with
    | nil => simp
    | cons y t =>
      have hne : (y :: t) ≠ [] := by simp
      have h1 : (x :: y :: t).length - 1 = t.length + 1 := by simp
      rw [h1, List.drop_succ_cons]
      have h3 : t.length = (y :: t).length - 1 := by simp
      rw [h3, ih hne, List.getLast_cons hne]

theorem plainCore_cases (lead : List Char) (rep : List Char → List Char → List Char)
    (l b rest : List Char) (h : plainCore lead rep l = some (b, rest)) :
    ∃ c d, c ∈ ALL_COLORS_PLUS_GRAY ∧ d ≠ [] ∧ (∀ ch ∈ d, ch.isDigit = true) ∧
      l = (lead ++ c ++ '-' :: d) ++ rest ∧
      (∀ ch, rest.head? = some ch → ch.isDigit = false) ∧
      b = rep c d := by
  unfold plainCore at h
  cases hfe : frontEval lead l with
  | none => simp [hfe] at h
  | some p =>
    obtain ⟨color, l3⟩ := p
    simp only [hfe] at h
    cases hp1 : (takeDigits l3).1 with
    | nil => simp [hp1] at h
    | cons d0 ds =>
      simp only [hp1] at h
      simp only [Option.some.injEq, Prod.mk.injEq] at h
      obtain ⟨hb, hrest⟩ := h
      obtain ⟨hmem, hl⟩ := frontEval_some lead l color l3 hfe
      refine ⟨color, (takeDigits l3).1, hmem, by rw [hp1]; simp,
        takeDigits_fst_digits l3, ?_, ?_, by rw [← hb, hp1]⟩
      · rw [hl, ← hrest]
        conv_lhs => rw [← takeDigits_append_eq l3]
        simp
      · intro ch hch
        rw [← hrest] at hch
        exact takeDigits_snd_head l3 ch hch

theorem headClass_digit_free (r1 r2 : List Char)
    (hc : headClass r1.head? = headClass r2.head?)
    (hr1 : ∀ ch, r1.head? = some ch → ch.isDigit = false) :
    ∀ ch, r2.head? = some ch → ch.isDigit = false := by
  intro ch hch
  rw [hch] at hc
  cases hh : r1.head? with
  | none =>
    rw [hh] at hc
    simp only [headClass, Prod.mk.injEq] at hc
    exact hc.1.symm
  | some c1 =>
    rw [hh] at hc
    simp only [headClass, Prod.mk.injEq] at hc
    rw [← hc.1]
    exact hr1 c1 hh

theorem plainCore_complete (lead : List Char) (rep : List Char → List Char → List Char)
    (c d rest : List Char) (hmem : c ∈ ALL_COLORS_PLUS_GRAY) (hd : d ≠ [])
    (hdig : ∀ ch ∈ d, ch.isDigit = true)
    (hrest : ∀ ch, rest.head? = some ch → ch.isDigit = false) :
    plainCore lead rep (lead ++ c ++ '-' :: (d ++ rest)) = some (rep c d, rest) := by
  cases d with
  | nil => exact absurd rfl hd
  | cons d0 ds =>
    unfold plainCore
    rw [frontEval_complete lead c _ hmem]
    simp only [takeDigits_eval ((d0 :: ds) : List Char) rest hdig hrest]

theorem plainCore_ext (lead : List Char) (rep : List Char → List Char → List Char)
    (m r1 b : List Char) (h : plainCore lead rep (m ++ r1) = some (b, r1))
    (r2 : List Char) (hc : headClass r1.head? = headClass r2.head?) :
    plainCore lead rep (m ++ r2) = some (b, r2) := by
  obtain ⟨c, d, hmem, hd, hdig, hleq, hr1h, hb⟩ := plainCore_cases lead rep _ b r1 h
  have hm : m = lead ++ c ++ '-' :: d := List.append_cancel_right hleq
  have hr2h := headClass_digit_free r1 r2 hc hr1h
  have hm2 : m ++ r2 = lead ++ c ++ '-' :: (d ++ r2) := by
    rw [hm]
    simp
  rw [hm2, plainCore_complete lead rep c d r2 hmem hd hdig hr2h, hb]

theorem tryOpacity_cases (lead : List Char)
    (rep : List Char → List Char → List Char → List Char)
    (l b rest : List Char) (h : tryOpacity lead rep l = some (b, rest)) :
    ∃ c d1 d2, c ∈ ALL_COLORS_PLUS_GRAY ∧ d1 ≠ [] ∧ d2 ≠ [] ∧
      (∀ ch ∈ d1, ch.isDigit = true) ∧ (∀ ch ∈ d2, ch.isDigit = true) ∧
      l = (lead ++ c ++ '-' :: (d1 ++ '/' :: d2)) ++ rest ∧
      (∀ ch, rest.head? = some ch → ch.isDigit = false) ∧
      b = rep c d1 d2 := by
  unfold tryOpacity at h
  cases hfe : frontEval lead l with
  | none => simp [hfe] at h
  | some p =>
    obtain ⟨color, l3⟩ := p
    simp only [hfe] at h
    cases hp1 : (takeDigits l3).1 with
    | nil => simp [hp1] at h
    | cons d0 ds =>
      simp only [hp1] at h
      cases hp2 : (takeDigits l3).2 with
      | nil => simp [hp2] at h
      | cons e l5 =>
        simp only [hp2] at h
        by_cases he : e = '/'
        · subst he
          rw [if_pos rfl] at h
          cases hq1 : (takeDigits l5).1 with
          | nil => simp [hq1] at h
          | cons f0 fs =>
            simp only [hq1] at h
            simp only [Option.some.injEq, Prod.mk.injEq] at h
            obtain ⟨hb, hrest⟩ := h
            obtain ⟨hmem, hl⟩ := frontEval_some lead l color l3 hfe
            refine ⟨color, (takeDigits l3).1, (takeDigits l5).1, hmem,
              by rw [hp1]; simp, by rw [hq1]; simp,
              takeDigits_fst_digits l3, takeDigits_fst_digits l5, ?_, ?_, ?_⟩
            · rw [hl, ← hrest]
              have hl3 : l3 = (takeDigits l3).1 ++ '/' :: l5 := by
                conv_lhs => rw [← takeDigits_append_eq l3]
                rw [hp2]
              have hl5 : l5 = (takeDigits l5).1 ++ (takeDigits l5).2 :=
                (takeDigits_append_eq l5).symm
              conv_lhs => rw [hl3]
              conv_lhs => rw [hl5]
              simp
            · intro ch hch
              rw [← hrest] at hch
              exact takeDigits_snd_head l5 ch hch
            · rw [← hb, hp1, hq1]
        · rw [if_neg he] at h
          exact absurd h (by simp)

theorem tryOpacity_complete (lead : List Char)
    (rep : List Char → List Char → List Char → List Char)
    (c d1 d2 rest : List Char) (hmem : c ∈ ALL_COLORS_PLUS_GRAY)
    (hd1 : d1 ≠ []) (hd2 : d2 ≠ [])
    (hdig1 : ∀ ch ∈ d1, ch.isDigit = true) (hdig2 : ∀ ch ∈ d2, ch.isDigit = true)
    (hrest : ∀ ch, rest.head? = some ch → ch.isDigit = false) :
    tryOpacity lead rep (lead ++ c ++ '-' :: (d1 ++ '/' :: (d2 ++ rest))) =
      some (rep c d1 d2, rest) := by
  cases d1 with
  | nil => exact absurd rfl hd1
  | cons e1 es =>
    cases d2 with
    | nil => exact absurd rfl hd2
    | cons f0 fs =>
      have hsl : ∀ ch, (('/' :: ((f0 :: fs) ++ rest)) : List Char).head? = some ch →
          ch.isDigit = false := by
        intro ch hch
        simp only [List.head?_cons, Option.some.injEq] at hch
        rw [← hch]
        decide
      have h2 : takeDigits (f0 :: (fs ++ rest)) = (f0 :: fs, rest) := by
        simpa using takeDigits_eval (f0 :: fs) rest hdig2 hrest
      unfold tryOpacity
      rw [frontEval_complete lead c _ hmem]
      simp only [takeDigits_eval (e1 :: es) ('/' :: ((f0 :: fs) ++ rest)) hdig1 hsl]
      simp only [if_true, List.cons_append, h2]

theorem tryOpacity_ext (lead : List Char)
    (rep : List Char → List Char → List Char → List Char)
    (m r1 b : List Char) (h : tryOpacity lead rep (m ++ r1) = some (b, r1))
    (r2 : List Char) (hc : headClass r1.head? = headClass r2.head?) :
    tryOpacity lead rep (m ++ r2) = some (b, r2) := by
  obtain ⟨c, d1, d2, hmem, hd1, hd2, hdig1, hdig2, hleq, hr1h, hb⟩ :=
    tryOpacity_cases lead rep _ b r1 h
  have hm : m = lead ++ c ++ '-' :: (d1 ++ '/' :: d2) := List.append_cancel_right hleq
  have hr2h := headClass_digit_free r1 r2 hc hr1h
  have hm2 : m ++ r2 = lead ++ c ++ '-' :: (d1 ++ '/' :: (d2 ++ r2)) := by
    rw [hm]
    simp
  rw [hm2, tryOpacity_complete lead rep c d1 d2 r2 hmem hd1 hd2 hdig1 hdig2 hr2h, hb]

theorem solidCore_cases (lead : List Char) (rep : List Char → List Char → List Char)
    (l b rest : List Char) (h : solidCore lead rep l = some (b, rest)) :
    ∃ c d, c ∈ ALL_COLORS_PLUS_GRAY ∧ d ≠ [] ∧ (∀ ch ∈ d, ch.isDigit = true) ∧
      l = (lead ++ c ++ '-' :: d) ++ rest ∧ b = rep c d ∧
      ((∀ ch, rest.head? = some ch → ch.isDigit = false ∧ ch ≠ '/') ∨
       (∃ ch, rest.head? = some ch ∧ ch.isDigit = true)) := by
  unfold solidCore at h
  cases hfe : frontEval lead l with
  | none => simp [hfe] at h
  | some p =>
    obtain ⟨color, l3⟩ := p
    simp only [hfe] at h
    obtain ⟨hmem, hl⟩ := frontEval_some lead l color l3 hfe
    have hsplit := takeDigits_append_eq l3
    have hfst := takeDigits_fst_digits l3
    have hsnd := takeDigits_snd_head l3
    cases hp1 : (takeDigits l3).1 with
    | nil => simp [hp1] at h
    | cons d0 ds =>
      rw [hp1] at hsplit hfst
      simp only [hp1] at h
      cases hp2 : (takeDigits l3).2 with
      | nil =>
        rw [hp2] at hsplit
        simp only [hp2] at h
        simp only [Option.some.injEq, Prod.mk.injEq] at h
        obtain ⟨hb, hrest⟩ := h
        refine ⟨color, d0 :: ds, hmem, by simp, hfst, ?_, hb.symm, Or.inl ?_⟩
        · rw [hl, ← hsplit, ← hrest]
          simp
        · intro ch hch
          rw [← hrest] at hch
          simp at hch
      | cons e l5 =>
        rw [hp2] at hsplit hsnd
        simp only [hp2] at h
        by_cases he : e = '/'
        · subst he
          rw [if_pos rfl] at h
          cases hdl : (d0 :: ds).dropLast with
          | nil =>
            rw [hdl] at h
            simp at h
          | cons g0 gs =>
            rw [hdl] at h
            simp only [Option.some.injEq, Prod.mk.injEq] at h
            obtain ⟨hb, hrest⟩ := h
            have hne : (d0 :: ds) ≠ ([] : List Char) := by simp
            have hdrop : List.drop ((d0 :: ds).length - 1) (d0 :: ds) =
                [(d0 :: ds).getLast hne] := drop_pred (d0 :: ds) hne
            rw [hdrop] at hrest
            refine ⟨color, (d0 :: ds).dropLast, hmem, by rw [hdl]; simp,
              (fun ch hch => hfst ch (List.dropLast_subset _ hch)), ?_, ?_, Or.inr ?_⟩
            · rw [hl, ← hsplit, ← hrest]
              conv_lhs => rw [← List.dropLast_append_getLast hne]
              simp
            · rw [hdl]
              exact hb.symm
            · refine ⟨(d0 :: ds).getLast hne, ?_, hfst _ (List.getLast_mem hne)⟩
              rw [← hrest]
              rfl
        · rw [if_neg he] at h
          simp only [Option.some.injEq, Prod.mk.injEq] at h
          obtain ⟨hb, hrest⟩ := h
          refine ⟨color, d0 :: ds, hmem, by simp, hfst, ?_, hb.symm, Or.inl ?_⟩
          · rw [hl, ← hsplit, ← hrest]
            simp
          · intro ch hch
            rw [← hrest] at hch
            simp only [List.head?_cons, Option.some.injEq] at hch
            subst hch
            exact ⟨hsnd e rfl, he⟩

theorem solidCore_run (lead : List Char) (rep : List Char → List Char → List Char)
    (c D rest : List Char) (hmem : c ∈ ALL_COLORS_PLUS_GRAY) (hD : D ≠ [])
    (hdig : ∀ ch ∈ D, ch.isDigit = true)
    (hlen : 2 ≤ D.length ∨ ∀ ch, rest.head? = some ch → ch ≠ '/')
    (hrest : ∀ ch, rest.head? = some ch → ch.isDigit = false) :
    solidCore lead rep (lead ++ c ++ '-' :: (D ++ rest)) ≠ none := by
  cases D with
  | nil => exact absurd rfl hD
  | cons d0 ds =>
    unfold solidCore
    rw [frontEval_complete lead c _ hmem]
    simp only [takeDigits_eval (d0 :: ds) rest hdig hrest]
    cases rest with
    | nil => simp
    | cons e l5 =>
      by_cases he : e = '/'
      · subst he
        rcases hlen with hlen | hne
        · cases ds with
          | nil => simp at hlen
          | cons d1 ds2 => simp [List.dropLast]
        · exact absurd rfl (hne '/' rfl)
      · simp [he]

theorem solidCore_ext (lead : List Char) (rep : List Char → List Char → List Char)
    (m r1 b : List Char) (h : solidCore lead rep (m ++ r1) = some (b, r1))
    (r2 : List Char) (hc : headClass r1.head? = headClass r2.head?) :
    solidCore lead rep (m ++ r2) ≠ none := by
  obtain ⟨c, d, hmem, hd, hdig, hleq, hb, hbr⟩ := solidCore_cases lead rep _ b r1 h
  have hm : m = lead ++ c ++ '-' :: d := List.append_cancel_right hleq
  rcases hbr with hsafe | ⟨ch1, hch1, hch1d⟩
  · -- the match ended cleanly: r1 is empty or starts with a non-digit non-slash
    have hr2 : ∀ ch, r2.head? = some ch → ch.isDigit = false ∧ ch ≠ '/' := by
      intro ch hch
      rw [hch] at hc
      cases hh : r1.head? with
      | none =>
        rw [hh] at hc
        simp only [headClass, Prod.mk.injEq] at hc
        refine ⟨hc.1.symm, ?_⟩
        intro hsl
        rw [hsl] at hc
        simp at hc
      | some c1 =>
        rw [hh] at hc
        simp only [headClass, Prod.mk.injEq] at hc
        obtain ⟨h1, h2⟩ := hsafe c1 hh
        refine ⟨by rw [← hc.1]; exact h1, ?_⟩
        intro hsl
        rw [hsl] at hc
        have := hc.2
        simp [h2] at this
    have hm2 : m ++ r2 = lead ++ c ++ '-' :: (d ++ r2) := by
      rw [hm]
      simp
    rw [hm2]
    exact solidCore_run lead rep c d r2 hmem hd hdig
      (Or.inr fun ch hch => (hr2 ch hch).2) (fun ch hch => (hr2 ch hch).1)
  · -- the regex backtracked: r1 starts with the returned last digit
    have hr2d : ∃ ch, r2.head? = some ch ∧ ch.isDigit = true := by
      rw [hch1] at hc
      cases hh : r2.head? with
      | none =>
        rw [hh] at hc
        simp only [headClass, Prod.mk.injEq] at hc
        rw [hch1d] at hc
        simp at hc
      | some c2 =>
        rw [hh] at hc
        simp only [headClass, Prod.mk.injEq] at hc
        exact ⟨c2, rfl, by rw [← hc.1]; exact hch1d⟩
    obtain ⟨ch2, hch2, hch2d⟩ := hr2d
    have ht1 : (takeDigits r2).1 ≠ [] := takeDigits_fst_ne_nil r2 ch2 hch2 hch2d
    have hrun : d ++ r2 = (d ++ (takeDigits r2).1) ++ (takeDigits r2).2 := by
      rw [List.append_assoc, takeDigits_append_eq]
    have hm2 : m ++ r2 = lead ++ c ++ '-' :: ((d ++ (takeDigits r2).1) ++ (takeDigits r2).2) := by
      rw [hm, ← hrun]
      simp
    rw [hm2]
    refine solidCore_run lead rep c (d ++ (takeDigits r2).1) (takeDigits r2).2 hmem
      (by simp [hd]) ?_ (Or.inl ?_) (takeDigits_snd_head r2)
    · intro ch hch
      rcases List.mem_append.mp hch with h1 | h2
      · exact hdig ch h1
      · exact takeDigits_fst_digits r2 ch h2
    · rw [List.length_append]
      cases d with
      | nil => exact absurd rfl hd
      | cons x xs =>
        cases hq : (takeDigits r2).1 with
        | nil => exact absurd hq ht1
        | cons y ys =>
          simp only [List.length_cons]
          omega

/-! ### The optional prefix group and the literal matchers -/

theorem tryPfxList_cases (alts : List (List Char))
    (body : List Char → Option (List Char × List Char)) (l b rest : List Char)
    (h : tryPfxList alts body l = some (b, rest)) :
    ∃ p b2 l2, (p = [] ∨ p ∈ alts) ∧ b = p ++ b2 ∧ l = p ++ l2 ∧
      body l2 = some (b2, rest) := by
  induction alts with
  | nil => exact ⟨[], b, l, Or.inl rfl, by simp, by simp, h⟩
  | cons a as ih =>
    simp only [tryPfxList] at h
    cases hda : dropLit a l with
    | some l1 =>
      simp only [hda] at h
      cases hb1 : body l1 with
      | some q =>
        obtain ⟨r, rst⟩ := q
        simp only [hb1] at h
        simp only [Option.some.injEq, Prod.mk.injEq] at h
        obtain ⟨hb, hrst⟩ := h
        exact ⟨a, r, l1, Or.inr (List.mem_cons_self a as), hb.symm,
          (dropLit_iff a l l1).mp hda, by rw [hb1, hrst]⟩
      | none =>
        simp only [hb1] at h
        obtain ⟨p, b2, l2, hp, hb, hl, hbody⟩ := ih h
        exact ⟨p, b2, l2, hp.imp id (List.mem_cons_of_mem a), hb, hl, hbody⟩
    | none =>
      simp only [hda] at h
      obtain ⟨p, b2, l2, hp, hb, hl, hbody⟩ := ih h
      exact ⟨p, b2, l2, hp.imp id (List.mem_cons_of_mem a), hb, hl, hbody⟩

theorem tryPfxList_ne_none (alts : List (List Char))
    (body : List Char → Option (List Char × List Char)) (l p l2 : List Char)
    (hp : p = [] ∨ p ∈ alts) (hl : l = p ++ l2) (hbody : body l2 ≠ none) :
    tryPfxList alts body l ≠ none := by
  induction alts with
  | nil =>
    rcases hp with rfl | hmem
    · show body l ≠ none
      rw [hl, List.nil_append]
      exact hbody
    · simp at hmem
  | cons a as ih =>
    simp only [tryPfxList]
    cases hda : dropLit a l with
    | some l1 =>
      simp only [hda]
      cases hb1 : body l1 with
      | some q => simp [hb1]
      | none =>
        simp only [hb1]
        rcases hp with rfl | hmem
        · exact ih (Or.inl rfl)
        · rcases List.mem_cons.mp hmem with rfl | hmas
          · exfalso
            have hll1 := (dropLit_iff p l l1).mp hda
            rw [hl] at hll1
            have : l2 = l1 := List.append_cancel_left hll1
            rw [this] at hbody
            exact hbody hb1
          · exact ih (Or.inr hmas)
    | none =>
      simp only [hda]
      rcases hp with rfl | hmem
      · exact ih (Or.inl rfl)
      · rcases List.mem_cons.mp hmem with rfl | hmas
        · exfalso
          have : dropLit p l = some l2 := (dropLit_iff p l l2).mpr hl
          rw [hda] at this
          exact absurd this (by simp)
        · exact ih (Or.inr hmas)

theorem litMatch_cases (pat rep l b rest : List Char)
    (h : litMatch pat rep l = some (b, rest)) : l = pat ++ rest ∧ b = rep := by
  unfold litMatch at h
  cases hda : dropLit pat l with
  | none => simp [hda] at h
  | some r =>
    rw [hda] at h
    simp only [Option.some.injEq, Prod.mk.injEq] at h
    exact ⟨by rw [(dropLit_iff pat l r).mp hda, h.2], h.1.symm⟩

theorem litMatch_ext (pat rep : List Char) (m r1 b : List Char)
    (h : litMatch pat rep (m ++ r1) = some (b, r1)) (r2 : List Char) :
    litMatch pat rep (m ++ r2) ≠ none := by
  obtain ⟨hl, hb⟩ := litMatch_cases pat rep _ b r1 h
  have hm : m = pat := List.append_cancel_right hl
  rw [hm]
  unfold litMatch
  rw [(dropLit_iff pat (pat ++ r2) r2).mpr rfl]
  simp

/-! ### Consumption with head safety -/

theorem skel_head_safe (lead c d : List Char) (p0 : Char)
    (hp0 : lead.head? = some p0) (hp0d : p0.isDigit = false) (hp0s : p0 ≠ '/') :
    (lead ++ c ++ '-' :: d ≠ []) ∧
      ∀ ch, ((lead ++ c ++ '-' :: d) : List Char).head? = some ch →
        ch.isDigit = false ∧ ch ≠ '/' := by
  cases lead with
  | nil => simp at hp0
  | cons q qs =>
    simp only [List.head?_cons, Option.some.injEq] at hp0
    rw [← hp0] at hp0d hp0s
    constructor
    · simp
    · intro ch hch
      have hform : ((q :: qs) ++ c ++ '-' :: d).head? = some q := by simp
      rw [hform] at hch
      simp only [Option.some.injEq] at hch
      subst hch
      exact ⟨hp0d, hp0s⟩

theorem plainCore_cons (lead : List Char) (rep : List Char → List Char → List Char)
    (p0 : Char) (hp0 : lead.head? = some p0) (hp0d : p0.isDigit = false)
    (hp0s : p0 ≠ '/') (l b rest : List Char) (h : plainCore lead rep l = some (b, rest)) :
    ∃ m, m ≠ [] ∧ l = m ++ rest ∧
      ∀ ch, m.head? = some ch → ch.isDigit = false ∧ ch ≠ '/' := by
  obtain ⟨c, d, hmem, hd, hdig, hleq, hr, hb⟩ := plainCore_cases lead rep l b rest h
  obtain ⟨hne, hsafe⟩ := skel_head_safe lead c d p0 hp0 hp0d hp0s
  exact ⟨lead ++ c ++ '-' :: d, hne, hleq, hsafe⟩

theorem tryOpacity_cons (lead : List Char)
    (rep : List Char → List Char → List Char → List Char)
    (p0 : Char) (hp0 : lead.head? = some p0) (hp0d : p0.isDigit = false)
    (hp0s : p0 ≠ '/') (l b rest : List Char) (h : tryOpacity lead rep l = some (b, rest)) :
    ∃ m, m ≠ [] ∧ l = m ++ rest ∧
      ∀ ch, m.head? = some ch → ch.isDigit = false ∧ ch ≠ '/' := by
  obtain ⟨c, d1, d2, hmem, hd1, hd2, hdig1, hdig2, hleq, hr, hb⟩ :=
    tryOpacity_cases lead rep l b rest h
  obtain ⟨hne, hsafe⟩ := skel_head_safe lead c (d1 ++ '/' :: d2) p0 hp0 hp0d hp0s
  exact ⟨lead ++ c ++ '-' :: (d1 ++ '/' :: d2), hne, hleq, hsafe⟩

theorem solidCore_cons (lead : List Char) (rep : List Char → List Char → List Char)
    (p0 : Char) (hp0 : lead.head? = some p0) (hp0d : p0.isDigit = false)
    (hp0s : p0 ≠ '/') (l b rest : List Char) (h : solidCore lead rep l = some (b, rest)) :
    ∃ m, m ≠ [] ∧ l = m ++ rest ∧
      ∀ ch, m.head? = some ch → ch.isDigit = false ∧ ch ≠ '/' := by
  obtain ⟨c, d, hmem, hd, hdig, hleq, hb, hbr⟩ := solidCore_cases lead rep l b rest h
  obtain ⟨hne, hsafe⟩ := skel_head_safe lead c d p0 hp0 hp0d hp0s
  exact ⟨lead ++ c ++ '-' :: d, hne, hleq, hsafe⟩

theorem litMatch_cons (pat rep : List Char) (p0 : Char)
    (hp0 : pat.head? = some p0) (hp0d : p0.isDigit = false) (hp0s : p0 ≠ '/')
    (l b rest : List Char) (h : litMatch pat rep l = some (b, rest)) :
    ∃ m, m ≠ [] ∧ l = m ++ rest ∧
      ∀ ch, m.head? = some ch → ch.isDigit = false ∧ ch ≠ '/' := by
  obtain ⟨hl, hb⟩ := litMatch_cases pat rep l b rest h
  cases pat with
  | nil => simp at hp0
  | cons q qs =>
    simp only [List.head?_cons, Option.some.injEq] at hp0
    rw [← hp0] at hp0d hp0s
    refine ⟨q :: qs, by simp, hl, ?_⟩
    intro ch hch
    simp only [List.head?_cons, Option.some.injEq] at hch
    subst hch
    exact ⟨hp0d, hp0s⟩

theorem pfxBody_cons (alts : List (List Char))
    (body : List Char → Option (List Char × List Char))
    (hbody : ∀ l b rest, body l = some (b, rest) →
      ∃ m, m ≠ [] ∧ l = m ++ rest ∧
        ∀ ch, m.head? = some ch → ch.isDigit = false ∧ ch ≠ '/')
    (halts : ∀ a ∈ alts, ∃ p, a.head? = some p ∧ p.isDigit = false ∧ p ≠ '/')
    (l b rest : List Char) (h : tryPfxList alts body l = some (b, rest)) :
    ∃ m, m ≠ [] ∧ l = m ++ rest ∧
      ∀ ch, m.head? = some ch → ch.isDigit = false ∧ ch ≠ '/' := by
  obtain ⟨p, b2, l2, hp, hb, hl, hbody2⟩ := tryPfxList_cases alts body l b rest h
  obtain ⟨m2, hm2, hl2, hhead2⟩ := hbody l2 b2 rest hbody2
  rcases hp with rfl | hmem
  · refine ⟨m2, hm2, ?_, hhead2⟩
    rw [hl, List.nil_append, hl2]
  · obtain ⟨p0, hp0, hp0d, hp0s⟩ := halts p hmem
    cases p with
    | nil => simp at hp0
    | cons q qs =>
      simp only [List.head?_cons, Option.some.injEq] at hp0
      rw [← hp0] at hp0d hp0s
      refine ⟨(q :: qs) ++ m2, by simp, ?_, ?_⟩
      · rw [hl, hl2]
        simp
      · intro ch hch
        simp only [List.cons_append, List.head?_cons, Option.some.injEq] at hch
        subst hch
        exact ⟨hp0d, hp0s⟩

theorem pfx_ext (alts : List (List Char))
    (body : List Char → Option (List Char × List Char))
    (hbodyext : ∀ m r1 b, body (m ++ r1) = some (b, r1) → ∀ r2,
      headClass r1.head? = headClass r2.head? → body (m ++ r2) ≠ none)
    (hbodycons : ∀ l b rest, body l = some (b, rest) → ∃ m, m ≠ [] ∧ l = m ++ rest)
    (m r1 b : List Char) (h : tryPfxList alts body (m ++ r1) = some (b, r1))
    (r2 : List Char) (hc : headClass r1.head? = headClass r2.head?) :
    tryPfxList alts body (m ++ r2) ≠ none := by
  obtain ⟨p, b2, l2, hp, hb, hl, hbody2⟩ := tryPfxList_cases alts body (m ++ r1) b r1 h
  obtain ⟨mb, hmb, hl2⟩ := hbodycons l2 b2 r1 hbody2
  have hm : m = p ++ mb := by
    have h2 : m ++ r1 = (p ++ mb) ++ r1 := by rw [hl, hl2, List.append_assoc]
    exact List.append_cancel_right h2
  have hbody3 : body (mb ++ r2) ≠ none := by
    apply hbodyext mb r1 b2 _ r2 hc
    rw [← hl2]
    exact hbody2
  exact tryPfxList_ne_none alts body (m ++ r2) p (mb ++ r2) hp
    (by rw [hm, List.append_assoc]) hbody3

/-! ### Straddle refutation: no pattern match crosses from preceding text into
a replacement -/

theorem killsAfter_sound : ∀ t rs, killsAfter t rs = true → ∀ z d w,
    d.isDigit = true → t ++ d :: w ≠ rs ++ z := by
  intro t
  induction t with
  | nil =>
    intro rs h z d w hd heq
    cases rs with
    | nil => simp [killsAfter] at h
    | cons r rs2 =>
      simp only [killsAfter] at h
      simp only [List.nil_append, List.cons_append, List.cons.injEq] at heq
      rw [← heq.1] at h
      rw [hd] at h
      simp at h
  | cons a ts ih =>
    intro rs h z d w hd heq
    cases rs with
    | nil => simp [killsAfter] at h
    | cons r rs2 =>
      by_cases har : a = r
      · subst har
        simp only [killsAfter, if_pos rfl] at h
        simp only [List.cons_append, List.cons.injEq] at heq
        exact ih rs2 h z d w hd heq.2
      · simp only [List.cons_append, List.cons.injEq] at heq
        exact har heq.1

theorem litKills_sound : ∀ t rs, litKills t rs = true → ∀ z w, t ++ w ≠ rs ++ z := by
  intro t
  induction t with
  | nil =>
    intro rs h
    simp [litKills] at h
  | cons a ts ih =>
    intro rs h z w
    cases rs with
    | nil => simp [litKills] at h
    | cons r rs2 =>
      by_cases har : a = r
      · subst har
        simp only [litKills, if_pos rfl] at h
        intro heq
        simp only [List.cons_append, List.cons.injEq] at heq
        exact ih rs2 h z w heq.2
      · intro heq
        simp only [List.cons_append, List.cons.injEq] at heq
        exact har heq.1

theorem headSafeL_spec (a : List Char) (h : headSafeL a = true) :
    ∃ r0 t, a = r0 :: t ∧ r0.isDigit = false ∧ r0 ≠ '/' := by
  cases a with
  | nil => simp [headSafeL] at h
  | cons c cs =>
    simp only [headSafeL, Bool.and_eq_true, Bool.not_eq_true',
      decide_eq_false_iff_not] at h
    exact ⟨c, cs, rfl, h.1, h.2⟩

theorem repStarts_head : ∀ rs ∈ RepStarts,
    ∃ r0 t, rs = r0 :: t ∧ r0.isDigit = false ∧ r0 ≠ '/' := by
  have htab : RepStarts.all headSafeL = true := by decide
  intro rs hrs
  exact headSafeL_spec rs (List.all_eq_true.mp htab rs hrs)

set_option maxRecDepth 4000 in
set_option maxHeartbeats 2000000 in
theorem killsTable : ∀ sk ∈ skelsUnion, ∀ j, 1 ≤ j → j < sk.length →
    ∀ rs ∈ RepStarts, killsAfter (sk.drop j) rs = true := by
  have htab : (skelsUnion.all fun sk => (List.range sk.length).all fun j =>
      decide (j = 0) || RepStarts.all fun rs => killsAfter (sk.drop j) rs) = true := by
    decide
  intro sk hsk j hj1 hjlt rs hrs
  have h1 := List.all_eq_true.mp htab sk hsk
  have h2 := List.all_eq_true.mp h1 j (List.mem_range.mpr hjlt)
  simp only [Bool.or_eq_true, decide_eq_true_eq, List.all_eq_true] at h2
  rcases h2 with h3 | h3
  · omega
  · exact h3 rs hrs

theorem litTable : ∀ pt ∈ hexMap.map Prod.fst, ∀ j, 1 ≤ j → j < pt.length →
    litKills (pt.drop j) (cl "var(--color-") = true := by
  have htab : ((hexMap.map Prod.fst).all fun pt => (List.range pt.length).all fun j =>
      decide (j = 0) || litKills (pt.drop j) (cl "var(--color-")) = true := by decide
  intro pt hpt j hj1 hjlt
  have h1 := List.all_eq_true.mp htab pt hpt
  have h2 := List.all_eq_true.mp h1 j (List.mem_range.mpr hjlt)
  simp only [Bool.or_eq_true, decide_eq_true_eq] at h2
  rcases h2 with h3 | h3
  · omega
  · exact h3

theorem skelsOf_mem (pfxs : List (List Char)) (lead p c : List Char)
    (hp : p = [] ∨ p ∈ pfxs) (hc : c ∈ ALL_COLORS_PLUS_GRAY) :
    p ++ lead ++ c ++ [ '-' ] ∈ skelsOf pfxs lead := by
  unfold skelsOf
  rw [List.mem_flatMap]
  refine ⟨p, ?_, ?_⟩
  · rcases hp with rfl | hmem
    · exact List.mem_append_right pfxs (by simp)
    · exact List.mem_append_left _ hmem
  · rw [List.mem_map]
    exact ⟨c, hc, rfl⟩

theorem straddle_regex (g : List Char → Option (List Char × List Char))
    (hshape : ∀ l b rest, g l = some (b, rest) → ShapeOf skelsUnion l rest) :
    ∀ x A z b rg, x ≠ [] → (∃ rs t, rs ∈ RepStarts ∧ A = rs ++ t) →
      g (x ++ (A ++ z)) = some (b, rg) → A.length + z.length ≤ rg.length := by
  intro x A z b rg hx hAr hg
  obtain ⟨rs, t, hrs, hA⟩ := hAr
  obtain ⟨sk, mt, hsk, heq, hmt, hmthead, hmtset⟩ := hshape _ _ _ hg
  by_contra hlt
  push_neg at hlt
  obtain ⟨r0, rs0, hrs0, hr0d, hr0s⟩ := repStarts_head rs hrs
  rcases List.append_eq_append_iff.mp heq with ⟨v, hv1, hv2⟩ | ⟨v, hv1, hv2⟩
  · cases hmt2 : mt with
    | nil => exact absurd hmt2 hmt
    | cons d w =>
      have hd : d.isDigit = true := by
        apply hmthead
        rw [hmt2]
        rfl
      cases v with
      | nil =>
        rw [List.nil_append] at hv2
        rw [hA, hrs0, hmt2] at hv2
        have hh : r0 = d := by simpa using congrArg List.head? hv2
        rw [hh] at hr0d
        rw [hd] at hr0d
        simp at hr0d
      | cons v0 vt =>
        have hj : sk.drop x.length = v0 :: vt := by
          rw [hv1, List.drop_left]
        have hx1 : 1 ≤ x.length := by
          cases x with
          | nil => exact absurd rfl hx
          | cons q qs => simp
        have hjlt : x.length < sk.length := by
          rw [hv1]
          simp only [List.length_append, List.length_cons]
          omega
        have hkill := killsTable sk hsk x.length hx1 hjlt rs hrs
        rw [hj] at hkill
        apply killsAfter_sound (v0 :: vt) rs hkill (t ++ z) d (w ++ rg) hd
        rw [hA, hmt2] at hv2
        simpa [List.append_assoc] using hv2.symm
  · have hlen2 := congrArg List.length hv2
    simp only [List.length_append] at hlen2
    rcases List.append_eq_append_iff.mp hv2 with ⟨u, hu1, hu2⟩ | ⟨u, hu1, hu2⟩
    · have := congrArg List.length hu2
      simp only [List.length_append] at this
      omega
    · cases u with
      | nil =>
        rw [List.nil_append] at hu2
        have := congrArg List.length hu2
        simp only [List.length_append] at this
        omega
      | cons u0 ut =>
        have hu0mem : u0 ∈ mt := by
          rw [hu1]
          exact List.mem_append_right v (List.mem_cons_self u0 ut)
        have hu0 := hmtset u0 hu0mem
        have hhead : r0 = u0 := by
          rw [hA, hrs0] at hu2
          simpa using congrArg List.head? hu2
        rcases hu0 with hdig | hsl
        · rw [hhead] at hr0d
          rw [hdig] at hr0d
          simp at hr0d
        · rw [hhead] at hr0s
          exact hr0s hsl

theorem straddle_lit (pat rep : List Char) (hpat : pat ∈ hexMap.map Prod.fst) :
    ∀ x A z b rg, x ≠ [] →
      (∃ rs t, rs ∈ ([cl "var(--color-"] : List (List Char)) ∧ A = rs ++ t) →
      litMatch pat rep (x ++ (A ++ z)) = some (b, rg) →
      A.length + z.length ≤ rg.length := by
  intro x A z b rg hx hAr hg
  obtain ⟨rs, t, hrs, hA⟩ := hAr
  obtain ⟨heq, hb⟩ := litMatch_cases pat rep _ b rg hg
  by_contra hlt
  push_neg at hlt
  have hrs2 : rs = cl "var(--color-" := by simpa using hrs
  rcases List.append_eq_append_iff.mp heq with ⟨v, hv1, hv2⟩ | ⟨v, hv1, hv2⟩
  · cases v with
    | nil =>
      rw [List.nil_append] at hv2
      have := congrArg List.length hv2
      simp only [List.length_append] at this
      omega
    | cons v0 vt =>
      have hj : pat.drop x.length = v0 :: vt := by
        rw [hv1, List.drop_left]
      have hx1 : 1 ≤ x.length := by
        cases x with
        | nil => exact absurd rfl hx
        | cons q qs => simp
      have hxlt : x.length < pat.length := by
        rw [hv1]
        simp only [List.length_append, List.length_cons]
        omega
      have hkill := litTable pat hpat x.length hx1 hxlt
      rw [hj] at hkill
      apply litKills_sound (v0 :: vt) (cl "var(--color-") hkill (t ++ z) rg
      rw [hA, hrs2] at hv2
      simpa [List.append_assoc] using hv2.symm
  · have := congrArg List.length hv2
    simp only [List.length_append] at this
    omega

/-! ### Replacement strings are sealed: no pattern can match at any position
inside them, whatever follows -/

theorem colors_explicit : ALL_COLORS_PLUS_GRAY =
    [cl "emerald", cl "fuchsia", cl "yellow", cl "orange", cl "purple", cl "indigo",
     cl "violet", cl "green", cl "amber", cl "slate", cl "teal", cl "rose", cl "blue",
     cl "cyan", cl "pink", cl "gray", cl "red", cl "sky"] := by decide

theorem natDigitsRev_lt : ∀ fuel n : ℕ, ∀ d ∈ natDigitsRev fuel n, d < 10 := by
  intro fuel
  induction fuel with
  | zero =>
    intro n d hd
    simp [natDigitsRev] at hd
  | succ f ih =>
    intro n d hd
    simp only [natDigitsRev] at hd
    by_cases hn : n < 10
    · rw [if_pos hn] at hd
      simp only [List.mem_singleton] at hd
      omega
    · rw [if_neg hn] at hd
      rcases List.mem_cons.mp hd with rfl | hd2
      · exact Nat.mod_lt n (by omega)
      · exact ih (n / 10) d hd2

theorem digitChar_deadHead (d : ℕ) (hd : d < 10) : deadHead (digitChar d) = true := by
  interval_cases d <;> decide

theorem natToDigits_deadHead (n : ℕ) : ∀ ch ∈ natToDigits n, deadHead ch = true := by
  intro ch hch
  unfold natToDigits at hch
  rw [List.mem_map] at hch
  obtain ⟨d, hd, rfl⟩ := hch
  exact digitChar_deadHead d (natDigitsRev_lt _ _ d (List.mem_reverse.mp hd))

theorem opacityRepr_deadHead (ds : List Char) :
    ∀ ch ∈ opacityRepr ds, deadHead ch = true := by
  intro ch hch
  simp only [opacityRepr] at hch
  rcases List.mem_append.mp hch with h1 | h2
  · rcases List.mem_append.mp h1 with h3 | h4
    · exact natToDigits_deadHead _ ch h3
    · simp only [List.mem_singleton] at h4
      subst h4
      decide
  · split at h2
    · simp only [List.mem_singleton] at h2
      subst h2
      decide
    · split at h2
      · simp only [List.mem_singleton] at h2
        subst h2
        exact digitChar_deadHead _ (by omega)
      · rcases List.mem_cons.mp h2 with rfl | h5
        · exact digitChar_deadHead _ (by omega)
        · simp only [List.mem_singleton] at h5
          subst h5
          exact digitChar_deadHead _ (Nat.mod_lt _ (by omega))

theorem rgba_facts : ∀ c ∈ ALL_COLORS_PLUS_GRAY,
    ∃ v, lookupAssoc COLOR_RGBA c = some v ∧ ∀ ch ∈ v, deadHead ch = true := by
  have htab : ALL_COLORS_PLUS_GRAY.all
      (fun c => (lookupAssoc COLOR_RGBA c).isSome &&
        ((lookupAssoc COLOR_RGBA c).getD []).all deadHead) = true := by decide
  intro c hc
  have h1 := List.all_eq_true.mp htab c hc
  simp only [Bool.and_eq_true] at h1
  obtain ⟨h2, h3⟩ := h1
  obtain ⟨v, hv⟩ := Option.isSome_iff_exists.mp h2
  refine ⟨v, hv, ?_⟩
  intro ch hch
  rw [hv] at h3
  simp only [Option.getD_some] at h3
  exact List.all_eq_true.mp h3 ch hch

theorem replace_text_mem (c g3 : List Char) (hc : c ∈ ALL_COLORS_PLUS_GRAY) :
    replace_text c g3 ∈ textBodies := by
  rw [colors_explicit] at hc
  fin_cases hc <;>
  · simp only [replace_text]
    split_ifs <;> decide

theorem replace_bg_solid_mem (c g3 : List Char) (hc : c ∈ ALL_COLORS_PLUS_GRAY) :
    replace_bg_solid c g3 ∈ bgBodies := by
  rw [colors_explicit] at hc
  fin_cases hc <;>
  · simp only [replace_bg_solid]
    split_ifs <;> decide

theorem replace_border_mem (c : List Char) (hc : c ∈ ALL_COLORS_PLUS_GRAY) :
    replace_border c ∈ borderBodies := by
  rw [colors_explicit] at hc
  fin_cases hc <;>
  · simp only [replace_border]
    split_ifs <;> decide

theorem replace_ring_mem (c : List Char) (hc : c ∈ ALL_COLORS_PLUS_GRAY) :
    replace_ring c ∈ ringBodies := by
  rw [colors_explicit] at hc
  fin_cases hc <;>
  · simp only [replace_ring]
    split_ifs <;> decide

theorem pfxCat_mem (ps bodies : List (List Char)) (p b2 : List Char)
    (hp : p ∈ ps) (hb : b2 ∈ bodies) : p ++ b2 ∈ pfxCat ps bodies := by
  unfold pfxCat
  rw [List.mem_flatMap]
  exact ⟨p, hp, List.mem_map.mpr ⟨b2, hb, rfl⟩⟩

set_option maxRecDepth 4000 in
set_option maxHeartbeats 2000000 in
theorem sealedTable : sealedAllList.all sealedStr = true := by decide

theorem sealed_of_mem (a : List Char) (ha : a ∈ sealedAllList) :
    ∀ n, n < a.length → ∀ y, DeadAllP (a.drop n ++ y) :=
  sealedStr_sound a (List.all_eq_true.mp sealedTable a ha)

theorem repStarts_of_mem (L : List (List Char))
    (htab : (L.all fun s => RepStarts.any fun rs => isStart rs s) = true)
    (s : List Char) (hs : s ∈ L) : ∃ rs t, rs ∈ RepStarts ∧ s = rs ++ t := by
  have h1 := List.all_eq_true.mp htab s hs
  rw [List.any_eq_true] at h1
  obtain ⟨rs, hrs, hst⟩ := h1
  obtain ⟨t, ht⟩ := (isStart_iff rs s).mp hst
  exact ⟨rs, t, hrs, ht⟩

theorem digits_head (d : List Char) (hdig : ∀ ch ∈ d, ch.isDigit = true) :
    ∀ ch, d.head? = some ch → ch.isDigit = true := by
  intro ch hch
  cases d with
  | nil => simp at hch
  | cons d0 ds =>
    simp only [List.head?_cons, Option.some.injEq] at hch
    subst hch
    exact hdig d0 (List.mem_cons_self d0 ds)

theorem rgbaRep_sealed (F v g3 : List Char) (hF : sealedStr F = true)
    (hv : ∀ ch ∈ v, deadHead ch = true) :
    ∀ n, n < (F ++ (v ++ [ ',' ] ++ opacityRepr g3 ++ cl ")]")).length →
      ∀ y, DeadAllP ((F ++ (v ++ [ ',' ] ++ opacityRepr g3 ++ cl ")]")).drop n ++ y) := by
  intro n hn y
  apply sealedCat F (v ++ [ ',' ] ++ opacityRepr g3 ++ cl ")]") hF ?_ n hn y
  rw [List.all_eq_true]
  intro ch hch
  rw [show cl ")]" = [')', ']'] from rfl] at hch
  simp only [List.mem_append, List.mem_singleton, List.mem_cons,
    List.not_mem_nil, or_false] at hch
  rcases hch with ((h | h) | h) | (h | h)
  · exact hv ch h
  · subst h
    decide
  · exact opacityRepr_deadHead g3 ch h
  · subst h
    decide
  · subst h
    decide

/-! ### The per-matcher fact bundles -/

theorem mgood_pfx_plain (alts : List (List Char)) (lead : List Char)
    (rep : List Char → List Char → List Char)
    (p0 : Char) (hp0 : lead.head? = some p0) (hp0d : p0.isDigit = false) (hp0s : p0 ≠ '/')
    (halts : ∀ a ∈ alts, ∃ p, a.head? = some p ∧ p.isDigit = false ∧ p ≠ '/')
    (hsk : ∀ p c, (p = [] ∨ p ∈ alts) → c ∈ ALL_COLORS_PLUS_GRAY →
      p ++ lead ++ c ++ [ '-' ] ∈ skelsUnion)
    (hrepmem : ∀ p c g3, (p = [] ∨ p ∈ alts) → c ∈ ALL_COLORS_PLUS_GRAY →
      p ++ rep c g3 ∈ sealedAllList)
    (hshp : ∀ p c g3, (p = [] ∨ p ∈ alts) → c ∈ ALL_COLORS_PLUS_GRAY →
      ∃ rs t, rs ∈ RepStarts ∧ p ++ rep c g3 = rs ++ t) :
    MGood (tryPfxList alts (plainCore lead rep)) RepStarts RepStarts := by
  have hshape : ∀ l b rest, tryPfxList alts (plainCore lead rep) l = some (b, rest) →
      ShapeOf skelsUnion l rest := by
    intro l b rest h
    obtain ⟨p, b2, l2, hp, hb, hl, hbody⟩ := tryPfxList_cases _ _ _ _ _ h
    obtain ⟨c, d, hmem, hd, hdig, hleq, hr, hb2⟩ := plainCore_cases lead rep _ _ _ hbody
    refine ⟨p ++ lead ++ c ++ [ '-' ], d, hsk p c hp hmem, ?_, hd,
      digits_head d hdig, fun ch hch => Or.inl (hdig ch hch)⟩
    rw [hl, hleq]
    simp
  refine ⟨?_, ?_, ?_, ?_, ?_⟩
  · exact pfxBody_cons alts (plainCore lead rep)
      (fun l b rest h => plainCore_cons lead rep p0 hp0 hp0d hp0s l b rest h) halts
  · exact pfx_ext alts (plainCore lead rep)
      (fun m r1 b h r2 hc => by rw [plainCore_ext lead rep m r1 b h r2 hc]; simp)
      (fun l b rest h => by
        obtain ⟨m, hm, hl, _⟩ := plainCore_cons lead rep p0 hp0 hp0d hp0s l b rest h
        exact ⟨m, hm, hl⟩)
  · exact straddle_regex _ hshape
  · intro l a rest h n hn y
    obtain ⟨p, b2, l2, hp, hb, hl, hbody⟩ := tryPfxList_cases _ _ _ _ _ h
    obtain ⟨c, d, hmem, hd, hdig, hleq, hr, hb2⟩ := plainCore_cases lead rep _ _ _ hbody
    have hmem2 : a ∈ sealedAllList := by
      rw [hb, hb2]
      exact hrepmem p c d hp hmem
    exact sealed_of_mem a hmem2 n hn y
  · intro l a rest h
    obtain ⟨p, b2, l2, hp, hb, hl, hbody⟩ := tryPfxList_cases _ _ _ _ _ h
    obtain ⟨c, d, hmem, hd, hdig, hleq, hr, hb2⟩ := plainCore_cases lead rep _ _ _ hbody
    obtain ⟨rs, t, hrs, heq⟩ := hshp p c d hp hmem
    exact ⟨rs, t, hrs, hrs, by rw [hb, hb2, heq]⟩

theorem mgood_pfx_solid (alts : List (List Char)) (lead : List Char)
    (rep : List Char → List Char → List Char)
    (p0 : Char) (hp0 : lead.head? = some p0) (hp0d : p0.isDigit = false) (hp0s : p0 ≠ '/')
    (halts : ∀ a ∈ alts, ∃ p, a.head? = some p ∧ p.isDigit = false ∧ p ≠ '/')
    (hsk : ∀ p c, (p = [] ∨ p ∈ alts) → c ∈ ALL_COLORS_PLUS_GRAY →
      p ++ lead ++ c ++ [ '-' ] ∈ skelsUnion)
    (hrepmem : ∀ p c g3, (p = [] ∨ p ∈ alts) → c ∈ ALL_COLORS_PLUS_GRAY →
      p ++ rep c g3 ∈ sealedAllList)
    (hshp : ∀ p c g3, (p = [] ∨ p ∈ alts) → c ∈ ALL_COLORS_PLUS_GRAY →
      ∃ rs t, rs ∈ RepStarts ∧ p ++ rep c g3 = rs ++ t) :
    MGood (tryPfxList alts (solidCore lead rep)) RepStarts RepStarts := by
  have hshape : ∀ l b rest, tryPfxList alts (solidCore lead rep) l = some (b, rest) →
      ShapeOf skelsUnion l rest := by
    intro l b rest h
    obtain ⟨p, b2, l2, hp, hb, hl, hbody⟩ := tryPfxList_cases _ _ _ _ _ h
    obtain ⟨c, d, hmem, hd, hdig, hleq, hb2, hbr⟩ := solidCore_cases lead rep _ _ _ hbody
    refine ⟨p ++ lead ++ c ++ [ '-' ], d, hsk p c hp hmem, ?_, hd,
      digits_head d hdig, fun ch hch => Or.inl (hdig ch hch)⟩
    rw [hl, hleq]
    simp
  refine ⟨?_, ?_, ?_, ?_, ?_⟩
  · exact pfxBody_cons alts (solidCore lead rep)
      (fun l b rest h => solidCore_cons lead rep p0 hp0 hp0d hp0s l b rest h) halts
  · exact pfx_ext alts (solidCore lead rep)
      (fun m r1 b h r2 hc => solidCore_ext lead rep m r1 b h r2 hc)
      (fun l b rest h => by
        obtain ⟨m, hm, hl, _⟩ := solidCore_cons lead rep p0 hp0 hp0d hp0s l b rest h
        exact ⟨m, hm, hl⟩)
  · exact straddle_regex _ hshape
  · intro l a rest h n hn y
    obtain ⟨p, b2, l2, hp, hb, hl, hbody⟩ := tryPfxList_cases _ _ _ _ _ h
    obtain ⟨c, d, hmem, hd, hdig, hleq, hb2, hbr⟩ := solidCore_cases lead rep _ _ _ hbody
    have hmem2 : a ∈ sealedAllList := by
      rw [hb, hb2]
      exact hrepmem p c d hp hmem
    exact sealed_of_mem a hmem2 n hn y
  · intro l a rest h
    obtain ⟨p, b2, l2, hp, hb, hl, hbody⟩ := tryPfxList_cases _ _ _ _ _ h
    obtain ⟨c, d, hmem, hd, hdig, hleq, hb2, hbr⟩ := solidCore_cases lead rep _ _ _ hbody
    obtain ⟨rs, t, hrs, heq⟩ := hshp p c d hp hmem
    exact ⟨rs, t, hrs, hrs, by rw [hb, hb2, heq]⟩

theorem mgood_opacity (lead F : List Char)
    (rep : List Char → List Char → List Char → List Char)
    (p0 : Char) (hp0 : lead.head? = some p0) (hp0d : p0.isDigit = false) (hp0s : p0 ≠ '/')
    (hsk : ∀ c, c ∈ ALL_COLORS_PLUS_GRAY → lead ++ c ++ [ '-' ] ∈ skelsUnion)
    (hF : sealedStr F = true) (hFrs : F ∈ RepStarts)
    (hrep : ∀ c g2 g3 v, lookupAssoc COLOR_RGBA c = some v →
      rep c g2 g3 = F ++ (v ++ [ ',' ] ++ opacityRepr g3 ++ cl ")]")) :
    MGood (tryOpacity lead rep) RepStarts RepStarts := by
  have hshape : ∀ l b rest, tryOpacity lead rep l = some (b, rest) →
      ShapeOf skelsUnion l rest := by
    intro l b rest h
    obtain ⟨c, d1, d2, hmem, hd1, hd2, hdig1, hdig2, hleq, hr, hb⟩ :=
      tryOpacity_cases lead rep _ _ _ h
    refine ⟨lead ++ c ++ [ '-' ], d1 ++ '/' :: d2, hsk c hmem, ?_, by simp [hd1], ?_, ?_⟩
    · rw [hleq]
      simp
    · intro ch hch
      cases d1 with
      | nil => exact absurd rfl hd1
      | cons e1 es =>
        simp only [List.cons_append, List.head?_cons, Option.some.injEq] at hch
        subst hch
        exact hdig1 e1 (List.mem_cons_self e1 es)
    · intro ch hch
      rcases List.mem_append.mp hch with h1 | h2
      · exact Or.inl (hdig1 ch h1)
      · rcases List.mem_cons.mp h2 with rfl | h3
        · exact Or.inr rfl
        · exact Or.inl (hdig2 ch h3)
  refine ⟨?_, ?_, ?_, ?_, ?_⟩
  · exact fun l b rest h => tryOpacity_cons lead rep p0 hp0 hp0d hp0s l b rest h
  · exact fun m r1 b h r2 hc => by rw [tryOpacity_ext lead rep m r1 b h r2 hc]; simp
  · exact straddle_regex _ hshape
  · intro l a rest h n hn y
    obtain ⟨c, d1, d2, hmem, hd1, hd2, hdig1, hdig2, hleq, hr, hb⟩ :=
      tryOpacity_cases lead rep _ _ _ h
    obtain ⟨v, hv, hvset⟩ := rgba_facts c hmem
    have ha : a = F ++ (v ++ [ ',' ] ++ opacityRepr d2 ++ cl ")]") := by
      rw [hb]
      exact hrep c d1 d2 v hv
    rw [ha] at hn ⊢
    exact rgbaRep_sealed F v d2 hF hvset n hn y
  · intro l a rest h
    obtain ⟨c, d1, d2, hmem, hd1, hd2, hdig1, hdig2, hleq, hr, hb⟩ :=
      tryOpacity_cases lead rep _ _ _ h
    obtain ⟨v, hv, hvset⟩ := rgba_facts c hmem
    refine ⟨F, v ++ [ ',' ] ++ opacityRepr d2 ++ cl ")]", hFrs, hFrs, ?_⟩
    rw [hb]
    exact hrep c d1 d2 v hv

theorem mgood_hex : ∀ pr ∈ hexMap,
    MGood (litMatch pr.1 pr.2) [cl "var(--color-"] [cl "var(--color-"] := by
  intro pr hpr
  have hheadtab : (hexMap.map Prod.fst).all headSafeL = true := by decide
  obtain ⟨q0, t0, hpr1, hq0d, hq0s⟩ := headSafeL_spec pr.1
    (List.all_eq_true.mp hheadtab pr.1 (List.mem_map_of_mem Prod.fst hpr))
  have hsnd : pr.2 ∈ sealedAllList := by
    have h2 : pr.2 ∈ hexMap.map Prod.snd := List.mem_map_of_mem Prod.snd hpr
    simp only [sealedAllList, List.mem_append]
    tauto
  have hstart : isStart (cl "var(--color-") pr.2 = true := by
    have htab : (hexMap.all fun q => isStart (cl "var(--color-") q.2) = true := by decide
    exact List.all_eq_true.mp htab pr hpr
  obtain ⟨tv, htv⟩ := (isStart_iff _ _).mp hstart
  refine ⟨?_, ?_, ?_, ?_, ?_⟩
  · exact fun l b rest h =>
      litMatch_cons pr.1 pr.2 q0 (by rw [hpr1]; rfl) hq0d hq0s l b rest h
  · exact fun m r1 b h r2 _ => litMatch_ext pr.1 pr.2 m r1 b h r2
  · exact straddle_lit pr.1 pr.2 (List.mem_map_of_mem Prod.fst hpr)
  · intro l a rest h n hn y
    obtain ⟨hl, hb⟩ := litMatch_cases pr.1 pr.2 l a rest h
    rw [hb] at hn ⊢
    exact sealed_of_mem pr.2 hsnd n hn y
  · intro l a rest h
    obtain ⟨hl, hb⟩ := litMatch_cases pr.1 pr.2 l a rest h
    exact ⟨cl "var(--color-", tv, by simp, by decide, by rw [hb, htv]⟩

/-! ### The thirteen matcher instances -/

theorem halts_hdf : ∀ a ∈ [cl "hover:", cl "dark:", cl "focus:"],
    ∃ p, a.head? = some p ∧ p.isDigit = false ∧ p ≠ '/' := by
  intro a ha
  fin_cases ha
  · exact ⟨'h', rfl, by decide, by decide⟩
  · exact ⟨'d', rfl, by decide, by decide⟩
  · exact ⟨'f', rfl, by decide, by decide⟩

theorem halts_hdaf : ∀ a ∈ [cl "hover:", cl "dark:", cl "active:", cl "focus:"],
    ∃ p, a.head? = some p ∧ p.isDigit = false ∧ p ≠ '/' := by
  intro a ha
  fin_cases ha
  · exact ⟨'h', rfl, by decide, by decide⟩
  · exact ⟨'d', rfl, by decide, by decide⟩
  · exact ⟨'a', rfl, by decide, by decide⟩
  · exact ⟨'f', rfl, by decide, by decide⟩

theorem halts_f : ∀ a ∈ [cl "focus:"],
    ∃ p, a.head? = some p ∧ p.isDigit = false ∧ p ≠ '/' := by
  intro a ha
  fin_cases ha
  exact ⟨'f', rfl, by decide, by decide⟩

theorem halts_nil : ∀ a ∈ ([] : List (List Char)),
    ∃ p, a.head? = some p ∧ p.isDigit = false ∧ p ≠ '/' := by
  intro a ha
  simp at ha

theorem hsk_bgO : ∀ c ∈ ALL_COLORS_PLUS_GRAY, cl "bg-" ++ c ++ [ '-' ] ∈ skelsUnion := by
  intro c hc
  have hb : cl "bg-" ++ c ++ [ '-' ] ∈ skelsOf [] (cl "bg-") :=
    skelsOf_mem [] (cl "bg-") [] c (Or.inl rfl) hc
  simp only [skelsUnion, List.mem_append]
  tauto

theorem hsk_borderO : ∀ c ∈ ALL_COLORS_PLUS_GRAY,
    cl "border-" ++ c ++ [ '-' ] ∈ skelsUnion := by
  intro c hc
  have hb : cl "border-" ++ c ++ [ '-' ] ∈ skelsOf [] (cl "border-") :=
    skelsOf_mem [] (cl "border-") [] c (Or.inl rfl) hc
  simp only [skelsUnion, List.mem_append]
  tauto

theorem hsk_hoverO : ∀ c ∈ ALL_COLORS_PLUS_GRAY,
    cl "hover:bg-" ++ c ++ [ '-' ] ∈ skelsUnion := by
  intro c hc
  have hb : cl "hover:bg-" ++ c ++ [ '-' ] ∈ skelsOf [] (cl "hover:bg-") :=
    skelsOf_mem [] (cl "hover:bg-") [] c (Or.inl rfl) hc
  simp only [skelsUnion, List.mem_append]
  tauto

theorem hsk_text : ∀ p c, (p = [] ∨ p ∈ [cl "hover:", cl "dark:", cl "focus:"]) →
    c ∈ ALL_COLORS_PLUS_GRAY → p ++ cl "text-" ++ c ++ [ '-' ] ∈ skelsUnion := by
  intro p c hp hc
  have hb := skelsOf_mem [cl "hover:", cl "dark:", cl "focus:"] (cl "text-") p c hp hc
  simp only [skelsUnion, List.mem_append]
  tauto

theorem hsk_bgSolid : ∀ p c,
    (p = [] ∨ p ∈ [cl "hover:", cl "dark:", cl "active:", cl "focus:"]) →
    c ∈ ALL_COLORS_PLUS_GRAY → p ++ cl "bg-" ++ c ++ [ '-' ] ∈ skelsUnion := by
  intro p c hp hc
  have hb := skelsOf_mem [cl "hover:", cl "dark:", cl "active:", cl "focus:"]
    (cl "bg-") p c hp hc
  simp only [skelsUnion, List.mem_append]
  tauto

theorem hsk_borderSolid : ∀ p c, (p = [] ∨ p ∈ ([] : List (List Char))) →
    c ∈ ALL_COLORS_PLUS_GRAY → p ++ cl "border-" ++ c ++ [ '-' ] ∈ skelsUnion := by
  intro p c hp hc
  rcases hp with rfl | hm
  · have hb := skelsOf_mem [] (cl "border-") [] c (Or.inl rfl) hc
    simp only [skelsUnion, List.mem_append]
    tauto
  · simp at hm

theorem hsk_ring : ∀ p c, (p = [] ∨ p ∈ [cl "focus:"]) →
    c ∈ ALL_COLORS_PLUS_GRAY → p ++ cl "ring-" ++ c ++ [ '-' ] ∈ skelsUnion := by
  intro p c hp hc
  have hb := skelsOf_mem [cl "focus:"] (cl "ring-") p c hp hc
  simp only [skelsUnion, List.mem_append]
  tauto

theorem textRep_mem (p c g3 : List Char)
    (hp : p = [] ∨ p ∈ [cl "hover:", cl "dark:", cl "focus:"])
    (hc : c ∈ ALL_COLORS_PLUS_GRAY) : p ++ replace_text c g3 ∈ repListText := by
  have hb := replace_text_mem c g3 hc
  have hp2 : p ∈ [([] : List Char), cl "hover:", cl "dark:", cl "focus:"] := by
    rcases hp with rfl | hm
    · exact List.mem_cons_self _ _
    · exact List.mem_cons_of_mem _ hm
  exact pfxCat_mem _ _ p _ hp2 hb

theorem bgSolidRep_mem (p c g3 : List Char)
    (hp : p = [] ∨ p ∈ [cl "hover:", cl "dark:", cl "active:", cl "focus:"])
    (hc : c ∈ ALL_COLORS_PLUS_GRAY) : p ++ replace_bg_solid c g3 ∈ repListBgSolid := by
  have hb := replace_bg_solid_mem c g3 hc
  have hp2 : p ∈ [([] : List Char), cl "hover:", cl "dark:", cl "active:", cl "focus:"] := by
    rcases hp with rfl | hm
    · exact List.mem_cons_self _ _
    · exact List.mem_cons_of_mem _ hm
  exact pfxCat_mem _ _ p _ hp2 hb

theorem ringRep_mem (p c : List Char) (hp : p = [] ∨ p ∈ [cl "focus:"])
    (hc : c ∈ ALL_COLORS_PLUS_GRAY) : p ++ replace_ring c ∈ repListRing := by
  have hb := replace_ring_mem c hc
  have hp2 : p ∈ [([] : List Char), cl "focus:"] := by
    rcases hp with rfl | hm
    · exact List.mem_cons_self _ _
    · exact List.mem_cons_of_mem _ hm
  exact pfxCat_mem _ _ p _ hp2 hb

theorem mgood_m1 : MGood tryBgOpacity RepStarts RepStarts := by
  apply mgood_opacity (cl "bg-") (cl "bg-[rgba(") replace_bg_opacity 'b' rfl
    (by decide) (by decide) hsk_bgO (by decide) (by decide)
  intro c g2 g3 v hv
  simp only [replace_bg_opacity, hv]
  simp [List.append_assoc]

theorem mgood_m2 : MGood tryBorderOpacity RepStarts RepStarts := by
  apply mgood_opacity (cl "border-") (cl "border-[rgba(") replace_border_opacity 'b' rfl
    (by decide) (by decide) hsk_borderO (by decide) (by decide)
  intro c g2 g3 v hv
  simp only [replace_border_opacity, hv]
  simp [List.append_assoc]

theorem mgood_m3 : MGood tryHoverBgOpacity RepStarts RepStarts := by
  apply mgood_opacity (cl "hover:bg-") (cl "hover:bg-[rgba(") replace_hover_bg_opacity
    'h' rfl (by decide) (by decide) hsk_hoverO (by decide) (by decide)
  intro c g2 g3 v hv
  simp only [replace_hover_bg_opacity, hv]
  simp [List.append_assoc]

theorem mgood_m4 : MGood tryText RepStarts RepStarts := by
  apply mgood_pfx_plain [cl "hover:", cl "dark:", cl "focus:"] (cl "text-") replace_text
    't' rfl (by decide) (by decide) halts_hdf hsk_text
  · intro p c g3 hp hc
    have := textRep_mem p c g3 hp hc
    simp only [sealedAllList, List.mem_append]
    tauto
  · intro p c g3 hp hc
    exact repStarts_of_mem repListText (by decide) _ (textRep_mem p c g3 hp hc)

theorem mgood_m5 : MGood tryBgSolid RepStarts RepStarts := by
  apply mgood_pfx_solid [cl "hover:", cl "dark:", cl "active:", cl "focus:"] (cl "bg-")
    replace_bg_solid 'b' rfl (by decide) (by decide) halts_hdaf hsk_bgSolid
  · intro p c g3 hp hc
    have := bgSolidRep_mem p c g3 hp hc
    simp only [sealedAllList, List.mem_append]
    tauto
  · intro p c g3 hp hc
    exact repStarts_of_mem repListBgSolid (by decide) _ (bgSolidRep_mem p c g3 hp hc)

theorem mgood_m6 : MGood tryBorderSolid RepStarts RepStarts := by
  apply mgood_pfx_solid [] (cl "border-") (fun color _ => replace_border color)
    'b' rfl (by decide) (by decide) halts_nil hsk_borderSolid
  · intro p c g3 hp hc
    rcases hp with rfl | hm
    · have := replace_border_mem c hc
      simp only [List.nil_append]
      simp only [sealedAllList, List.mem_append]
      tauto
    · simp at hm
  · intro p c g3 hp hc
    rcases hp with rfl | hm
    · have hmem := replace_border_mem c hc
      obtain ⟨rs, t, hrs, heq⟩ := repStarts_of_mem borderBodies (by decide) _ hmem
      exact ⟨rs, t, hrs, by rw [List.nil_append]; exact heq⟩
    · simp at hm

theorem mgood_m7 : MGood tryRing RepStarts RepStarts := by
  apply mgood_pfx_plain [cl "focus:"] (cl "ring-") (fun color _ => replace_ring color)
    'r' rfl (by decide) (by decide) halts_f hsk_ring
  · intro p c g3 hp hc
    have := ringRep_mem p c hp hc
    simp only [sealedAllList, List.mem_append]
    tauto
  · intro p c g3 hp hc
    exact repStarts_of_mem repListRing (by decide) _ (ringRep_mem p c hp hc)

/-! ### Assembling pair facts and running the thirteen stages -/

theorem mkFacts {f g : List Char → Option (List Char × List Char)}
    {mf okf mg okg : List (List Char)}
    (hf : MGood f mf okf) (hg : MGood g mg okg)
    (hsub : ∀ rs ∈ mf, rs ∈ okg)
    (hproj : ∀ l, DeadAllP l → g l = none) : MatcherFacts f g := by
  refine ⟨hf.cons, ?_, ?_, ?_, hg.ext, ?_⟩
  · intro l b rest h
    obtain ⟨m, hm, hl, _⟩ := hg.cons l b rest h
    exact ⟨m, hm, hl⟩
  · intro l a rest h n hn y
    exact hproj _ (hf.sealedRep l a rest h n hn y)
  · intro l a rest h
    obtain ⟨rs, t, hmy, hrsR, ha⟩ := hf.shape l a rest h
    obtain ⟨r0, t0, hrs0, hr0d, hr0s⟩ := repStarts_head rs hrsR
    refine ⟨r0, ?_, hr0d, hr0s⟩
    rw [ha, hrs0]
    rfl
  · intro l a rest h x z b rg hx hg2
    obtain ⟨rs, t, hmy, hrsR, ha⟩ := hf.shape l a rest h
    exact hg.str x a z b rg hx ⟨rs, t, hsub rs hmy, ha⟩ hg2

theorem rewriteAll_noMatch_self (f : List Char → Option (List Char × List Char))
    (MF : MatcherFacts f f) (l : List Char) : NoMatchF f (rewriteAll f l) :=
  fun n => rewriteAll_safe f f MF l.length l le_rfl (fun _ h => h) n

theorem rewriteAll_noMatch_keep (f g : List Char → Option (List Char × List Char))
    (MF : MatcherFacts f g) (l : List Char) (hg : NoMatchF g l) :
    NoMatchF g (rewriteAll f l) :=
  fun n => rewriteAll_safe f g MF l.length l le_rfl (fun k _ => hg k) n

theorem replaceAll_fix (pat rep l : List Char) (h : NoMatchF (litMatch pat rep) l) :
    replaceAll pat rep l = l :=
  rewriteAll_fix (litMatch pat rep) l h

theorem migrate_content_eq (l : List Char) : migrate_content l =
    replaceAll (cl "#374151") (cl "var(--color-text)")
      (replaceAll (cl "#4b5563") (cl "var(--color-text-secondary)")
        (replaceAll (cl "#6b7280") (cl "var(--color-text-muted)")
          (replaceAll (cl "#9ca3af") (cl "var(--color-text-muted)")
            (replaceAll (cl "#d1d5db") (cl "var(--color-border)")
              (replaceAll (cl "#e5e7eb") (cl "var(--color-border)")
                (rewriteAll tryRing
                  (rewriteAll tryBorderSolid
                    (rewriteAll tryBgSolid
                      (rewriteAll tryText
                        (rewriteAll tryHoverBgOpacity
                          (rewriteAll tryBorderOpacity
                            (rewriteAll tryBgOpacity l)))))))))))) := by
  simp only [migrate_content, hexMap, List.foldl]

/-- C9: the color-migration transformation is idempotent on arbitrary text:
every replacement the script emits (the rgba forms, the `var(--color-...)`
forms with any captured prefix, and the hex substitutions) matches none of
the thirteen rewrite patterns again, at any position, so a second pass
leaves the output unchanged. -/
theorem migrate_content_idempotent (content : List Char) :
    migrate_content (migrate_content content) = migrate_content content := by
  have G1 := mgood_m1
  have G2 := mgood_m2
  have G3 := mgood_m3
  have G4 := mgood_m4
  have G5 := mgood_m5
  have G6 := mgood_m6
  have G7 := mgood_m7
  have G8 := mgood_hex (cl "#e5e7eb", cl "var(--color-border)") (by decide)
  have G9 := mgood_hex (cl "#d1d5db", cl "var(--color-border)") (by decide)
  have G10 := mgood_hex (cl "#9ca3af", cl "var(--color-text-muted)") (by decide)
  have G11 := mgood_hex (cl "#6b7280", cl "var(--color-text-muted)") (by decide)
  have G12 := mgood_hex (cl "#4b5563", cl "var(--color-text-secondary)") (by decide)
  have G13 := mgood_hex (cl "#374151", cl "var(--color-text)") (by decide)
  have MF_1_1 : MatcherFacts (tryBgOpacity) (tryBgOpacity) :=
    mkFacts G1 G1 (fun rs h => h) (fun _ h => h.1)
  have MF_2_1 : MatcherFacts (tryBorderOpacity) (tryBgOpacity) :=
    mkFacts G2 G1 (fun rs h => h) (fun _ h => h.1)
  have MF_2_2 : MatcherFacts (tryBorderOpacity) (tryBorderOpacity) :=
    mkFacts G2 G2 (fun rs h => h) (fun _ h => h.2.1)
  have MF_3_1 : MatcherFacts (tryHoverBgOpacity) (tryBgOpacity) :=
    mkFacts G3 G1 (fun rs h => h) (fun _ h => h.1)
  have MF_3_2 : MatcherFacts (tryHoverBgOpacity) (tryBorderOpacity) :=
    mkFacts G3 G2 (fun rs h => h) (fun _ h => h.2.1)
  have MF_3_3 : MatcherFacts (tryHoverBgOpacity) (tryHoverBgOpacity) :=
    mkFacts G3 G3 (fun rs h => h) (fun _ h => h.2.2.1)
  have MF_4_1 : MatcherFacts (tryText) (tryBgOpacity) :=
    mkFacts G4 G1 (fun rs h => h) (fun _ h => h.1)
  have MF_4_2 : MatcherFacts (tryText) (tryBorderOpacity) :=
    mkFacts G4 G2 (fun rs h => h) (fun _ h => h.2.1)
  have MF_4_3 : MatcherFacts (tryText) (tryHoverBgOpacity) :=
    mkFacts G4 G3 (fun rs h => h) (fun _ h => h.2.2.1)
  have MF_4_4 : MatcherFacts (tryText) (tryText) :=
    mkFacts G4 G4 (fun rs h => h) (fun _ h => h.2.2.2.1)
  have MF_5_1 : MatcherFacts (tryBgSolid) (tryBgOpacity) :=
    mkFacts G5 G1 (fun rs h => h) (fun _ h => h.1)
  have MF_5_2 : MatcherFacts (tryBgSolid) (tryBorderOpacity) :=
    mkFacts G5 G2 (fun rs h => h) (fun _ h => h.2.1)
  have MF_5_3 : MatcherFacts (tryBgSolid) (tryHoverBgOpacity) :=
    mkFacts G5 G3 (fun rs h => h) (fun _ h => h.2.2.1)
  have MF_5_4 : MatcherFacts (tryBgSolid) (tryText) :=
    mkFacts G5 G4 (fun rs h => h) (fun _ h => h.2.2.2.1)
  have MF_5_5 : MatcherFacts (tryBgSolid) (tryBgSolid) :=
    mkFacts G5 G5 (fun rs h => h) (fun _ h => h.2.2.2.2.1)
  have MF_6_1 : MatcherFacts (tryBorderSolid) (tryBgOpacity) :=
    mkFacts G6 G1 (fun rs h => h) (fun _ h => h.1)
  have MF_6_2 : MatcherFacts (tryBorderSolid) (tryBorderOpacity) :=
    mkFacts G6 G2 (fun rs h => h) (fun _ h => h.2.1)
  have MF_6_3 : MatcherFacts (tryBorderSolid) (tryHoverBgOpacity) :=
    mkFacts G6 G3 (fun rs h => h) (fun _ h => h.2.2.1)
  have MF_6_4 : MatcherFacts (tryBorderSolid) (tryText) :=
    mkFacts G6 G4 (fun rs h => h) (fun _ h => h.2.2.2.1)
  have MF_6_5 : MatcherFacts (tryBorderSolid) (tryBgSolid) :=
    mkFacts G6 G5 (fun rs h => h) (fun _ h => h.2.2.2.2.1)
  have MF_6_6 : MatcherFacts (tryBorderSolid) (tryBorderSolid) :=
    mkFacts G6 G6 (fun rs h => h) (fun _ h => h.2.2.2.2.2.1)
  have MF_7_1 : MatcherFacts (tryRing) (tryBgOpacity) :=
    mkFacts G7 G1 (fun rs h => h) (fun _ h => h.1)
  have MF_7_2 : MatcherFacts (tryRing) (tryBorderOpacity) :=
    mkFacts G7 G2 (fun rs h => h) (fun _ h => h.2.1)
  have MF_7_3 : MatcherFacts (tryRing) (tryHoverBgOpacity) :=
    mkFacts G7 G3 (fun rs h => h) (fun _ h => h.2.2.1)
  have MF_7_4 : MatcherFacts (tryRing) (tryText) :=
    mkFacts G7 G4 (fun rs h => h) (fun _ h => h.2.2.2.1)
  have MF_7_5 : MatcherFacts (tryRing) (tryBgSolid) :=
    mkFacts G7 G5 (fun rs h => h) (fun _ h => h.2.2.2.2.1)
  have MF_7_6 : MatcherFacts (tryRing) (tryBorderSolid) :=
    mkFacts G7 G6 (fun rs h => h) (fun _ h => h.2.2.2.2.2.1)
  have MF_7_7 : MatcherFacts (tryRing) (tryRing) :=
    mkFacts G7 G7 (fun rs h => h) (fun _ h => h.2.2.2.2.2.2.1)
  have MF_8_1 : MatcherFacts (litMatch (cl "#e5e7eb") (cl "var(--color-border)")) (tryBgOpacity) :=
    mkFacts G8 G1 ((by decide)) (fun _ h => h.1)
  have MF_8_2 : MatcherFacts (litMatch (cl "#e5e7eb") (cl "var(--color-border)")) (tryBorderOpacity) :=
    mkFacts G8 G2 ((by decide)) (fun _ h => h.2.1)
  have MF_8_3 : MatcherFacts (litMatch (cl "#e5e7eb") (cl "var(--color-border)")) (tryHoverBgOpacity) :=
    mkFacts G8 G3 ((by decide)) (fun _ h => h.2.2.1)
  have MF_8_4 : MatcherFacts (litMatch (cl "#e5e7eb") (cl "var(--color-border)")) (tryText) :=
    mkFacts G8 G4 ((by decide)) (fun _ h => h.2.2.2.1)
  have MF_8_5 : MatcherFacts (litMatch (cl "#e5e7eb") (cl "var(--color-border)")) (tryBgSolid) :=
    mkFacts G8 G5 ((by decide)) (fun _ h => h.2.2.2.2.1)
  have MF_8_6 : MatcherFacts (litMatch (cl "#e5e7eb") (cl "var(--color-border)")) (tryBorderSolid) :=
    mkFacts G8 G6 ((by decide)) (fun _ h => h.2.2.2.2.2.1)
  have MF_8_7 : MatcherFacts (litMatch (cl "#e5e7eb") (cl "var(--color-border)")) (tryRing) :=
    mkFacts G8 G7 ((by decide)) (fun _ h => h.2.2.2.2.2.2.1)
  have MF_8_8 : MatcherFacts (litMatch (cl "#e5e7eb") (cl "var(--color-border)")) (litMatch (cl "#e5e7eb") (cl "var(--color-border)")) :=
    mkFacts G8 G8 (fun rs h => h) (fun _ h => h.2.2.2.2.2.2.2 (cl "#e5e7eb", cl "var(--color-border)") (by decide))
  have MF_9_1 : MatcherFacts (litMatch (cl "#d1d5db") (cl "var(--color-border)")) (tryBgOpacity) :=
    mkFacts G9 G1 ((by decide)) (fun _ h => h.1)
  have MF_9_2 : MatcherFacts (litMatch (cl "#d1d5db") (cl "var(--color-border)")) (tryBorderOpacity) :=
    mkFacts G9 G2 ((by decide)) (fun _ h => h.2.1)
  have MF_9_3 : MatcherFacts (litMatch (cl "#d1d5db") (cl "var(--color-border)")) (tryHoverBgOpacity) :=
    mkFacts G9 G3 ((by decide)) (fun _ h => h.2.2.1)
  have MF_9_4 : MatcherFacts (litMatch (cl "#d1d5db") (cl "var(--color-border)")) (tryText) :=
    mkFacts G9 G4 ((by decide)) (fun _ h => h.2.2.2.1)
  have MF_9_5 : MatcherFacts (litMatch (cl "#d1d5db") (cl "var(--color-border)")) (tryBgSolid) :=
    mkFacts G9 G5 ((by decide)) (fun _ h => h.2.2.2.2.1)
  have MF_9_6 : MatcherFacts (litMatch (cl "#d1d5db") (cl "var(--color-border)")) (tryBorderSolid) :=
    mkFacts G9 G6 ((by decide)) (fun _ h => h.2.2.2.2.2.1)
  have MF_9_7 : MatcherFacts (litMatch (cl "#d1d5db") (cl "var(--color-border)")) (tryRing) :=
    mkFacts G9 G7 ((by decide)) (fun _ h => h.2.2.2.2.2.2.1)
  have MF_9_8 : MatcherFacts (litMatch (cl "#d1d5db") (cl "var(--color-border)")) (litMatch (cl "#e5e7eb") (cl "var(--color-border)")) :=
    mkFacts G9 G8 (fun rs h => h) (fun _ h => h.2.2.2.2.2.2.2 (cl "#e5e7eb", cl "var(--color-border)") (by decide))
  have MF_9_9 : MatcherFacts (litMatch (cl "#d1d5db") (cl "var(--color-border)")) (litMatch (cl "#d1d5db") (cl "var(--color-border)")) :=
    mkFacts G9 G9 (fun rs h => h) (fun _ h => h.2.2.2.2.2.2.2 (cl "#d1d5db", cl "var(--color-border)") (by decide))
  have MF_10_1 : MatcherFacts (litMatch (cl "#9ca3af") (cl "var(--color-text-muted)")) (tryBgOpacity) :=
    mkFacts G10 G1 ((by decide)) (fun _ h => h.1)
  have MF_10_2 : MatcherFacts (litMatch (cl "#9ca3af") (cl "var(--color-text-muted)")) (tryBorderOpacity) :=
    mkFacts G10 G2 ((by decide)) (fun _ h => h.2.1)
  have MF_10_3 : MatcherFacts (litMatch (cl "#9ca3af") (cl "var(--color-text-muted)")) (tryHoverBgOpacity) :=
    mkFacts G10 G3 ((by decide)) (fun _ h => h.2.2.1)
  have MF_10_4 : MatcherFacts (litMatch (cl "#9ca3af") (cl "var(--color-text-muted)")) (tryText) :=
    mkFacts G10 G4 ((by decide)) (fun _ h => h.2.2.2.1)
  have MF_10_5 : MatcherFacts (litMatch (cl "#9ca3af") (cl "var(--color-text-muted)")) (tryBgSolid) :=
    mkFacts G10 G5 ((by decide)) (fun _ h => h.2.2.2.2.1)
  have MF_10_6 : MatcherFacts (litMatch (cl "#9ca3af") (cl "var(--color-text-muted)")) (tryBorderSolid) :=
    mkFacts G10 G6 ((by decide)) (fun _ h => h.2.2.2.2.2.1)
  have MF_10_7 : MatcherFacts (litMatch (cl "#9ca3af") (cl "var(--color-text-muted)")) (tryRing) :=
    mkFacts G10 G7 ((by decide)) (fun _ h => h.2.2.2.2.2.2.1)
  have MF_10_8 : MatcherFacts (litMatch (cl "#9ca3af") (cl "var(--color-text-muted)")) (litMatch (cl "#e5e7eb") (cl "var(--color-border)")) :=
    mkFacts G10 G8 (fun rs h => h) (fun _ h => h.2.2.2.2.2.2.2 (cl "#e5e7eb", cl "var(--color-border)") (by decide))
  have MF_10_9 : MatcherFacts (litMatch (cl "#9ca3af") (cl "var(--color-text-muted)")) (litMatch (cl "#d1d5db") (cl "var(--color-border)")) :=
    mkFacts G10 G9 (fun rs h => h) (fun _ h => h.2.2.2.2.2.2.2 (cl "#d1d5db", cl "var(--color-border)") (by decide))
  have MF_10_10 : MatcherFacts (litMatch (cl "#9ca3af") (cl "var(--color-text-muted)")) (litMatch (cl "#9ca3af") (cl "var(--color-text-muted)")) :=
    mkFacts G10 G10 (fun rs h => h) (fun _ h => h.2.2.2.2.2.2.2 (cl "#9ca3af", cl "var(--color-text-muted)") (by decide))
  have MF_11_1 : MatcherFacts (litMatch (cl "#6b7280") (cl "var(--color-text-muted)")) (tryBgOpacity) :=
    mkFacts G11 G1 ((by decide)) (fun _ h => h.1)
  have MF_11_2 : MatcherFacts (litMatch (cl "#6b7280") (cl "var(--color-text-muted)")) (tryBorderOpacity) :=
    mkFacts G11 G2 ((by decide)) (fun _ h => h.2.1)
  have MF_11_3 : MatcherFacts (litMatch (cl "#6b7280") (cl "var(--color-text-muted)")) (tryHoverBgOpacity) :=
    mkFacts G11 G3 ((by decide)) (fun _ h => h.2.2.1)
  have MF_11_4 : MatcherFacts (litMatch (cl "#6b7280") (cl "var(--color-text-muted)")) (tryText) :=
    mkFacts G11 G4 ((by decide)) (fun _ h => h.2.2.2.1)
  have MF_11_5 : MatcherFacts (litMatch (cl "#6b7280") (cl "var(--color-text-muted)")) (tryBgSolid) :=
    mkFacts G11 G5 ((by decide)) (fun _ h => h.2.2.2.2.1)
  have MF_11_6 : MatcherFacts (litMatch (cl "#6b7280") (cl "var(--color-text-muted)")) (tryBorderSolid) :=
    mkFacts G11 G6 ((by decide)) (fun _ h => h.2.2.2.2.2.1)
  have MF_11_7 : MatcherFacts (litMatch (cl "#6b7280") (cl "var(--color-text-muted)")) (tryRing) :=
    mkFacts G11 G7 ((by decide)) (fun _ h => h.2.2.2.2.2.2.1)
  have MF_11_8 : MatcherFacts (litMatch (cl "#6b7280") (cl "var(--color-text-muted)")) (litMatch (cl "#e5e7eb") (cl "var(--color-border)")) :=
    mkFacts G11 G8 (fun rs h => h) (fun _ h => h.2.2.2.2.2.2.2 (cl "#e5e7eb", cl "var(--color-border)") (by decide))
  have MF_11_9 : MatcherFacts (litMatch (cl "#6b7280") (cl "var(--color-text-muted)")) (litMatch (cl "#d1d5db") (cl "var(--color-border)")) :=
    mkFacts G11 G9 (fun rs h => h) (fun _ h => h.2.2.2.2.2.2.2 (cl "#d1d5db", cl "var(--color-border)") (by decide))
  have MF_11_10 : MatcherFacts (litMatch (cl "#6b7280") (cl "var(--color-text-muted)")) (litMatch (cl "#9ca3af") (cl "var(--color-text-muted)")) :=
    mkFacts G11 G10 (fun rs h => h) (fun _ h => h.2.2.2.2.2.2.2 (cl "#9ca3af", cl "var(--color-text-muted)") (by decide))
  have MF_11_11 : MatcherFacts (litMatch (cl "#6b7280") (cl "var(--color-text-muted)")) (litMatch (cl "#6b7280") (cl "var(--color-text-muted)")) :=
    mkFacts G11 G11 (fun rs h => h) (fun _ h => h.2.2.2.2.2.2.2 (cl "#6b7280", cl "var(--color-text-muted)") (by decide))
  have MF_12_1 : MatcherFacts (litMatch (cl "#4b5563") (cl "var(--color-text-secondary)")) (tryBgOpacity) :=
    mkFacts G12 G1 ((by decide)) (fun _ h => h.1)
  have MF_12_2 : MatcherFacts (litMatch (cl "#4b5563") (cl "var(--color-text-secondary)")) (tryBorderOpacity) :=
    mkFacts G12 G2 ((by decide)) (fun _ h => h.2.1)
  have MF_12_3 : MatcherFacts (litMatch (cl "#4b5563") (cl "var(--color-text-secondary)")) (tryHoverBgOpacity) :=
    mkFacts G12 G3 ((by decide)) (fun _ h => h.2.2.1)
  have MF_12_4 : MatcherFacts (litMatch (cl "#4b5563") (cl "var(--color-text-secondary)")) (tryText) :=
    mkFacts G12 G4 ((by decide)) (fun _ h => h.2.2.2.1)
  have MF_12_5 : MatcherFacts (litMatch (cl "#4b5563") (cl "var(--color-text-secondary)")) (tryBgSolid) :=
    mkFacts G12 G5 ((by decide)) (fun _ h => h.2.2.2.2.1)
  have MF_12_6 : MatcherFacts (litMatch (cl "#4b5563") (cl "var(--color-text-secondary)")) (tryBorderSolid) :=
    mkFacts G12 G6 ((by decide)) (fun _ h => h.2.2.2.2.2.1)
  have MF_12_7 : MatcherFacts (litMatch (cl "#4b5563") (cl "var(--color-text-secondary)")) (tryRing) :=
    mkFacts G12 G7 ((by decide)) (fun _ h => h.2.2.2.2.2.2.1)
  have MF_12_8 : MatcherFacts (litMatch (cl "#4b5563") (cl "var(--color-text-secondary)")) (litMatch (cl "#e5e7eb") (cl "var(--color-border)")) :=
    mkFacts G12 G8 (fun rs h => h) (fun _ h => h.2.2.2.2.2.2.2 (cl "#e5e7eb", cl "var(--color-border)") (by decide))
  have MF_12_9 : MatcherFacts (litMatch (cl "#4b5563") (cl "var(--color-text-secondary)")) (litMatch (cl "#d1d5db") (cl "var(--color-border)")) :=
    mkFacts G12 G9 (fun rs h => h) (fun _ h => h.2.2.2.2.2.2.2 (cl "#d1d5db", cl "var(--color-border)") (by decide))
  have MF_12_10 : MatcherFacts (litMatch (cl "#4b5563") (cl "var(--color-text-secondary)")) (litMatch (cl "#9ca3af") (cl "var(--color-text-muted)")) :=
    mkFacts G12 G10 (fun rs h => h) (fun _ h => h.2.2.2.2.2.2.2 (cl "#9ca3af", cl "var(--color-text-muted)") (by decide))
  have MF_12_11 : MatcherFacts (litMatch (cl "#4b5563") (cl "var(--color-text-secondary)")) (litMatch (cl "#6b7280") (cl "var(--color-text-muted)")) :=
    mkFacts G12 G11 (fun rs h => h) (fun _ h => h.2.2.2.2.2.2.2 (cl "#6b7280", cl "var(--color-text-muted)") (by decide))
  have MF_12_12 : MatcherFacts (litMatch (cl "#4b5563") (cl "var(--color-text-secondary)")) (litMatch (cl "#4b5563") (cl "var(--color-text-secondary)")) :=
    mkFacts G12 G12 (fun rs h => h) (fun _ h => h.2.2.2.2.2.2.2 (cl "#4b5563", cl "var(--color-text-secondary)") (by decide))
  have MF_13_1 : MatcherFacts (litMatch (cl "#374151") (cl "var(--color-text)")) (tryBgOpacity) :=
    mkFacts G13 G1 ((by decide)) (fun _ h => h.1)
  have MF_13_2 : MatcherFacts (litMatch (cl "#374151") (cl "var(--color-text)")) (tryBorderOpacity) :=
    mkFacts G13 G2 ((by decide)) (fun _ h => h.2.1)
  have MF_13_3 : MatcherFacts (litMatch (cl "#374151") (cl "var(--color-text)")) (tryHoverBgOpacity) :=
    mkFacts G13 G3 ((by decide)) (fun _ h => h.2.2.1)
  have MF_13_4 : MatcherFacts (litMatch (cl "#374151") (cl "var(--color-text)")) (tryText) :=
    mkFacts G13 G4 ((by decide)) (fun _ h => h.2.2.2.1)
  have MF_13_5 : MatcherFacts (litMatch (cl "#374151") (cl "var(--color-text)")) (tryBgSolid) :=
    mkFacts G13 G5 ((by decide)) (fun _ h => h.2.2.2.2.1)
  have MF_13_6 : MatcherFacts (litMatch (cl "#374151") (cl "var(--color-text)")) (tryBorderSolid) :=
    mkFacts G13 G6 ((by decide)) (fun _ h => h.2.2.2.2.2.1)
  have MF_13_7 : MatcherFacts (litMatch (cl "#374151") (cl "var(--color-text)")) (tryRing) :=
    mkFacts G13 G7 ((by decide)) (fun _ h => h.2.2.2.2.2.2.1)
  have MF_13_8 : MatcherFacts (litMatch (cl "#374151") (cl "var(--color-text)")) (litMatch (cl "#e5e7eb") (cl "var(--color-border)")) :=
    mkFacts G13 G8 (fun rs h => h) (fun _ h => h.2.2.2.2.2.2.2 (cl "#e5e7eb", cl "var(--color-border)") (by decide))
  have MF_13_9 : MatcherFacts (litMatch (cl "#374151") (cl "var(--color-text)")) (litMatch (cl "#d1d5db") (cl "var(--color-border)")) :=
    mkFacts G13 G9 (fun rs h => h) (fun _ h => h.2.2.2.2.2.2.2 (cl "#d1d5db", cl "var(--color-border)") (by decide))
  have MF_13_10 : MatcherFacts (litMatch (cl "#374151") (cl "var(--color-text)")) (litMatch (cl "#9ca3af") (cl "var(--color-text-muted)")) :=
    mkFacts G13 G10 (fun rs h => h) (fun _ h => h.2.2.2.2.2.2.2 (cl "#9ca3af", cl "var(--color-text-muted)") (by decide))
  have MF_13_11 : MatcherFacts (litMatch (cl "#374151") (cl "var(--color-text)")) (litMatch (cl "#6b7280") (cl "var(--color-text-muted)")) :=
    mkFacts G13 G11 (fun rs h => h) (fun _ h => h.2.2.2.2.2.2.2 (cl "#6b7280", cl "var(--color-text-muted)") (by decide))
  have MF_13_12 : MatcherFacts (litMatch (cl "#374151") (cl "var(--color-text)")) (litMatch (cl "#4b5563") (cl "var(--color-text-secondary)")) :=
    mkFacts G13 G12 (fun rs h => h) (fun _ h => h.2.2.2.2.2.2.2 (cl "#4b5563", cl "var(--color-text-secondary)") (by decide))
  have MF_13_13 : MatcherFacts (litMatch (cl "#374151") (cl "var(--color-text)")) (litMatch (cl "#374151") (cl "var(--color-text)")) :=
    mkFacts G13 G13 (fun rs h => h) (fun _ h => h.2.2.2.2.2.2.2 (cl "#374151", cl "var(--color-text)") (by decide))
  set s1 := rewriteAll tryBgOpacity content with hs1
  set s2 := rewriteAll tryBorderOpacity s1 with hs2
  set s3 := rewriteAll tryHoverBgOpacity s2 with hs3
  set s4 := rewriteAll tryText s3 with hs4
  set s5 := rewriteAll tryBgSolid s4 with hs5
  set s6 := rewriteAll tryBorderSolid s5 with hs6
  set s7 := rewriteAll tryRing s6 with hs7
  set s8 := replaceAll (cl "#e5e7eb") (cl "var(--color-border)") s7 with hs8
  set s9 := replaceAll (cl "#d1d5db") (cl "var(--color-border)") s8 with hs9
  set s10 := replaceAll (cl "#9ca3af") (cl "var(--color-text-muted)") s9 with hs10
  set s11 := replaceAll (cl "#6b7280") (cl "var(--color-text-muted)") s10 with hs11
  set s12 := replaceAll (cl "#4b5563") (cl "var(--color-text-secondary)") s11 with hs12
  set s13 := replaceAll (cl "#374151") (cl "var(--color-text)") s12 with hs13
  have c_1_1 : NoMatchF (tryBgOpacity) s1 := by
    rw [hs1]
    exact rewriteAll_noMatch_self _ MF_1_1 content
  have c_2_2 : NoMatchF (tryBorderOpacity) s2 := by
    rw [hs2]
    exact rewriteAll_noMatch_self _ MF_2_2 s1
  have c_2_1 : NoMatchF (tryBgOpacity) s2 := by
    rw [hs2]
    exact rewriteAll_noMatch_keep _ _ MF_2_1 s1 c_1_1
  have c_3_3 : NoMatchF (tryHoverBgOpacity) s3 := by
    rw [hs3]
    exact rewriteAll_noMatch_self _ MF_3_3 s2
  have c_3_1 : NoMatchF (tryBgOpacity) s3 := by
    rw [hs3]
    exact rewriteAll_noMatch_keep _ _ MF_3_1 s2 c_2_1
  have c_3_2 : NoMatchF (tryBorderOpacity) s3 := by
    rw [hs3]
    exact rewriteAll_noMatch_keep _ _ MF_3_2 s2 c_2_2
  have c_4_4 : NoMatchF (tryText) s4 := by
    rw [hs4]
    exact rewriteAll_noMatch_self _ MF_4_4 s3
  have c_4_1 : NoMatchF (tryBgOpacity) s4 := by
    rw [hs4]
    exact rewriteAll_noMatch_keep _ _ MF_4_1 s3 c_3_1
  have c_4_2 : NoMatchF (tryBorderOpacity) s4 := by
    rw [hs4]
    exact rewriteAll_noMatch_keep _ _ MF_4_2 s3 c_3_2
  have c_4_3 : NoMatchF (tryHoverBgOpacity) s4 := by
    rw [hs4]
    exact rewriteAll_noMatch_keep _ _ MF_4_3 s3 c_3_3
  have c_5_5 : NoMatchF (tryBgSolid) s5 := by
    rw [hs5]
    exact rewriteAll_noMatch_self _ MF_5_5 s4
  have c_5_1 : NoMatchF (tryBgOpacity) s5 := by
    rw [hs5]
    exact rewriteAll_noMatch_keep _ _ MF_5_1 s4 c_4_1
  have c_5_2 : NoMatchF (tryBorderOpacity) s5 := by
    rw [hs5]
    exact rewriteAll_noMatch_keep _ _ MF_5_2 s4 c_4_2
  have c_5_3 : NoMatchF (tryHoverBgOpacity) s5 := by
    rw [hs5]
    exact rewriteAll_noMatch_keep _ _ MF_5_3 s4 c_4_3
  have c_5_4 : NoMatchF (tryText) s5 := by
    rw [hs5]
    exact rewriteAll_noMatch_keep _ _ MF_5_4 s4 c_4_4
  have c_6_6 : NoMatchF (tryBorderSolid) s6 := by
    rw [hs6]
    exact rewriteAll_noMatch_self _ MF_6_6 s5
  have c_6_1 : NoMatchF (tryBgOpacity) s6 := by
    rw [hs6]
    exact rewriteAll_noMatch_keep _ _ MF_6_1 s5 c_5_1
  have c_6_2 : NoMatchF (tryBorderOpacity) s6 := by
    rw [hs6]
    exact rewriteAll_noMatch_keep _ _ MF_6_2 s5 c_5_2
  have c_6_3 : NoMatchF (tryHoverBgOpacity) s6 := by
    rw [hs6]
    exact rewriteAll_noMatch_keep _ _ MF_6_3 s5 c_5_3
  have c_6_4 : NoMatchF (tryText) s6 := by
    rw [hs6]
    exact rewriteAll_noMatch_keep _ _ MF_6_4 s5 c_5_4
  have c_6_5 : NoMatchF (tryBgSolid) s6 := by
    rw [hs6]
    exact rewriteAll_noMatch_keep _ _ MF_6_5 s5 c_5_5
  have c_7_7 : NoMatchF (tryRing) s7 := by
    rw [hs7]
    exact rewriteAll_noMatch_self _ MF_7_7 s6
  have c_7_1 : NoMatchF (tryBgOpacity) s7 := by
    rw [hs7]
    exact rewriteAll_noMatch_keep _ _ MF_7_1 s6 c_6_1
  have c_7_2 : NoMatchF (tryBorderOpacity) s7 := by
    rw [hs7]
    exact rewriteAll_noMatch_keep _ _ MF_7_2 s6 c_6_2
  have c_7_3 : NoMatchF (tryHoverBgOpacity) s7 := by
    rw [hs7]
    exact rewriteAll_noMatch_keep _ _ MF_7_3 s6 c_6_3
  have c_7_4 : NoMatchF (tryText) s7 := by
    rw [hs7]
    exact rewriteAll_noMatch_keep _ _ MF_7_4 s6 c_6_4
  have c_7_5 : NoMatchF (tryBgSolid) s7 := by
    rw [hs7]
    exact rewriteAll_noMatch_keep _ _ MF_7_5 s6 c_6_5
  have c_7_6 : NoMatchF (tryBorderSolid) s7 := by
    rw [hs7]
    exact rewriteAll_noMatch_keep _ _ MF_7_6 s6 c_6_6
  have c_8_8 : NoMatchF (litMatch (cl "#e5e7eb") (cl "var(--color-border)")) s8 := by
    rw [hs8]
    exact rewriteAll_noMatch_self _ MF_8_8 s7
  have c_8_1 : NoMatchF (tryBgOpacity) s8 := by
    rw [hs8]
    exact rewriteAll_noMatch_keep _ _ MF_8_1 s7 c_7_1
  have c_8_2 : NoMatchF (tryBorderOpacity) s8 := by
    rw [hs8]
    exact rewriteAll_noMatch_keep _ _ MF_8_2 s7 c_7_2
  have c_8_3 : NoMatchF (tryHoverBgOpacity) s8 := by
    rw [hs8]
    exact rewriteAll_noMatch_keep _ _ MF_8_3 s7 c_7_3
  have c_8_4 : NoMatchF (tryText) s8 := by
    rw [hs8]
    exact rewriteAll_noMatch_keep _ _ MF_8_4 s7 c_7_4
  have c_8_5 : NoMatchF (tryBgSolid) s8 := by
    rw [hs8]
    exact rewriteAll_noMatch_keep _ _ MF_8_5 s7 c_7_5
  have c_8_6 : NoMatchF (tryBorderSolid) s8 := by
    rw [hs8]
    exact rewriteAll_noMatch_keep _ _ MF_8_6 s7 c_7_6
  have c_8_7 : NoMatchF (tryRing) s8 := by
    rw [hs8]
    exact rewriteAll_noMatch_keep _ _ MF_8_7 s7 c_7_7
  have c_9_9 : NoMatchF (litMatch (cl "#d1d5db") (cl "var(--color-border)")) s9 := by
    rw [hs9]
    exact rewriteAll_noMatch_self _ MF_9_9 s8
  have c_9_1 : NoMatchF (tryBgOpacity) s9 := by
    rw [hs9]
    exact rewriteAll_noMatch_keep _ _ MF_9_1 s8 c_8_1
  have c_9_2 : NoMatchF (tryBorderOpacity) s9 := by
    rw [hs9]
    exact rewriteAll_noMatch_keep _ _ MF_9_2 s8 c_8_2
  have c_9_3 : NoMatchF (tryHoverBgOpacity) s9 := by
    rw [hs9]
    exact rewriteAll_noMatch_keep _ _ MF_9_3 s8 c_8_3
  have c_9_4 : NoMatchF (tryText) s9 := by
    rw [hs9]
    exact rewriteAll_noMatch_keep _ _ MF_9_4 s8 c_8_4
  have c_9_5 : NoMatchF (tryBgSolid) s9 := by
    rw [hs9]
    exact rewriteAll_noMatch_keep _ _ MF_9_5 s8 c_8_5
  have c_9_6 : NoMatchF (tryBorderSolid) s9 := by
    rw [hs9]
    exact rewriteAll_noMatch_keep _ _ MF_9_6 s8 c_8_6
  have c_9_7 : NoMatchF (tryRing) s9 := by
    rw [hs9]
    exact rewriteAll_noMatch_keep _ _ MF_9_7 s8 c_8_7
  have c_9_8 : NoMatchF (litMatch (cl "#e5e7eb") (cl "var(--color-border)")) s9 := by
    rw [hs9]
    exact rewriteAll_noMatch_keep _ _ MF_9_8 s8 c_8_8
  have c_10_10 : NoMatchF (litMatch (cl "#9ca3af") (cl "var(--color-text-muted)")) s10 := by
    rw [hs10]
    exact rewriteAll_noMatch_self _ MF_10_10 s9
  have c_10_1 : NoMatchF (tryBgOpacity) s10 := by
    rw [hs10]
    exact rewriteAll_noMatch_keep _ _ MF_10_1 s9 c_9_1
  have c_10_2 : NoMatchF (tryBorderOpacity) s10 := by
    rw [hs10]
    exact rewriteAll_noMatch_keep _ _ MF_10_2 s9 c_9_2
  have c_10_3 : NoMatchF (tryHoverBgOpacity) s10 := by
    rw [hs10]
    exact rewriteAll_noMatch_keep _ _ MF_10_3 s9 c_9_3
  have c_10_4 : NoMatchF (tryText) s10 := by
    rw [hs10]
    exact rewriteAll_noMatch_keep _ _ MF_10_4 s9 c_9_4
  have c_10_5 : NoMatchF (tryBgSolid) s10 := by
    rw [hs10]
    exact rewriteAll_noMatch_keep _ _ MF_10_5 s9 c_9_5
  have c_10_6 : NoMatchF (tryBorderSolid) s10 := by
    rw [hs10]
    exact rewriteAll_noMatch_keep _ _ MF_10_6 s9 c_9_6
  have c_10_7 : NoMatchF (tryRing) s10 := by
    rw [hs10]
    exact rewriteAll_noMatch_keep _ _ MF_10_7 s9 c_9_7
  have c_10_8 : NoMatchF (litMatch (cl "#e5e7eb") (cl "var(--color-border)")) s10 := by
    rw [hs10]
    exact rewriteAll_noMatch_keep _ _ MF_10_8 s9 c_9_8
  have c_10_9 : NoMatchF (litMatch (cl "#d1d5db") (cl "var(--color-border)")) s10 := by
    rw [hs10]
    exact rewriteAll_noMatch_keep _ _ MF_10_9 s9 c_9_9
  have c_11_11 : NoMatchF (litMatch (cl "#6b7280") (cl "var(--color-text-muted)")) s11 := by
    rw [hs11]
    exact rewriteAll_noMatch_self _ MF_11_11 s10
  have c_11_1 : NoMatchF (tryBgOpacity) s11 := by
    rw [hs11]
    exact rewriteAll_noMatch_keep _ _ MF_11_1 s10 c_10_1
  have c_11_2 : NoMatchF (tryBorderOpacity) s11 := by
    rw [hs11]
    exact rewriteAll_noMatch_keep _ _ MF_11_2 s10 c_10_2
  have c_11_3 : NoMatchF (tryHoverBgOpacity) s11 := by
    rw [hs11]
    exact rewriteAll_noMatch_keep _ _ MF_11_3 s10 c_10_3
  have c_11_4 : NoMatchF (tryText) s11 := by
    rw [hs11]
    exact rewriteAll_noMatch_keep _ _ MF_11_4 s10 c_10_4
  have c_11_5 : NoMatchF (tryBgSolid) s11 := by
    rw [hs11]
    exact rewriteAll_noMatch_keep _ _ MF_11_5 s10 c_10_5
  have c_11_6 : NoMatchF (tryBorderSolid) s11 := by
    rw [hs11]
    exact rewriteAll_noMatch_keep _ _ MF_11_6 s10 c_10_6
  have c_11_7 : NoMatchF (tryRing) s11 := by
    rw [hs11]
    exact rewriteAll_noMatch_keep _ _ MF_11_7 s10 c_10_7
  have c_11_8 : NoMatchF (litMatch (cl "#e5e7eb") (cl "var(--color-border)")) s11 := by
    rw [hs11]
    exact rewriteAll_noMatch_keep _ _ MF_11_8 s10 c_10_8
  have c_11_9 : NoMatchF (litMatch (cl "#d1d5db") (cl "var(--color-border)")) s11 := by
    rw [hs11]
    exact rewriteAll_noMatch_keep _ _ MF_11_9 s10 c_10_9
  have c_11_10 : NoMatchF (litMatch (cl "#9ca3af") (cl "var(--color-text-muted)")) s11 := by
    rw [hs11]
    exact rewriteAll_noMatch_keep _ _ MF_11_10 s10 c_10_10
  have c_12_12 : NoMatchF (litMatch (cl "#4b5563") (cl "var(--color-text-secondary)")) s12 := by
    rw [hs12]
    exact rewriteAll_noMatch_self _ MF_12_12 s11
  have c_12_1 : NoMatchF (tryBgOpacity) s12 := by
    rw [hs12]
    exact rewriteAll_noMatch_keep _ _ MF_12_1 s11 c_11_1
  have c_12_2 : NoMatchF (tryBorderOpacity) s12 := by
    rw [hs12]
    exact rewriteAll_noMatch_keep _ _ MF_12_2 s11 c_11_2
  have c_12_3 : NoMatchF (tryHoverBgOpacity) s12 := by
    rw [hs12]
    exact rewriteAll_noMatch_keep _ _ MF_12_3 s11 c_11_3
  have c_12_4 : NoMatchF (tryText) s12 := by
    rw [hs12]
    exact rewriteAll_noMatch_keep _ _ MF_12_4 s11 c_11_4
  have c_12_5 : NoMatchF (tryBgSolid) s12 := by
    rw [hs12]
    exact rewriteAll_noMatch_keep _ _ MF_12_5 s11 c_11_5
  have c_12_6 : NoMatchF (tryBorderSolid) s12 := by
    rw [hs12]
    exact rewriteAll_noMatch_keep _ _ MF_12_6 s11 c_11_6
  have c_12_7 : NoMatchF (tryRing) s12 := by
    rw [hs12]
    exact rewriteAll_noMatch_keep _ _ MF_12_7 s11 c_11_7
  have c_12_8 : NoMatchF (litMatch (cl "#e5e7eb") (cl "var(--color-border)")) s12 := by
    rw [hs12]
    exact rewriteAll_noMatch_keep _ _ MF_12_8 s11 c_11_8
  have c_12_9 : NoMatchF (litMatch (cl "#d1d5db") (cl "var(--color-border)")) s12 := by
    rw [hs12]
    exact rewriteAll_noMatch_keep _ _ MF_12_9 s11 c_11_9
  have c_12_10 : NoMatchF (litMatch (cl "#9ca3af") (cl "var(--color-text-muted)")) s12 := by
    rw [hs12]
    exact rewriteAll_noMatch_keep _ _ MF_12_10 s11 c_11_10
  have c_12_11 : NoMatchF (litMatch (cl "#6b7280") (cl "var(--color-text-muted)")) s12 := by
    rw [hs12]
    exact rewriteAll_noMatch_keep _ _ MF_12_11 s11 c_11_11
  have c_13_13 : NoMatchF (litMatch (cl "#374151") (cl "var(--color-text)")) s13 := by
    rw [hs13]
    exact rewriteAll_noMatch_self _ MF_13_13 s12
  have c_13_1 : NoMatchF (tryBgOpacity) s13 := by
    rw [hs13]
    exact rewriteAll_noMatch_keep _ _ MF_13_1 s12 c_12_1
  have c_13_2 : NoMatchF (tryBorderOpacity) s13 := by
    rw [hs13]
    exact rewriteAll_noMatch_keep _ _ MF_13_2 s12 c_12_2
  have c_13_3 : NoMatchF (tryHoverBgOpacity) s13 := by
    rw [hs13]
    exact rewriteAll_noMatch_keep _ _ MF_13_3 s12 c_12_3
  have c_13_4 : NoMatchF (tryText) s13 := by
    rw [hs13]
    exact rewriteAll_noMatch_keep _ _ MF_13_4 s12 c_12_4
  have c_13_5 : NoMatchF (tryBgSolid) s13 := by
    rw [hs13]
    exact rewriteAll_noMatch_keep _ _ MF_13_5 s12 c_12_5
  have c_13_6 : NoMatchF (tryBorderSolid) s13 := by
    rw [hs13]
    exact rewriteAll_noMatch_keep _ _ MF_13_6 s12 c_12_6
  have c_13_7 : NoMatchF (tryRing) s13 := by
    rw [hs13]
    exact rewriteAll_noMatch_keep _ _ MF_13_7 s12 c_12_7
  have c_13_8 : NoMatchF (litMatch (cl "#e5e7eb") (cl "var(--color-border)")) s13 := by
    rw [hs13]
    exact rewriteAll_noMatch_keep _ _ MF_13_8 s12 c_12_8
  have c_13_9 : NoMatchF (litMatch (cl "#d1d5db") (cl "var(--color-border)")) s13 := by
    rw [hs13]
    exact rewriteAll_noMatch_keep _ _ MF_13_9 s12 c_12_9
  have c_13_10 : NoMatchF (litMatch (cl "#9ca3af") (cl "var(--color-text-muted)")) s13 := by
    rw [hs13]
    exact rewriteAll_noMatch_keep _ _ MF_13_10 s12 c_12_10
  have c_13_11 : NoMatchF (litMatch (cl "#6b7280") (cl "var(--color-text-muted)")) s13 := by
    rw [hs13]
    exact rewriteAll_noMatch_keep _ _ MF_13_11 s12 c_12_11
  have c_13_12 : NoMatchF (litMatch (cl "#4b5563") (cl "var(--color-text-secondary)")) s13 := by
    rw [hs13]
    exact rewriteAll_noMatch_keep _ _ MF_13_12 s12 c_12_12
  have hmig : migrate_content content = s13 := by
    rw [migrate_content_eq content, ← hs1, ← hs2, ← hs3, ← hs4, ← hs5, ← hs6, ← hs7, ← hs8, ← hs9, ← hs10, ← hs11, ← hs12, ← hs13]
  rw [hmig, migrate_content_eq s13]
  rw [rewriteAll_fix tryBgOpacity s13 c_13_1]
  rw [rewriteAll_fix tryBorderOpacity s13 c_13_2]
  rw [rewriteAll_fix tryHoverBgOpacity s13 c_13_3]
  rw [rewriteAll_fix tryText s13 c_13_4]
  rw [rewriteAll_fix tryBgSolid s13 c_13_5]
  rw [rewriteAll_fix tryBorderSolid s13 c_13_6]
  rw [rewriteAll_fix tryRing s13 c_13_7]
  rw [replaceAll_fix (cl "#e5e7eb") (cl "var(--color-border)") s13 c_13_8]
  rw [replaceAll_fix (cl "#d1d5db") (cl "var(--color-border)") s13 c_13_9]
  rw [replaceAll_fix (cl "#9ca3af") (cl "var(--color-text-muted)") s13 c_13_10]
  rw [replaceAll_fix (cl "#6b7280") (cl "var(--color-text-muted)") s13 c_13_11]
  rw [replaceAll_fix (cl "#4b5563") (cl "var(--color-text-secondary)") s13 c_13_12]
  rw [replaceAll_fix (cl "#374151") (cl "var(--color-text)") s13 c_13_13]

end Migrate

end FrontierAlpha
